import Mathlib

/-!
# Motsognir gopher server: selector pipeline, percent codec, containment check

A shallow embedding of the string-handling core of `motsognir.c`.

A C string is modelled as the list of its bytes before the terminating NUL,
each byte being a natural number in `1..255` (the unsigned view of `char`).
The range tests of the source (`>= 'a' && <= 'z'`, `> 0 && < 32`) and its bit
masks give the same answer on the signed and on the unsigned view of a byte,
so the embedding does not depend on the signedness of `char`.
-/

namespace Motsognir

/-! ## Byte strings -/

/-- Well-formed C string content: every byte lies in `1..255`. -/
def IsCString (s : List Nat) : Prop := ∀ b ∈ s, 0 < b ∧ b < 256

instance (s : List Nat) : Decidable (IsCString s) :=
  inferInstanceAs (Decidable (∀ b ∈ s, 0 < b ∧ b < 256))

/-- The C string stored at offset `p` of a buffer: the bytes up to the first NUL. -/
def cstrAt (buf : List Nat) (p : Nat) : List Nat := (buf.drop p).takeWhile (fun b => b ≠ 0)

/-- Model of `stringstartswith(string, start)`: 1 when `start` is a prefix of `string`, else 0. -/
def stringstartswith : List Nat → List Nat → Nat
  | _, [] => 1
  | [], _ :: _ => 0
  | c :: string, d :: start => if c ≠ d then 0 else stringstartswith string start

/-- Model of `strstr(haystack, needle)`: offset of the first occurrence, if any. -/
def strstr : List Nat → List Nat → Option Nat
  | [], needle => if needle = [] then some 0 else none
  | c :: s, needle =>
    if stringstartswith (c :: s) needle = 1 then some 0
    else (strstr s needle).map (fun i => i + 1)

/-- Model of `lastcharofstring`: the last byte, or 0 for the empty string. -/
def lastcharofstring (s : List Nat) : Nat :=
  match s.getLast? with
  | some c => c
  | none => 0

/-! ## Percent codec -/

/-- Model of `hex2int`: value of one hex digit, `-1` for any other byte. -/
def hex2int (ch : Nat) : Int :=
  if ch = 48 then 0
  else if ch = 49 then 1
  else if ch = 50 then 2
  else if ch = 51 then 3
  else if ch = 52 then 4
  else if ch = 53 then 5
  else if ch = 54 then 6
  else if ch = 55 then 7
  else if ch = 56 then 8
  else if ch = 57 then 9
  else if ch = 65 ∨ ch = 97 then 10
  else if ch = 66 ∨ ch = 98 then 11
  else if ch = 67 ∨ ch = 99 then 12
  else if ch = 68 ∨ ch = 100 then 13
  else if ch = 69 ∨ ch = 101 then 14
  else if ch = 70 ∨ ch = 102 then 15
  else -1

/-- Model of `percdecode`: `none` stands for the non-zero return value, `some out`
for return value 0 with `out` the decoded string left in the buffer.  The write
index never overtakes the read index, so decoding in place reads the original bytes. -/
def percdecode : List Nat → Option (List Nat)
  | [] => some []
  | c :: rest =>
    if c ≠ 37 then
      (percdecode rest).map (fun out => (if c = 43 then 32 else c) :: out)
    else
      match rest with
      | [] => none
      | [_] => none
      | a :: b :: rest2 =>
        if a = 48 ∧ b = 48 then none
        else if hex2int a < 0 ∨ hex2int b < 0 then none
        else
          (percdecode rest2).map
            (fun out => (((hex2int a).toNat <<< 4 ||| (hex2int b).toNat) % 256) :: out)

/-- The lookup table `hexchar` of `percencode`. -/
def hexchar : List Nat := [48, 49, 50, 51, 52, 53, 54, 55, 56, 57, 65, 66, 67, 68, 69, 70]

/-- The test made by the inner pseudo-loop of `percencode`: does the byte need encoding? -/
def encodingrequired (c : Nat) : Bool :=
  if 97 ≤ c ∧ c ≤ 122 then false
  else if 65 ≤ c ∧ c ≤ 90 then false
  else if 48 ≤ c ∧ c ≤ 57 then false
  else if c = 45 ∨ c = 47 ∨ c = 95 ∨ c = 46 ∨ c = 126 then false
  else true

/-- The main loop of `percencode`; `dst` holds the `dstlen` bytes written so far. -/
def percencodeLoop (dstmaxlen : Nat) : List Nat → List Nat → List Nat
  | [], dst => dst
  | c :: src, dst =>
    if dst.length + 4 ≥ dstmaxlen then dst
    else if encodingrequired c = false then percencodeLoop dstmaxlen src (dst ++ [c])
    else
      percencodeLoop dstmaxlen src
        (dst ++ [37, hexchar.getD ((c &&& 240) >>> 4) 0, hexchar.getD (c &&& 15) 0])

/-- Model of `percencode(src, dst, dstmaxlen)`: the string left in `dst`. -/
def percencode (src : List Nat) (dstmaxlen : Nat) : List Nat :=
  percencodeLoop dstmaxlen src []

/-! ## Security check -/

/-- Modelled from the spec: `binary.h` is not part of the sources at hand; its macros
spell their value in binary, here the high-bit mask. -/
def bx10000000 : Nat := 128
/-- Modelled from the spec: macro of the absent `binary.h`, value `0b11000000`. -/
def bx11000000 : Nat := 192
/-- Modelled from the spec: macro of the absent `binary.h`, value `0b11100000`. -/
def bx11100000 : Nat := 224
/-- Modelled from the spec: macro of the absent `binary.h`, value `0b11110000`. -/
def bx11110000 : Nat := 240

/-- The error strings returned by `gophersecuritycheck`, one constructor per message. -/
inductive SecurityError
  | tooLong
  | doubleTab
  | trailingTab
  | controlChar
  | invalidUtf8
  deriving DecidableEq

/-- The validation loop of `gophersecuritycheck`; reading past the end of the list
reads the NUL terminator, which is never a continuation byte. -/
def utf8scan : List Nat → Option SecurityError
  | [] => none
  | c :: rest =>
    if 0 < c ∧ c < 32 then some SecurityError.controlChar
    else if c &&& bx10000000 = 0 then utf8scan rest
    else if c &&& bx11100000 = bx11000000 then
      match rest with
      | n1 :: rest1 =>
        if n1 &&& bx11000000 = bx10000000 then utf8scan rest1
        else some SecurityError.invalidUtf8
      | [] => some SecurityError.invalidUtf8
    else if c &&& bx11110000 = bx11100000 then
      match rest with
      | n1 :: n2 :: rest2 =>
        if n1 &&& bx11000000 = bx10000000 ∧ n2 &&& bx11000000 = bx10000000 then utf8scan rest2
        else some SecurityError.invalidUtf8
      | _ => some SecurityError.invalidUtf8
    else some SecurityError.invalidUtf8

/-- Model of `gophersecuritycheck`: `none` is the NULL return, `some e` an error string. -/
def gophersecuritycheck (GophRequest : List Nat) : Option SecurityError :=
  if GophRequest.length > 512 then some SecurityError.tooLong
  else if (strstr GophRequest [9, 9]).isSome then some SecurityError.doubleTab
  else if lastcharofstring GophRequest = 9 then some SecurityError.trailingTab
  else utf8scan GophRequest

/-! ## Secondary-parameter split -/

/-- The scanning loop of `explode_serverside_params_from_query`: `i` is the offset of
`ptr`, `queposition` the value found so far; returns `(queposition, tabposition)`. -/
def scanPositions (securldelim : Nat) : List Nat → Nat → Option Nat → Option Nat × Option Nat
  | [], _, queposition => (queposition, none)
  | c :: rest, i, queposition =>
    let que1 := if c = 63 ∧ queposition = none then some i else queposition
    let que2 := if c = securldelim ∧ que1 = none then some i else que1
    if c = 9 then (que2, some i) else scanPositions securldelim rest (i + 1) que2

/-- The second loop of `explode_serverside_params_from_query`: overwrite the first TAB
met before the terminating NUL with a NUL. -/
def zeroFirstTab : List Nat → List Nat
  | [] => []
  | c :: rest => if c = 0 then c :: rest else if c = 9 then 0 :: rest else c :: zeroFirstTab rest

/-- The three results of the split: the selector left in the buffer and `res[0]`, `res[1]`. -/
structure Exploded where
  path : List Nat
  url_query : Option (List Nat)
  search_query : Option (List Nat)
  deriving DecidableEq

/-- Model of `explode_serverside_params_from_query(directorytolist, config)`; the buffer
is the selector followed by its NUL, and the writes `*ptr = 0` are kept as writes. -/
def explode_serverside_params_from_query (directorytolist : List Nat) (securldelim : Nat) :
    Exploded :=
  let pos := scanPositions securldelim directorytolist 0 none
  let buf0 := directorytolist ++ [0]
  let afterTab : List Nat × Option (List Nat) :=
    match pos.2 with
    | some t =>
      let buf := buf0.take (t + 1) ++ zeroFirstTab (buf0.drop (t + 1))
      (buf.set t 0, some (cstrAt buf (t + 1)))
    | none => (buf0, none)
  let afterQue : List Nat × Option (List Nat) :=
    match pos.1 with
    | some q => (afterTab.1.set q 0, some (cstrAt afterTab.1 (q + 1)))
    | none => (afterTab.1, none)
  { path := cstrAt afterQue.1 0, url_query := afterQue.2, search_query := afterTab.2 }

/-! ## Selector pipeline of `main` -/

/-- Model of `requestlookslikehttp`. -/
def requestlookslikehttp (req : List Nat) : Nat :=
  if stringstartswith req [71, 69, 84, 32, 47] = 1 then
    if (strstr req [32, 72, 84, 84, 80, 47]).isSome then 1 else 0
  else 0

/-- Model of `requestlookslikegopherplus`. -/
def requestlookslikegopherplus (req : List Nat) : Nat :=
  if req = [9, 36] then 1 else 0

/-- What `main` does with a selector line between reading it and building the local path. -/
inductive PipelineOutcome
  | httpError
  | gopherPlus
  | urlRedirect
  | decodeFailed
  | rejected (e : SecurityError)
  | accepted (path : List Nat) (url_query search_query : Option (List Nat))
  deriving DecidableEq

/-- The selector pipeline of `main` (no plugin configured, or the plugin wrote nothing):
empty request, HTTP / Gopher+ / URL detection, prepending of the slash, split,
percent-decoding of the path and security check. -/
def selectorPipeline (securldelim : Nat) (raw : List Nat) : PipelineOutcome :=
  let line := if raw = [] then [47] else raw
  if requestlookslikehttp line ≠ 0 then PipelineOutcome.httpError
  else if requestlookslikegopherplus line ≠ 0 then PipelineOutcome.gopherPlus
  else if stringstartswith line [85, 82, 76, 58] = 1 then PipelineOutcome.urlRedirect
  else
    let directorytolist := if line.head? ≠ some 47 then 47 :: line else line
    let srvsideparams := explode_serverside_params_from_query directorytolist securldelim
    match percdecode srvsideparams.path with
    | none => PipelineOutcome.decodeFailed
    | some decoded =>
      match gophersecuritycheck decoded with
      | some e => PipelineOutcome.rejected e
      | none => PipelineOutcome.accepted decoded srvsideparams.url_query srvsideparams.search_query

/-! ## Containment check -/

/-- The loop of `checkforevasion` over the NULL-terminated `pubdirlist`. -/
def pubdirscan (resolvedpath : List Nat) : List (List Nat) → Nat
  | [] => 1
  | p :: rest => if stringstartswith resolvedpath p ≠ 0 then 0 else pubdirscan resolvedpath rest

/-- Model of `checkforevasion(gopherroot, pubdirlist, localfile)`.  The call to the
operating system `realpath(localfile, resolvedpath)` is a parameter: `none` when it
returns NULL, `some p` with `p` the canonical absolute path otherwise.  A NULL
`pubdirlist` is the empty list. -/
def checkforevasion (gopherroot : List Nat) (pubdirlist : List (List Nat))
    (realpath : Option (List Nat)) : Nat :=
  match realpath with
  | none => 0
  | some resolved =>
    let resolvedpath := resolved ++ [47]
    if stringstartswith resolvedpath gopherroot ≠ 0 then 0
    else pubdirscan resolvedpath pubdirlist

/-! ## Reference definitions, written from the specification -/

/-- Components of a path: the non-empty names between slashes, `cur` being the name
under construction. -/
def pathComponentsAux : List Nat → List Nat → List (List Nat)
  | [], cur => if cur = [] then [] else [cur]
  | c :: s, cur =>
    if c = 47 then
      if cur = [] then pathComponentsAux s [] else cur :: pathComponentsAux s []
    else pathComponentsAux s (cur ++ [c])

/-- Components of a path, e.g. `["srv", "gopher"]` for `/srv/gopher/`. -/
def pathComponents (p : List Nat) : List (List Nat) := pathComponentsAux p []

/-- Specification notion: `p` is `root` itself or lies below it in the directory tree. -/
def IsWithin (root p : List Nat) : Prop := pathComponents root <+: pathComponents p

instance (root p : List Nat) : Decidable (IsWithin root p) :=
  inferInstanceAs (Decidable (pathComponents root <+: pathComponents p))

/-- Specification notion of a hex digit, either case. -/
def isHexDigit (c : Nat) : Bool :=
  (48 ≤ c && c ≤ 57) || (65 ≤ c && c ≤ 70) || (97 ≤ c && c ≤ 102)

/-- Specification notion: numeric value of a hex digit. -/
def hexDigitValue (c : Nat) : Nat :=
  if c ≤ 57 then c - 48 else if c ≤ 70 then c - 55 else c - 87

/-- Reference percent-decoder, following the specification: `+` becomes a space, `%HH`
the byte of that value unless `HH` is `00`, any other byte is copied; a truncated or
non-hex escape and `%00` make it fail. -/
def referenceDecode : List Nat → Option (List Nat)
  | [] => some []
  | c :: rest =>
    if c = 43 then (referenceDecode rest).map (fun out => 32 :: out)
    else if c = 37 then
      match rest with
      | h1 :: h2 :: rest2 =>
        if isHexDigit h1 && isHexDigit h2 && !(h1 == 48 && h2 == 48) then
          (referenceDecode rest2).map (fun out => (16 * hexDigitValue h1 + hexDigitValue h2) :: out)
        else none
      | _ => none
    else (referenceDecode rest).map (fun out => c :: out)

/-- Specification condition for success: every `%` met by the left-to-right scan is
followed by two hex digits that are not both `0`. -/
def escapesWellFormed : List Nat → Bool
  | [] => true
  | c :: rest =>
    if c = 37 then
      match rest with
      | h1 :: h2 :: rest2 =>
        isHexDigit h1 && isHexDigit h2 && !(h1 == 48 && h2 == 48) && escapesWellFormed rest2
      | _ => false
    else escapesWellFormed rest

/-- Specification set of bytes passed through by the encoder: ASCII letters, digits
and `-`, `/`, `_`, `.`, `~`. -/
def isUnreserved (b : Nat) : Bool :=
  (65 ≤ b && b ≤ 90) || (97 ≤ b && b ≤ 122) || (48 ≤ b && b ≤ 57) ||
    b == 45 || b == 47 || b == 95 || b == 46 || b == 126

/-- Specification notion: the uppercase hex digit of a value below 16. -/
def upperHexDigit (v : Nat) : Nat := if v < 10 then 48 + v else 55 + v

/-- Reference encoder, following the specification: unreserved bytes are copied, any other
byte `b` becomes `%` and the two uppercase hex digits of `b`. -/
def referenceEncode (s : List Nat) : List Nat :=
  s.flatMap (fun b => if isUnreserved b then [b] else [37, upperHexDigit (b / 16), upperHexDigit (b % 16)])

/-- Reference split, following the specification: `t` is the first TAB, `q` the first
`?` or (non-zero) delimiter located before `t`. -/
def referenceSplit (d : Nat) (s : List Nat) : Exploded :=
  let t := s.findIdx (fun c => c == 9)
  let q := (s.take t).findIdx (fun c => c == 63 || (d != 0 && c == d))
  { path := if q < t then s.take q else s.take t,
    url_query := if q < t then some ((s.take t).drop (q + 1)) else none,
    search_query :=
      if t < s.length then some ((s.drop (t + 1)).takeWhile (fun c => c != 9)) else none }

/-- Specification notion: a UTF-8 continuation byte `10xxxxxx`. -/
def isContinuation (b : Nat) : Prop := 128 ≤ b ∧ b ≤ 191

/-- Specification notion: every byte with the high bit set belongs to a two-byte sequence
(`110xxxxx 10xxxxxx`) or a three-byte sequence (`1110xxxx 10xxxxxx 10xxxxxx`) that it
starts or continues. -/
inductive HighBytesInSequences : List Nat → Prop
  | done : HighBytesInSequences []
  | low (b : Nat) (rest : List Nat) : b < 128 → HighBytesInSequences rest →
      HighBytesInSequences (b :: rest)
  | two (l c : Nat) (rest : List Nat) : 192 ≤ l → l ≤ 223 → isContinuation c →
      HighBytesInSequences rest → HighBytesInSequences (l :: c :: rest)
  | three (l c1 c2 : Nat) (rest : List Nat) : 224 ≤ l → l ≤ 239 → isContinuation c1 →
      isContinuation c2 → HighBytesInSequences rest → HighBytesInSequences (l :: c1 :: c2 :: rest)

/-! ## C library and small string helpers -/

/-- What `snprintf(dst, size, "%s...", ...)` leaves in `dst`: at most `size - 1` bytes of
the formatted text. -/
def cTruncate (size : Nat) (text : List Nat) : List Nat := text.take (size - 1)

/-- What `sendline` and the other readers of a buffer see: the bytes before the first NUL. -/
def cstr (buf : List Nat) : List Nat := buf.takeWhile (fun b => b ≠ 0)

/-- Model of the C library `tolower` in the C locale, on the unsigned value of a byte. -/
def tolower (c : Nat) : Nat := if 65 ≤ c ∧ c ≤ 90 then c + 32 else c

/-- Model of the C library `strcasecmp`: difference of the first two bytes that differ
after lowering, the end of a string counting as 0. -/
def strcasecmp : List Nat → List Nat → Int
  | [], [] => 0
  | [], b :: _ => 0 - (tolower b : Int)
  | a :: _, [] => (tolower a : Int)
  | a :: s1, b :: s2 =>
    if tolower a ≠ tolower b then (tolower a : Int) - (tolower b : Int) else strcasecmp s1 s2

/-- Model of the C library `isspace` in the C locale. -/
def isspace (c : Nat) : Bool := c = 32 ∨ (9 ≤ c ∧ c ≤ 13)

/-- The digit loop of `atol`: accumulate decimal digits, stop at the first other byte. -/
def atolDigits : List Nat → Nat → Nat
  | [], acc => acc
  | c :: rest, acc => if 48 ≤ c ∧ c ≤ 57 then atolDigits rest (acc * 10 + (c - 48)) else acc

/-- Model of the C library `atol` (values that fit a `long`): leading white space, an
optional sign, then decimal digits. -/
def atol (s : List Nat) : Int :=
  match s.dropWhile isspace with
  | 45 :: rest => - (atolDigits rest 0 : Int)
  | 43 :: rest => (atolDigits rest 0 : Int)
  | s1 => (atolDigits s1 0 : Int)

/-- Decimal digits of a natural number, most significant first, in front of `acc`. -/
def decimalAux : Nat → Nat → List Nat → List Nat
  | 0, _, acc => acc
  | fuel + 1, n, acc =>
    if n < 10 then (48 + n) :: acc else decimalAux fuel (n / 10) ((48 + n % 10) :: acc)

/-- What the conversions `%d` and `%ld` of `snprintf` print. -/
def fmtInt (v : Int) : List Nat :=
  if v < 0 then 45 :: decimalAux (v.natAbs + 1) v.natAbs []
  else decimalAux (v.natAbs + 1) v.natAbs []

/-- Model of `stringendswith(string, end)`. -/
def stringendswith (string ending : List Nat) : Nat :=
  if string.length < ending.length then 0
  else if ending.length = 0 then 1
  else if string.drop (string.length - ending.length) = ending then 1 else 0

/-- Model of `getfileextension`: the bytes after the last `.`, or the empty string. -/
def getfileextension (filename : List Nat) : List Nat :=
  match (filename.reverse).indexOf? 46 with
  | some i => filename.drop (filename.length - i)
  | none => []

/-- The loop of `getdirpart`: index of the last `/` seen, scanning from offset `i`. -/
def lastSlashIndex : List Nat → Nat → Option Nat → Option Nat
  | [], _, lastslash => lastslash
  | c :: rest, i, lastslash => lastSlashIndex rest (i + 1) (if c = 47 then some i else lastslash)

/-- Model of `getdirpart`: the directory part of a path. -/
def getdirpart (s : List Nat) : List Nat :=
  match lastSlashIndex s 0 none with
  | none => [46]
  | some 0 => [47]
  | some lastslash => s.take lastslash

/-! ## Path simplification -/

/-- The loop of `RemoveDoubleChar`: while `strstr` finds the doubled byte, shift the
rest of the string one byte to the left over its first occurrence.  Every pass shortens
the string, so `fuel` passes are enough for a string of `fuel` bytes. -/
def RemoveDoubleCharLoop (ch : Nat) : Nat → List Nat → List Nat
  | 0, string => string
  | fuel + 1, string =>
    match strstr string [ch, ch] with
    | none => string
    | some occur => RemoveDoubleCharLoop ch fuel (string.eraseIdx occur)

/-- Model of `RemoveDoubleChar(string, ch)`: the string left in the buffer. -/
def RemoveDoubleChar (string : List Nat) (ch : Nat) : List Nat :=
  RemoveDoubleCharLoop ch string.length string

/-- The backward scan of `computerelativepath` for the last `/` before `tempptr`: from
offset `i` down to offset 1, offset 0 being the answer when none is met. -/
def scanBackSlash (result : List Nat) : Nat → Nat
  | 0 => 0
  | i + 1 => if result.getD (i + 1) 0 = 47 then i + 1 else scanBackSlash result i

/-- The loop of `computerelativepath` that removes every `/../` with the path component
in front of it.  Every pass shortens the string by at least three bytes. -/
def simplifyDotDotLoop : Nat → List Nat → List Nat
  | 0, result => result
  | fuel + 1, result =>
    match strstr result [47, 46, 46, 47] with
    | none => result
    | some tempptr =>
      let lastslash := if tempptr = 0 then 0 else scanBackSlash result (tempptr - 1)
      simplifyDotDotLoop fuel (result.take lastslash ++ result.drop (tempptr + 3))

/-- The closing loop of `computerelativepath`: cut the string after the last `/` found
at an offset below `x`, leave it as it is when there is none. -/
def cutAfterLastSlash (result : List Nat) : Nat → List Nat
  | 0 => result
  | x + 1 => if result.getD x 0 = 47 then result.take (x + 1) else cutAfterLastSlash result x

/-- Model of `computerelativepath(result, result_maxlen, curdir, relpath)`: the string
left in `result`. -/
def computerelativepath (result_maxlen : Nat) (curdir relpath : List Nat) : List Nat :=
  let glued := cTruncate result_maxlen (curdir ++ [47] ++ relpath)
  let nodouble := RemoveDoubleChar glued 47
  let result := simplifyDotDotLoop nodouble.length nodouble
  if result.length < 3 then result
  else
    let x := result.length - 3
    if result.getD x 0 = 47 ∧ result.getD (x + 1) 0 = 46 ∧ result.getD (x + 2) 0 = 46 then
      if x = 0 then result.take 1
      else cutAfterLastSlash (result.take x) x
    else result

/-! ## Gophermap lines -/

/-- The fields of `struct MotsognirConfig` read by the modelled functions.  The
extension map is kept as the lookup function `extmap_lookup` of `extmap.h`, whose
implementation is not part of the sources at hand. -/
structure MotsognirConfig where
  gopherhostname : List Nat
  gopherport : Int
  defaultgophermap : Option (List Nat)
  cgisupport : Int
  phpsupport : Int
  subgophermaps : Int
  extmap_lookup : List Nat → Nat

/-- The server emitted by `buildgophermapline` after its default values are applied. -/
def defaultedServer (server : List Nat) (port : Int) (config : MotsognirConfig) : List Nat :=
  if server.head? = none ∧ port = 0 then config.gopherhostname
  else if port = 0 then server
  else if server.head? = none then config.gopherhostname
  else server

/-- The port emitted by `buildgophermapline` after its default values are applied. -/
def defaultedPort (server : List Nat) (port : Int) (config : MotsognirConfig) : Int :=
  if server.head? = none ∧ port = 0 then config.gopherport
  else if port = 0 then
    if strcasecmp server config.gopherhostname = 0 then config.gopherport else 70
  else port

/-- The local buffer `itemselector` of `buildgophermapline` before the line is printed. -/
def resolvedSelector (itemtype : Nat) (selector itemserver curdirectory : List Nat)
    (config : MotsognirConfig) : List Nat :=
  if itemtype ≠ 105 ∧ selector.head? ≠ some 47 ∧ selector.head? ≠ none ∧
      strcasecmp itemserver config.gopherhostname = 0 ∧
      stringstartswith selector [85, 82, 76, 58] = 0 then
    computerelativepath 1024 curdirectory selector
  else cTruncate 1024 selector

/-- The text printed by the format `"%c%s\t%s\t%s\t%ld"`. -/
def menuLineText (itemtype : Nat) (desc selector server : List Nat) (port : Int) : List Nat :=
  itemtype :: (desc ++ [9] ++ selector ++ [9] ++ server ++ [9] ++ fmtInt port)

/-- Model of `buildgophermapline`: the content of `linebuff` on return. -/
def buildgophermapline (linebuff_len : Nat) (itemtype : Nat) (desc selector server : List Nat)
    (port : Int) (curdirectory : List Nat) (config : MotsognirConfig) : List Nat :=
  let itemserver := defaultedServer server port config
  let itemport := defaultedPort server port config
  let itemselector := resolvedSelector itemtype selector itemserver curdirectory config
  cTruncate linebuff_len (menuLineText itemtype desc itemselector itemserver itemport)

/-- How one of the four reading loops of `explodegophermapline` ends. -/
inductive FieldRead
  | overflow
  | nul (field : List Nat)
  | tab (field rest : List Nat)
  deriving DecidableEq

/-- One reading loop of `explodegophermapline`: `acc` holds the `x` bytes stored so far,
`limit` is the value of `x` at which the function gives up. -/
def readField (limit : Nat) : List Nat → List Nat → FieldRead
  | [], acc => if acc.length = limit then FieldRead.overflow else FieldRead.nul acc
  | c :: rest, acc =>
    if acc.length = limit then FieldRead.overflow
    else if c = 9 then FieldRead.tab acc rest
    else readField limit rest (acc ++ [c])

/-- The five values filled by `explodegophermapline`. -/
structure GophermapItem where
  itemtype : Nat
  itemdesc : List Nat
  itemselector : List Nat
  itemserver : List Nat
  itemport : Int
  deriving DecidableEq

/-- The last two statements of `explodegophermapline`: `atol` and the range test. -/
def portOfString (tmpstring : List Nat) : Int :=
  if atol tmpstring < 1 ∨ atol tmpstring > 65535 then 0 else atol tmpstring

/-- Model of `explodegophermapline`: `none` is the return value -1, `some item` the
return value 0.  `tmpstring` is what the local buffer of that name holds on entry: the
source does not initialise it, and the port loop writes it only when the port field is
not empty. -/
def explodegophermapline (tmpstring : List Nat) (linebuff : List Nat) : Option GophermapItem :=
  match linebuff with
  | [] => some ⟨105, [], [], [], 0⟩
  | itemtype :: l1 =>
    match readField 1023 l1 [] with
    | FieldRead.overflow => none
    | FieldRead.nul itemdesc => some ⟨itemtype, itemdesc, [], [], 0⟩
    | FieldRead.tab itemdesc l2 =>
      match readField 1023 l2 [] with
      | FieldRead.overflow => none
      | FieldRead.nul itemselector => some ⟨itemtype, itemdesc, itemselector, [], 0⟩
      | FieldRead.tab itemselector l3 =>
        match readField 63 l3 [] with
        | FieldRead.overflow => none
        | FieldRead.nul itemserver => some ⟨itemtype, itemdesc, itemselector, itemserver, 0⟩
        | FieldRead.tab itemserver l4 =>
          match readField 8 l4 [] with
          | FieldRead.overflow => none
          | FieldRead.nul digits =>
            some ⟨itemtype, itemdesc, itemselector, itemserver,
              portOfString (if digits = [] then tmpstring else digits)⟩
          | FieldRead.tab digits _ =>
            some ⟨itemtype, itemdesc, itemselector, itemserver,
              portOfString (if digits = [] then tmpstring else digits)⟩

/-! ## Reading lines, sending files -/

/-- The loop of `sockreadline(sock, buf, n, NULL)` on a descriptor that delivers the bytes
of `stream` and then end of file: `buf` holds the `totRead` bytes stored so far.  The
result is `none` for the return value -1, `some buf` otherwise, with the bytes left
unread. -/
def sockreadlineLoop (n : Nat) : List Nat → List Nat → Bool → Option (List Nat) × List Nat
  | [], buf, gotatleastonebyte => (if gotatleastonebyte then some buf else none, [])
  | ch :: rest, buf, _ =>
    if ch = 13 then sockreadlineLoop n rest buf true
    else if ch = 10 then (some buf, rest)
    else if buf.length + 1 < n then sockreadlineLoop n rest (buf ++ [ch]) true
    else sockreadlineLoop n rest buf true

/-- Model of `sockreadline(sock, buf, n, NULL)`. -/
def sockreadline (n : Nat) (stream : List Nat) : Option (List Nat) × List Nat :=
  sockreadlineLoop n stream [] false

/-- The loop of `sendtxtfiletosock`: the lines passed to `sendline`.  Every pass reads at
least one byte, so `fuel` passes are enough for a file of less than `fuel` bytes. -/
def sendtxtLoop (n : Nat) : Nat → List Nat → List (List Nat)
  | 0, _ => []
  | fuel + 1, stream =>
    match sockreadline n stream with
    | (none, _) => []
    | (some buf, rest) =>
      (if cstr buf = [46] then [46, 32] else cstr buf) :: sendtxtLoop n fuel rest

/-- Model of `sendtxtfiletosock`: the lines sent, `content` being the bytes of the file
(`none` when it cannot be opened). -/
def sendtxtfiletosock (content : Option (List Nat)) : List (List Nat) :=
  match content with
  | none => []
  | some bytes => sendtxtLoop (1024 * 1024 - 1) (bytes.length + 1) bytes

/-- The text branch of the file dispatcher of `main`: the file, then the terminator. -/
def textFileResponse (content : Option (List Nat)) : List (List Nat) :=
  sendtxtfiletosock content ++ [[46]]

/-! ## Directory listing and gophermap engine -/

/-- The name and the kind (`d_type == DT_DIR`) of a `struct dirent`. -/
structure DirEntry where
  d_name : List Nat
  isDir : Bool
  deriving DecidableEq

/-- The operating system as seen by the menu functions: file contents (`none` when
`fopen` fails), `opendir`, the sorted array of `scandir` (`none` when it fails), the
output of a command run by `popen` (`none` when it fails), `realpath`, and the bytes
found in the uninitialised buffer of `explodegophermapline` at each of its calls. -/
structure World where
  fileContent : List Nat → Option (List Nat)
  opendir : List Nat → Bool
  scandir : List Nat → Option (List DirEntry)
  popen : List Nat → Option (List Nat)
  realpath : List Nat → Option (List Nat)
  tmpstring : Nat → Nat → List Nat

/-- The file name `gophermap`. -/
def gophermapName : List Nat := [103, 111, 112, 104, 101, 114, 109, 97, 112]
/-- The file name `gophermap.cgi`. -/
def gophermapCgiName : List Nat := [103, 111, 112, 104, 101, 114, 109, 97, 112, 46, 99, 103, 105]
/-- The file name `gophermap.php`. -/
def gophermapPhpName : List Nat := [103, 111, 112, 104, 101, 114, 109, 97, 112, 46, 112, 104, 112]
/-- The menu line `3Error: could not access directory<TAB>fake<TAB>fake<TAB>0`. -/
def accessErrorLine : List Nat :=
  [51, 69, 114, 114, 111, 114, 58, 32, 99, 111, 117, 108, 100, 32, 110, 111, 116, 32, 97, 99,
    99, 101, 115, 115, 32, 100, 105, 114, 101, 99, 116, 111, 114, 121, 9, 102, 97, 107, 101, 9,
    102, 97, 107, 101, 9, 48]
/-- The menu line `iThis directory is empty.<TAB>fake<TAB>fake<TAB>0`. -/
def emptyDirLine : List Nat :=
  [105, 84, 104, 105, 115, 32, 100, 105, 114, 101, 99, 116, 111, 114, 121, 32, 105, 115, 32,
    101, 109, 112, 116, 121, 46, 9, 102, 97, 107, 101, 9, 102, 97, 107, 101, 9, 48]
/-- The menu line `3Parsing error<TAB>fake<TAB>fake<TAB>0`. -/
def parsingErrorLine : List Nat :=
  [51, 80, 97, 114, 115, 105, 110, 103, 32, 101, 114, 114, 111, 114, 9, 102, 97, 107, 101, 9,
    102, 97, 107, 101, 9, 48]
/-- The directive `%FILES%`. -/
def filesDirective : List Nat := [37, 70, 73, 76, 69, 83, 37]
/-- The directive `%DIRS%`. -/
def dirsDirective : List Nat := [37, 68, 73, 82, 83, 37]

/-- Model of `DetectGopherType`: the extension-map lookup of the file extension. -/
def DetectGopherType (filename : List Nat) (config : MotsognirConfig) : Nat :=
  config.extmap_lookup (getfileextension filename)

/-- One pass of the loop of `outputdircontent`: the line sent for an entry, `none` when
the entry is skipped. -/
def dirEntryLine (config : MotsognirConfig) (directorytolist : List Nat) (dirsonly : Int)
    (e : DirEntry) : Option (List Nat) :=
  if e.d_name.head? = some 46 then none
  else if e.d_name = gophermapName then none
  else if e.d_name = gophermapCgiName then none
  else if e.d_name = gophermapPhpName then none
  else if e.isDir = false ∧ dirsonly ≠ 0 then none
  else
    let entrytype := if e.isDir then 49 else DetectGopherType e.d_name config
    let entryselector := cTruncate 1024 (directorytolist ++ e.d_name)
    let entryselector_encoded := percencode entryselector 1024
    some (cstr (cTruncate 2048
      (menuLineText entrytype e.d_name entryselector_encoded config.gopherhostname
        config.gopherport)))

/-- Model of `outputdircontent`: the lines sent.  One line is sent per displayed entry,
so no line sent means `entriesdisplayed == 0`. -/
def outputdircontent (config : MotsognirConfig) (world : World) (localfile : List Nat)
    (directorytolist : List Nat) (dirsonly : Int) : List (List Nat) :=
  if world.opendir localfile = false then [accessErrorLine]
  else
    match world.scandir localfile with
    | none => []
    | some direntries =>
      let sent := direntries.filterMap (dirEntryLine config directorytolist dirsonly)
      if sent = [] then [emptyDirLine] else sent

/-- The reading loop of `execCgi` when `gophermapflag` is not 0: every line of the
output of the script is parsed and rebuilt; a line that does not parse ends the loop. -/
def cgiGophermapLoop (config : MotsognirConfig) (urldir : List Nat) (garbage : Nat → List Nat) :
    Nat → List Nat → List (List Nat)
  | 0, _ => []
  | fuel + 1, stream =>
    match sockreadline 4096 stream with
    | (none, _) => []
    | (some buf, rest) =>
      if buf.head? = some 35 then cgiGophermapLoop config urldir garbage fuel rest
      else
        match explodegophermapline (garbage fuel) (cstr buf) with
        | none => []
        | some item =>
          cstr (buildgophermapline 4096 item.itemtype item.itemdesc item.itemselector
            item.itemserver item.itemport urldir config)
            :: cgiGophermapLoop config urldir garbage fuel rest

/-- Model of `execCgi` called with `gophermapflag` not 0: the lines sent.  `launcher` is
`none` for a NULL launcher. -/
def execCgiGophermap (config : MotsognirConfig) (world : World) (localfile scriptname : List Nat)
    (launcher : Option (List Nat)) (garbage : Nat → List Nat) : List (List Nat) :=
  let cmd := match launcher with
    | none => localfile
    | some l => cTruncate 4096 (l ++ [32] ++ localfile)
  match world.popen cmd with
  | none => []
  | some out => cgiGophermapLoop config (getdirpart scriptname) garbage (out.length + 1) out

/-- The body of the loop of `outputgophermap` for one line of the gophermap; `k` numbers
the pass. -/
def gophermapLine (config : MotsognirConfig) (world : World) (localfile directorytolist : List Nat)
    (k : Nat) (linebuff : List Nat) : List (List Nat) :=
  if linebuff.head? = some 35 then []
  else if strcasecmp linebuff filesDirective = 0 then
    outputdircontent config world localfile directorytolist 0
  else if strcasecmp linebuff dirsDirective = 0 then
    outputdircontent config world localfile directorytolist 1
  else
    match explodegophermapline (world.tmpstring 0 k) linebuff with
    | none => [parsingErrorLine]
    | some item =>
      if item.itemtype = 61 then
        if config.subgophermaps ≠ 0 then
          match world.realpath item.itemdesc with
          | none => []
          | some realscriptname =>
            if config.phpsupport ≠ 0 ∧ getfileextension item.itemdesc = [112, 104, 112] then
              execCgiGophermap config world realscriptname directorytolist (some [112, 104, 112])
                (world.tmpstring (k + 1))
            else if config.cgisupport ≠ 0 then
              execCgiGophermap config world realscriptname directorytolist none
                (world.tmpstring (k + 1))
            else []
        else []
      else
        [cstr (buildgophermapline 4096 item.itemtype item.itemdesc item.itemselector
          item.itemserver item.itemport directorytolist config)]

/-- The loop of `outputgophermap` over the lines of the gophermap file. -/
def gophermapLoop (config : MotsognirConfig) (world : World) (localfile directorytolist : List Nat) :
    Nat → List Nat → List (List Nat)
  | 0, _ => []
  | fuel + 1, stream =>
    match sockreadline 1023 stream with
    | (none, _) => []
    | (some buf, rest) =>
      gophermapLine config world localfile directorytolist fuel (cstr buf)
        ++ gophermapLoop config world localfile directorytolist fuel rest

/-- Model of `outputgophermap`: the lines sent. -/
def outputgophermap (config : MotsognirConfig) (world : World)
    (localfile gophermapfile directorytolist : List Nat) : List (List Nat) :=
  if config.cgisupport ≠ 0 ∧ stringendswith gophermapfile [46, 99, 103, 105] ≠ 0 then
    execCgiGophermap config world gophermapfile directorytolist none (world.tmpstring 0)
  else if config.phpsupport ≠ 0 ∧ stringendswith gophermapfile [46, 112, 104, 112] ≠ 0 then
    execCgiGophermap config world gophermapfile directorytolist (some [112, 104, 112])
      (world.tmpstring 0)
  else
    match world.fileContent gophermapfile with
    | none => []
    | some bytes => gophermapLoop config world localfile directorytolist (bytes.length + 1) bytes

/-- Model of `fexist`. -/
def fexist (world : World) (filename : List Nat) : Nat :=
  if (world.fileContent filename).isSome then 1 else 0

/-- The search for a gophermap made by `outputdir`, both paths ending with a slash. -/
def outputdirBody (config : MotsognirConfig) (world : World)
    (localfile directorytolist : List Nat) : List (List Nat) :=
  if fexist world (cTruncate 5120 (localfile ++ gophermapName)) ≠ 0 then
    outputgophermap config world localfile (cTruncate 5120 (localfile ++ gophermapName))
      directorytolist
  else if config.cgisupport ≠ 0 ∧
      fexist world (cTruncate 5120 (localfile ++ gophermapCgiName)) ≠ 0 then
    execCgiGophermap config world (cTruncate 5120 (localfile ++ gophermapCgiName))
      directorytolist none (world.tmpstring 0)
  else if config.phpsupport ≠ 0 ∧
      fexist world (cTruncate 5120 (localfile ++ gophermapPhpName)) ≠ 0 then
    execCgiGophermap config world (cTruncate 5120 (localfile ++ gophermapPhpName))
      directorytolist (some [112, 104, 112]) (world.tmpstring 0)
  else
    match config.defaultgophermap with
    | some defaultgophermap =>
      outputgophermap config world localfile defaultgophermap directorytolist
    | none => outputdircontent config world localfile directorytolist 0

/-- Model of `outputdir`: the lines sent, the last being the terminator `.`. -/
def outputdir (config : MotsognirConfig) (world : World)
    (localfile directorytolist : List Nat) : List (List Nat) :=
  let localfile1 := if lastcharofstring localfile ≠ 47 then localfile ++ [47] else localfile
  let directorytolist1 :=
    if lastcharofstring directorytolist ≠ 47 then directorytolist ++ [47] else directorytolist
  outputdirBody config world localfile1 directorytolist1 ++ [[46]]

/-! ## Request path -/

/-- The selector `directorytolist` of `main` once the pipeline has accepted the request and
`RemoveDoubleChar(directorytolist, '/')` has run; `none` when the request is answered or
dropped before that point. -/
def pipelinePath (securldelim : Nat) (raw : List Nat) : Option (List Nat) :=
  match selectorPipeline securldelim raw with
  | PipelineOutcome.accepted path _ _ => some (RemoveDoubleChar path 47)
  | _ => none

/-! ## Reference definitions for the menu and file claims -/

/-- Specification notion: well-formed UTF-8 as defined by the Unicode standard (no
overlong form, no surrogate, nothing above U+10FFFF). -/
def wellFormedUtf8 : List Nat → Bool
  | [] => true
  | b0 :: rest =>
    if b0 ≤ 127 then wellFormedUtf8 rest
    else if 194 ≤ b0 ∧ b0 ≤ 223 then
      match rest with
      | b1 :: r => (128 ≤ b1 && b1 ≤ 191) && wellFormedUtf8 r
      | _ => false
    else if 224 ≤ b0 ∧ b0 ≤ 239 then
      match rest with
      | b1 :: b2 :: r =>
        ((if b0 = 224 then 160 else 128) ≤ b1 && b1 ≤ (if b0 = 237 then 159 else 191)) &&
          (128 ≤ b2 && b2 ≤ 191) && wellFormedUtf8 r
      | _ => false
    else if 240 ≤ b0 ∧ b0 ≤ 244 then
      match rest with
      | b1 :: b2 :: b3 :: r =>
        ((if b0 = 240 then 144 else 128) ≤ b1 && b1 ≤ (if b0 = 244 then 143 else 191)) &&
          (128 ≤ b2 && b2 ≤ 191) && (128 ≤ b3 && b3 ≤ 191) && wellFormedUtf8 r
      | _ => false
    else false

/-- Specification notion: two strings are equal up to the case of ASCII letters. -/
def EqIgnoringCase (a b : List Nat) : Prop := a.map tolower = b.map tolower

instance (a b : List Nat) : Decidable (EqIgnoringCase a b) :=
  inferInstanceAs (Decidable (a.map tolower = b.map tolower))

/-- Specification notion: the `k`-th TAB-separated field of a string, `none` when the
string has fewer fields. -/
def nthField : List Nat → Nat → Option (List Nat)
  | s, 0 => some (s.takeWhile (fun c => c != 9))
  | s, k + 1 =>
    match s.dropWhile (fun c => c != 9) with
    | [] => none
    | _ :: rest => nthField rest k

/-- Specification notion: the lines of a file, cut at every LF; `cur` is the line under
construction, and what follows the last LF is a line unless it is empty. -/
def fileLinesAux : List Nat → List Nat → List (List Nat)
  | [], cur => if cur = [] then [] else [cur]
  | c :: rest, cur => if c = 10 then cur :: fileLinesAux rest [] else fileLinesAux rest (cur ++ [c])

/-- Specification notion: the lines of a file. -/
def fileLines (bytes : List Nat) : List (List Nat) := fileLinesAux bytes []

/-- Specification notion: the escaping of a text line, `.` becoming `. `. -/
def escapeDot (line : List Nat) : List Nat := if line = [46] then [46, 32] else line

/-- What `sockreadline` with limit `n` keeps of a line of the file: the bytes other than
CR, at most `n - 1` of them, up to the first NUL. -/
def keptOfLine (n : Nat) (line : List Nat) : List Nat :=
  cstr ((line.filter (fun c => c != 13)).take (n - 1))

/-- One pass of the defaulting of a gophermap line, as made by the loop of
`outputgophermap`: the line is parsed by `explodegophermapline` and the line to send is
built by `buildgophermapline` in a buffer of 4096 bytes; `none` when the parse fails. -/
def defaultedLine (tmpstring curdirectory : List Nat) (config : MotsognirConfig)
    (line : List Nat) : Option (List Nat) :=
  match explodegophermapline tmpstring line with
  | none => none
  | some item =>
    some (cstr (buildgophermapline 4096 item.itemtype item.itemdesc item.itemselector
      item.itemserver item.itemport curdirectory config))

/-- A configuration whose hostname is 63 bytes long, port 70. -/
def longHostConfig : MotsognirConfig :=
  ⟨List.replicate 63 97, 70, none, 0, 0, 0, fun _ => 57⟩

/-- The names returned by `scandir` are C strings: they hold no NUL byte. -/
def WorldNamesOk (world : World) : Prop :=
  ∀ path entries, world.scandir path = some entries → ∀ e ∈ entries, 0 ∉ e.d_name

/-! ## The configuration and the directory of the end-to-end scenarios -/

/-- The configuration of the end-to-end scenarios: hostname `example.org`, port 70, CGI
and PHP off, extension map `txt` to `0`, `jpg` to `I`, anything else to `9`. -/
def scenarioConfig : MotsognirConfig :=
  { gopherhostname := [101, 120, 97, 109, 112, 108, 101, 46, 111, 114, 103],
    gopherport := 70,
    defaultgophermap := none,
    cgisupport := 0,
    phpsupport := 0,
    subgophermaps := 0,
    extmap_lookup := fun ext =>
      if ext = [116, 120, 116] then 48 else if ext = [106, 112, 103] then 73 else 57 }

/-- The gophermap of scenario 3: the lines `iHello<TAB>fake<TAB>fake<TAB>0` and
`0Readme<TAB>readme.txt<TAB><TAB>`, each ended by LF. -/
def scenarioGophermap : List Nat :=
  [105, 72, 101, 108, 108, 111, 9, 102, 97, 107, 101, 9, 102, 97, 107, 101, 9, 48, 10,
    48, 82, 101, 97, 100, 109, 101, 9, 114, 101, 97, 100, 109, 101, 46, 116, 120, 116, 9, 9, 10]

/-- The path `/srv/gopher/d/gophermap`. -/
def scenarioGophermapPath : List Nat :=
  [47, 115, 114, 118, 47, 103, 111, 112, 104, 101, 114, 47, 100, 47, 103, 111, 112, 104, 101,
    114, 109, 97, 112]

/-- The path `/srv/gopher/d/`. -/
def scenarioLocalDir : List Nat := [47, 115, 114, 118, 47, 103, 111, 112, 104, 101, 114, 47, 100, 47]

/-- A file system holding the gophermap of scenario 3 and nothing else, every directory
being empty; `garbage` is what every call of `explodegophermapline` finds in its
uninitialised buffer. -/
def scenarioWorld (garbage : List Nat) : World :=
  { fileContent := fun p => if p = scenarioGophermapPath then some scenarioGophermap else none,
    opendir := fun _ => true,
    scandir := fun _ => some [],
    popen := fun _ => none,
    realpath := fun _ => none,
    tmpstring := fun _ _ => garbage }

/-! ## Gopher+ fallback, gophermap names, file branch of `main`, directory order -/

/-- Model of `sendbackgopherplushack`: the lines passed to `sendline`. -/
def sendbackgopherplushack (config : MotsognirConfig) : List (List Nat) :=
  [[43, 45, 49],
   cstr (cTruncate 1024
     ([43, 73, 78, 70, 79, 58, 32, 49, 77, 97, 105, 110, 32, 109, 101, 110, 117, 32, 40, 110,
        111, 110, 45, 103, 111, 112, 104, 101, 114, 43, 41, 9, 9]
       ++ config.gopherhostname ++ [9] ++ fmtInt config.gopherport)),
   [43, 86, 73, 69, 87, 83, 58],
   [32, 97, 112, 112, 108, 105, 99, 97, 116, 105, 111, 110, 47, 103, 111, 112, 104, 101, 114,
     43, 45, 109, 101, 110, 117, 58, 32, 60, 53, 49, 50, 98, 62],
   [43, 65, 66, 83, 84, 82, 65, 67, 84, 58],
   [32, 84, 104, 105, 115, 32, 103, 111, 112, 104, 101, 114, 32, 115, 117, 112, 112, 111, 114,
     116, 115, 32, 115, 116, 97, 110, 100, 97, 114, 100, 32, 103, 111, 112, 104, 101, 114, 32,
     97, 99, 99, 101, 115, 115, 32, 111, 110, 108, 121, 46],
   [46]]

/-- Model of `islocalfileagophermap`. -/
def islocalfileagophermap (file : List Nat) : Nat :=
  if stringendswith file [47, 103, 111, 112, 104, 101, 114, 109, 97, 112] ≠ 0 ∨
      stringendswith file [47, 103, 111, 112, 104, 101, 114, 109, 97, 112, 46, 99, 103, 105] ≠ 0 ∨
      stringendswith file [47, 103, 111, 112, 104, 101, 114, 109, 97, 112, 46, 112, 104, 112] ≠ 0
  then 1 else 0

/-- The menu line `3The selected resource doesn't exist!<TAB>fake<TAB>fake<TAB>0`. -/
def notFoundLine1 : List Nat :=
  [51, 84, 104, 101, 32, 115, 101, 108, 101, 99, 116, 101, 100, 32, 114, 101, 115, 111, 117,
    114, 99, 101, 32, 100, 111, 101, 115, 110, 39, 116, 32, 101, 120, 105, 115, 116, 33, 9, 102,
    97, 107, 101, 9, 102, 97, 107, 101, 9, 48]
/-- The menu line `iThe selected resource cannot be located.<TAB>fake<TAB>fake<TAB>0`. -/
def notFoundLine2 : List Nat :=
  [105, 84, 104, 101, 32, 115, 101, 108, 101, 99, 116, 101, 100, 32, 114, 101, 115, 111, 117,
    114, 99, 101, 32, 99, 97, 110, 110, 111, 116, 32, 98, 101, 32, 108, 111, 99, 97, 116, 101,
    100, 46, 9, 102, 97, 107, 101, 9, 102, 97, 107, 101, 9, 48]
/-- The menu line `3Internal error<TAB>fake<TAB>fake<TAB>0`. -/
def internalErrorLine1 : List Nat :=
  [51, 73, 110, 116, 101, 114, 110, 97, 108, 32, 101, 114, 114, 111, 114, 9, 102, 97, 107, 101,
    9, 102, 97, 107, 101, 9, 48]
/-- The menu line `iInternal error<TAB>fake<TAB>fake<TAB>0`. -/
def internalErrorLine2 : List Nat :=
  [105, 73, 110, 116, 101, 114, 110, 97, 108, 32, 101, 114, 114, 111, 114, 9, 102, 97, 107, 101,
    9, 102, 97, 107, 101, 9, 48]
/-- The menu line `3Permission denied<TAB>fake<TAB>fake<TAB>0`. -/
def permissionDeniedLine1 : List Nat :=
  [51, 80, 101, 114, 109, 105, 115, 115, 105, 111, 110, 32, 100, 101, 110, 105, 101, 100, 9,
    102, 97, 107, 101, 9, 102, 97, 107, 101, 9, 48]
/-- The menu line `iPermission denied<TAB>fake<TAB>fake<TAB>0`. -/
def permissionDeniedLine2 : List Nat :=
  [105, 80, 101, 114, 109, 105, 115, 115, 105, 111, 110, 32, 100, 101, 110, 105, 101, 100, 9,
    102, 97, 107, 101, 9, 102, 97, 107, 101, 9, 48]

/-- What the file branch of `main` reads besides the configuration fields of
`MotsognirConfig` and the file system of `World`: the field `paranoidmode` and the answer
of `stat` (the `st_mode` of the file, `none` when `stat` fails). -/
structure FileEnv where
  paranoidmode : Int
  stat : List Nat → Option Nat

/-- The answer of the file branch of `main`: lines passed to `sendline`, a script run by
`execCgi` with `gophermapflag` 0 (with its launcher), or a file streamed by
`sendbinfiletosock`. -/
inductive FileAnswer
  | lines (sent : List (List Nat))
  | script (launcher : Option (List Nat))
  | binary
  deriving DecidableEq

/-- The mode bit `S_IROTH`. -/
def S_IROTH : Nat := 4

/-- Model of the file branch of `main`, from the existence test to the end: what is
answered for the local path `localfile`. -/
def fileDispatcher (config : MotsognirConfig) (world : World) (env : FileEnv)
    (localfile : List Nat) : FileAnswer :=
  if fexist world localfile = 0 ∨ islocalfileagophermap localfile ≠ 0 then
    FileAnswer.lines [notFoundLine1, notFoundLine2, [46]]
  else if env.paranoidmode ≠ 0 ∧ env.stat localfile = none then
    FileAnswer.lines [internalErrorLine1, internalErrorLine2, [46]]
  else if env.paranoidmode ≠ 0 ∧
      (env.stat localfile).any (fun st_mode => st_mode &&& S_IROTH != S_IROTH) then
    FileAnswer.lines [permissionDeniedLine1, permissionDeniedLine2, [46]]
  else if getfileextension localfile = [99, 103, 105] ∧ config.cgisupport ≠ 0 then
    FileAnswer.script none
  else if getfileextension localfile = [112, 104, 112] ∧ config.phpsupport ≠ 0 then
    FileAnswer.script (some [112, 104, 112])
  else if DetectGopherType localfile config = 48 ∨ DetectGopherType localfile config = 50 ∨
      DetectGopherType localfile config = 54 then
    FileAnswer.lines (textFileResponse (world.fileContent localfile))
  else FileAnswer.binary

/-- Model of `motsognir_dirsort`, the comparison function handed to `scandir`. -/
def motsognir_dirsort (a b : DirEntry) : Int :=
  if a.isDir = true ∧ b.isDir ≠ true then -1
  else if a.isDir ≠ true ∧ b.isDir = true then 1
  else strcasecmp a.d_name b.d_name

/-- The port that `explodegophermapline` returns for the port field `field` (`none` when
the line ends before that field): `atol` and the range test on the field, or on what the
uninitialised buffer holds when the field is empty. -/
def portOfField (tmpstring : List Nat) : Option (List Nat) → Int
  | none => 0
  | some field => portOfString (if field = [] then tmpstring else field)

/-- The port returned for a port field that is absent (`none`) or not empty: `atol` and
the range test on the field. -/
def fieldPort : Option (List Nat) → Int
  | none => 0
  | some field => portOfString field

/-! ## Reference definitions for the listing, the line parser and the split -/

/-- Specification notion: the last component of a path, the bytes after its last `/`. -/
def lastComponent (p : List Nat) : List Nat := (p.reverse.takeWhile (fun c => c != 47)).reverse

/-- Specification notion: the decimal value of a string of digits. -/
def decimalValue (field : List Nat) : Nat := field.foldl (fun acc c => acc * 10 + (c - 48)) 0

/-- Specification notion: the port of a port field, its decimal value when the field is
a non-empty string of digits with a value in 1..65535, and 0 otherwise. -/
def referencePort (field : List Nat) : Int :=
  if field ≠ [] ∧ (∀ c ∈ field, 48 ≤ c ∧ c ≤ 57) ∧ 1 ≤ decimalValue field ∧
      decimalValue field ≤ 65535 then (decimalValue field : Int)
  else 0

/-- Reference parse of a gophermap line, following the specification: the first byte is
the item type, the rest is split at TABs into description, selector, server and port;
missing fields are empty, an empty line is an `i` line. -/
def referenceParse (line : List Nat) : GophermapItem :=
  match line with
  | [] => ⟨105, [], [], [], 0⟩
  | itemtype :: l =>
    ⟨itemtype, (nthField l 0).getD [], (nthField l 1).getD [], (nthField l 2).getD [],
      referencePort ((nthField l 3).getD [])⟩

/-- Specification notion: the selector put together again from the parts of the split,
`sep` being the separator byte in front of `url_query`. -/
def rejoin (sep : Nat) (r : Exploded) : List Nat :=
  r.path
    ++ (match r.url_query with
      | some u => sep :: u
      | none => [])
    ++ (match r.search_query with
      | some q => 9 :: q
      | none => [])

/-- Specification notion: the string with every run of the byte `ch` reduced to one
byte (`//` becomes `/`). -/
def collapseRuns (ch : Nat) : List Nat → List Nat
  | [] => []
  | [a] => [a]
  | a :: b :: r => if a = ch ∧ b = ch then collapseRuns ch (b :: r) else a :: collapseRuns ch (b :: r)

/-- A file system for the directory lister: every directory can be opened and holds the
entries `entries`; there are no files and no scripts. -/
def listingWorld (entries : List DirEntry) : World :=
  { fileContent := fun _ => none,
    opendir := fun _ => true,
    scandir := fun _ => some entries,
    popen := fun _ => none,
    realpath := fun _ => none,
    tmpstring := fun _ _ => [] }

/-! ## The response on the wire -/

/-- Model of `sendline` for a C string given by its bytes: the bytes written to the socket,
the `strlen(dataline)` bytes of the line followed by CR LF. -/
def sendline (dataline : List Nat) : List Nat := dataline ++ [13, 10]

/-- The bytes written to the socket by successive calls of `sendline`. -/
def wireBytes (lines : List (List Nat)) : List Nat := lines.flatMap sendline

/-- Specification notion: a line without the CR that closes it. -/
def stripCr (l : List Nat) : List Nat := if l.getLast? = some 13 then l.dropLast else l

/-- Specification notion: the lines of a response, the parts of the byte stream ended by
LF, each without its closing CR. -/
def responseLines (bytes : List Nat) : List (List Nat) := (fileLines bytes).map stripCr

/-- No name returned by `scandir` holds the byte `v`. -/
def WorldNamesAvoid (v : Nat) (world : World) : Prop :=
  ∀ path entries, world.scandir path = some entries → ∀ e ∈ entries, v ∉ e.d_name

/-- The entries of the directory `/d/` in the listing examples, in the order of `scandir`:
the directories `.`, `..` and `b`, then the file `a`. -/
def scenarioEntries : List DirEntry :=
  [⟨[46], true⟩, ⟨[46, 46], true⟩, ⟨[98], true⟩, ⟨[97], false⟩]

/-- The entries `.`, `..` and one file whose name is `x`, CR, LF, `.`, CR, LF, `y`. -/
def scenarioEntriesLineBreak : List DirEntry :=
  [⟨[46], true⟩, ⟨[46, 46], true⟩, ⟨[120, 13, 10, 46, 13, 10, 121], false⟩]

/-! ## Lemmas: prefix test, path components, containment -/

theorem stringstartswith_prefix (s p : List Nat) (h : stringstartswith s p ≠ 0) : p <+: s := by
  induction s generalizing p with
  | nil =>
    rcases p with _ | ⟨d, p⟩
    · exact List.prefix_refl _
    · exact absurd rfl h
  | cons c s ih =>
    rcases p with _ | ⟨d, p⟩
    · exact List.nil_prefix
    · have hs : stringstartswith (c :: s) (d :: p) =
          if c ≠ d then 0 else stringstartswith s p := rfl
      rw [hs] at h
      by_cases hcd : c = d
      · subst hcd
        rw [if_neg (by simp)] at h
        exact (List.cons_prefix_cons).mpr ⟨rfl, ih p h⟩
      · rw [if_pos hcd] at h
        exact absurd rfl h

theorem pathComponentsAux_nil (cur : List Nat) :
    pathComponentsAux [] cur = if cur = [] then [] else [cur] := rfl

theorem pathComponentsAux_cons (c : Nat) (s cur : List Nat) :
    pathComponentsAux (c :: s) cur =
      if c = 47 then
        if cur = [] then pathComponentsAux s [] else cur :: pathComponentsAux s []
      else pathComponentsAux s (cur ++ [c]) := rfl

theorem pathComponentsAux_slash (a : List Nat) : ∀ cur : List Nat,
    pathComponentsAux (a ++ [47]) cur = pathComponentsAux a cur := by
  induction a with
  | nil =>
    intro cur
    rw [List.nil_append, pathComponentsAux_cons, if_pos rfl, pathComponentsAux_nil,
      pathComponentsAux_nil]
    by_cases h : cur = [] <;> simp [h]
  | cons c a ih =>
    intro cur
    rw [List.cons_append, pathComponentsAux_cons, pathComponentsAux_cons, ih, ih]

theorem pathComponentsAux_split (a b : List Nat) : ∀ cur : List Nat,
    pathComponentsAux (a ++ 47 :: b) cur
      = pathComponentsAux (a ++ [47]) cur ++ pathComponentsAux b [] := by
  induction a with
  | nil =>
    intro cur
    rw [List.nil_append, List.nil_append, pathComponentsAux_cons, pathComponentsAux_cons,
      if_pos rfl, if_pos rfl, pathComponentsAux_nil]
    by_cases h : cur = [] <;> simp [h]
  | cons c a ih =>
    intro cur
    rw [List.cons_append, List.cons_append, pathComponentsAux_cons, pathComponentsAux_cons,
      ih, ih]
    by_cases h47 : c = 47
    · by_cases h : cur = [] <;> simp [h47, h]
    · simp [h47]

theorem within_of_startswith (root resolved : List Nat) (hroot : root.getLast? = some 47)
    (h : stringstartswith (resolved ++ [47]) root ≠ 0) : IsWithin root resolved := by
  obtain ⟨t, ht⟩ := stringstartswith_prefix _ _ h
  obtain ⟨r, rfl⟩ : ∃ r, root = r ++ [47] := by
    rcases List.eq_nil_or_concat root with h | ⟨r, b, hb⟩
    · subst h; simp at hroot
    · subst hb
      rw [List.concat_eq_append, List.getLast?_append] at hroot
      simp at hroot
      subst hroot
      exact ⟨r, by simp⟩
  unfold IsWithin pathComponents
  rw [← pathComponentsAux_slash resolved [], ← ht]
  have e : r ++ [47] ++ t = r ++ 47 :: t := by simp
  rw [e, pathComponentsAux_split r t []]
  exact List.prefix_append _ _

theorem pubdirscan_nil (rp : List Nat) : pubdirscan rp [] = 1 := rfl
theorem pubdirscan_cons (rp p : List Nat) (rest : List (List Nat)) :
    pubdirscan rp (p :: rest) =
      if stringstartswith rp p ≠ 0 then 0 else pubdirscan rp rest := rfl

theorem pubdirscan_accepts (rp : List Nat) (pubs : List (List Nat)) (h : pubdirscan rp pubs = 0) :
    ∃ p ∈ pubs, stringstartswith rp p ≠ 0 := by
  induction pubs with
  | nil => rw [pubdirscan_nil] at h; cases h
  | cons p rest ih =>
    rw [pubdirscan_cons] at h
    by_cases hp : stringstartswith rp p ≠ 0
    · exact ⟨p, by simp, hp⟩
    · rw [if_neg hp] at h
      obtain ⟨q, hq, hq2⟩ := ih h
      exact ⟨q, by simp [hq], hq2⟩

/-- Soundness of the containment check for roots written with a trailing slash: a path
accepted by `checkforevasion` then lies within the gopher root or within a public root. -/
theorem checkforevasion_contained (gopherroot : List Nat) (pubdirlist : List (List Nat))
    (resolved : List Nat) (hroot : gopherroot.getLast? = some 47)
    (hpub : ∀ p ∈ pubdirlist, p.getLast? = some 47)
    (h : checkforevasion gopherroot pubdirlist (some resolved) = 0) :
    IsWithin gopherroot resolved ∨ ∃ p ∈ pubdirlist, IsWithin p resolved := by
  unfold checkforevasion at h
  simp only at h
  by_cases h1 : stringstartswith (resolved ++ [47]) gopherroot ≠ 0
  · exact Or.inl (within_of_startswith _ _ hroot h1)
  · rw [if_neg h1] at h
    obtain ⟨p, hp, hp2⟩ := pubdirscan_accepts _ _ h
    exact Or.inr ⟨p, hp, within_of_startswith _ _ (hpub p hp) hp2⟩

theorem strstr_cons (c : Nat) (s needle : List Nat) : strstr (c :: s) needle =
    if stringstartswith (c :: s) needle = 1 then some 0
    else (strstr s needle).map (fun i => i + 1) := rfl

theorem strstr_tabs_mem (s : List Nat) (h : (strstr s [9, 9]).isSome = true) : 9 ∈ s := by
  induction s with
  | nil => simp [strstr] at h
  | cons c s ih =>
    rw [strstr_cons] at h
    by_cases hc : c = 9
    · simp [hc]
    · have : stringstartswith (c :: s) [9, 9] = 0 := by
        show (if c ≠ 9 then 0 else stringstartswith s [9]) = 0
        rw [if_pos hc]
      rw [this] at h
      simp at h
      exact List.mem_cons_of_mem _ (ih (by simpa using h))

theorem lastchar_tab_mem (s : List Nat) (h : lastcharofstring s = 9) : 9 ∈ s := by
  unfold lastcharofstring at h
  cases hl : s.getLast? with
  | none => rw [hl] at h; simp at h
  | some c =>
    rw [hl] at h
    simp only at h
    subst h
    exact List.mem_of_getLast?_eq_some hl

theorem gophersecuritycheck_none_iff (s : List Nat) :
    gophersecuritycheck s = none ↔
      s.length ≤ 512 ∧ (strstr s [9, 9]).isSome = false ∧ lastcharofstring s ≠ 9 ∧
        utf8scan s = none := by
  unfold gophersecuritycheck
  split_ifs with h1 h2 h3
  · simp; intro; omega
  · simp [h2]
  · simp [h3]
  · simp at h2
    simp [h2, h3]; omega

/-! ## Lemmas: percent decoder -/

theorem hex2int_small : ∀ c, c < 103 →
    hex2int c = if isHexDigit c then (hexDigitValue c : Int) else -1 := by
  decide

theorem hex2int_large (c : Nat) (h : 103 ≤ c) : hex2int c = -1 := by
  unfold hex2int
  repeat (first | rw [if_neg (by omega)] )

theorem isHexDigit_large (c : Nat) (h : 103 ≤ c) : isHexDigit c = false := by
  simp [isHexDigit]; omega

theorem hex2int_spec (c : Nat) :
    hex2int c = if isHexDigit c then (hexDigitValue c : Int) else -1 := by
  by_cases h : c < 103
  · exact hex2int_small c h
  · rw [hex2int_large c (by omega), isHexDigit_large c (by omega)]; simp

theorem hexDigitValue_lt (c : Nat) (h : isHexDigit c = true) : hexDigitValue c < 16 := by
  simp [isHexDigit] at h
  unfold hexDigitValue
  split_ifs <;> omega

theorem nibbles_combine : ∀ f, f < 16 → ∀ s, s < 16 → (f <<< 4 ||| s) % 256 = 16 * f + s := by
  decide

theorem percdecode_cons_ne (c : Nat) (rest : List Nat) (h : c ≠ 37) :
    percdecode (c :: rest) =
      (percdecode rest).map (fun out => (if c = 43 then 32 else c) :: out) := by
  rw [percdecode.eq_def]; simp [h]

theorem percdecode_escape (a b : Nat) (rest2 : List Nat) :
    percdecode (37 :: a :: b :: rest2) =
      if a = 48 ∧ b = 48 then none
      else if hex2int a < 0 ∨ hex2int b < 0 then none
      else (percdecode rest2).map
        (fun out => (((hex2int a).toNat <<< 4 ||| (hex2int b).toNat) % 256) :: out) := by
  rw [percdecode.eq_def]; simp

theorem percdecode_trunc1 : percdecode [37] = none := by decide
theorem percdecode_trunc2 (a : Nat) : percdecode [37, a] = none := by
  rw [percdecode.eq_def]; simp

theorem referenceDecode_plus (rest : List Nat) :
    referenceDecode (43 :: rest) = (referenceDecode rest).map (fun out => 32 :: out) := by
  rcases rest with _ | ⟨a, _ | ⟨b, r⟩⟩ <;> rfl

theorem referenceDecode_other (c : Nat) (rest : List Nat) (h1 : c ≠ 43) (h2 : c ≠ 37) :
    referenceDecode (c :: rest) = (referenceDecode rest).map (fun out => c :: out) := by
  have h : referenceDecode (c :: rest) =
      if c = 43 then (referenceDecode rest).map (fun out => 32 :: out)
      else if c = 37 then
        match rest with
        | h1 :: h2 :: rest2 =>
          if isHexDigit h1 && isHexDigit h2 && !(h1 == 48 && h2 == 48) then
            (referenceDecode rest2).map
              (fun out => (16 * hexDigitValue h1 + hexDigitValue h2) :: out)
          else none
        | _ => none
      else (referenceDecode rest).map (fun out => c :: out) := by
    rcases rest with _ | ⟨a, _ | ⟨b, r⟩⟩ <;> rfl
  rw [h, if_neg h1, if_neg h2]

theorem referenceDecode_escape (h1 h2 : Nat) (rest2 : List Nat) :
    referenceDecode (37 :: h1 :: h2 :: rest2) =
      if isHexDigit h1 && isHexDigit h2 && !(h1 == 48 && h2 == 48) then
        (referenceDecode rest2).map (fun out => (16 * hexDigitValue h1 + hexDigitValue h2) :: out)
      else none := rfl

theorem referenceDecode_trunc1 : referenceDecode [37] = none := rfl
theorem referenceDecode_trunc2 (a : Nat) : referenceDecode [37, a] = none := rfl

theorem escape_byte (a b : Nat) (ha : isHexDigit a = true) (hb : isHexDigit b = true) :
    ((hex2int a).toNat <<< 4 ||| (hex2int b).toNat) % 256
      = 16 * hexDigitValue a + hexDigitValue b := by
  rw [hex2int_spec a, hex2int_spec b, if_pos ha, if_pos hb]
  simp only [Int.toNat_ofNat]
  exact nibbles_combine _ (hexDigitValue_lt a ha) _ (hexDigitValue_lt b hb)

theorem hex2int_neg_iff (a : Nat) : hex2int a < 0 ↔ isHexDigit a = false := by
  rw [hex2int_spec a]
  cases h : isHexDigit a
  · simp
  · simp only [if_true]
    constructor
    · intro h'; omega
    · intro h'; cases h'

theorem percdecode_eq_reference_aux (n : Nat) : ∀ s : List Nat, s.length ≤ n →
    percdecode s = referenceDecode s := by
  induction n using Nat.strong_induction_on with
  | _ n ih =>
    intro s hlen
    rcases s with _ | ⟨c, rest⟩
    · rfl
    · have hl : rest.length < n := by simp at hlen; omega
      by_cases hc : c = 37
      · subst hc
        rcases rest with _ | ⟨a, _ | ⟨b, rest2⟩⟩
        · rfl
        · rw [percdecode_trunc2, referenceDecode_trunc2]
        · rw [percdecode_escape, referenceDecode_escape]
          have ih2 := ih _ hl rest2 (by simp; omega)
          by_cases h00 : a = 48 ∧ b = 48
          · simp [h00]
          · rw [if_neg h00]
            cases ha : isHexDigit a
            · simp [(hex2int_neg_iff a).mpr ha]
            · cases hb : isHexDigit b
              · simp [(hex2int_neg_iff b).mpr hb]
              · have na : ¬ hex2int a < 0 := by rw [hex2int_neg_iff]; simp [ha]
                have nb : ¬ hex2int b < 0 := by rw [hex2int_neg_iff]; simp [hb]
                have h00' : (a == 48 && b == 48) = false := by
                  simp only [Bool.and_eq_false_iff, beq_eq_false_iff_ne, ne_eq]
                  tauto
                rw [if_neg (by tauto), escape_byte a b ha hb, ih2]
                simp [h00']
      · rw [percdecode_cons_ne c rest hc, ih _ hl rest le_rfl]
        by_cases h43 : c = 43
        · subst h43; rw [referenceDecode_plus]; simp
        · rw [referenceDecode_other c rest h43 hc]; simp [h43]

/-- The decoder of the source and the reference decoder agree on every byte string. -/
theorem percdecode_eq_reference (s : List Nat) : percdecode s = referenceDecode s :=
  percdecode_eq_reference_aux s.length s le_rfl

theorem escapesWellFormed_escape (h1 h2 : Nat) (rest2 : List Nat) :
    escapesWellFormed (37 :: h1 :: h2 :: rest2) =
      (isHexDigit h1 && isHexDigit h2 && !(h1 == 48 && h2 == 48) && escapesWellFormed rest2) := rfl

theorem escapesWellFormed_other (c : Nat) (rest : List Nat) (h : c ≠ 37) :
    escapesWellFormed (c :: rest) = escapesWellFormed rest := by
  have h' : escapesWellFormed (c :: rest) =
      if c = 37 then
        match rest with
        | h1 :: h2 :: rest2 =>
          isHexDigit h1 && isHexDigit h2 && !(h1 == 48 && h2 == 48) && escapesWellFormed rest2
        | _ => false
      else escapesWellFormed rest := by
    rcases rest with _ | ⟨a, _ | ⟨b, r⟩⟩ <;> rfl
  rw [h', if_neg h]

theorem reference_isSome_aux (n : Nat) : ∀ s : List Nat, s.length ≤ n →
    ((referenceDecode s).isSome = escapesWellFormed s) := by
  induction n using Nat.strong_induction_on with
  | _ n ih =>
    intro s hlen
    rcases s with _ | ⟨c, rest⟩
    · rfl
    · have hl : rest.length < n := by simp at hlen; omega
      by_cases hc : c = 37
      · subst hc
        rcases rest with _ | ⟨a, _ | ⟨b, rest2⟩⟩
        · rfl
        · rfl
        · rw [referenceDecode_escape, escapesWellFormed_escape]
          have ih2 := ih _ hl rest2 (by simp; omega)
          cases hcond : (isHexDigit a && isHexDigit b && !(a == 48 && b == 48))
          · simp
          · simp [ih2]
      · rw [escapesWellFormed_other c rest hc, ← ih _ hl rest le_rfl]
        by_cases h43 : c = 43
        · subst h43; rw [referenceDecode_plus]; simp
        · rw [referenceDecode_other c rest h43 hc]; simp

/-! ## Lemmas: percent encoder -/

theorem percdecode_no_percent (s : List Nat) (h : 37 ∉ s) :
    percdecode s = some (s.map (fun c => if c = 43 then 32 else c)) := by
  induction s with
  | nil => rfl
  | cons c rest ih =>
    have hc : c ≠ 37 := fun e => h (by simp [e])
    have hr : 37 ∉ rest := fun e => h (by simp [e])
    rw [percdecode_cons_ne c rest hc, ih hr]; rfl

theorem percdecode_plain (s : List Nat) (h37 : 37 ∉ s) (h43 : 43 ∉ s) : percdecode s = some s := by
  rw [percdecode_no_percent s h37]
  congr 1
  conv_rhs => rw [← List.map_id s]
  apply List.map_congr_left
  intro c hc
  have : c ≠ 43 := fun e => h43 (e ▸ hc)
  simp [this]

theorem encodingrequired_small : ∀ c, c < 128 → encodingrequired c = !isUnreserved c := by
  decide

theorem encodingrequired_spec (c : Nat) : encodingrequired c = !isUnreserved c := by
  by_cases h : c < 128
  · exact encodingrequired_small c h
  · have h1 : encodingrequired c = true := by
      unfold encodingrequired
      repeat (first | rw [if_neg (by omega)])
    have h2 : isUnreserved c = false := by
      simp [isUnreserved]; omega
    rw [h1, h2]; rfl

set_option maxRecDepth 100000 in
theorem hexchar_high : ∀ c, c < 256 → hexchar.getD ((c &&& 240) >>> 4) 0 = upperHexDigit (c / 16) := by
  decide

set_option maxRecDepth 100000 in
theorem hexchar_low : ∀ c, c < 256 → hexchar.getD (c &&& 15) 0 = upperHexDigit (c % 16) := by
  decide

theorem referenceEncode_cons (c : Nat) (s : List Nat) :
    referenceEncode (c :: s) =
      (if isUnreserved c then [c] else [37, upperHexDigit (c / 16), upperHexDigit (c % 16)])
        ++ referenceEncode s := by
  simp [referenceEncode]

theorem percencodeLoop_cons (dstmaxlen c : Nat) (src dst : List Nat) :
    percencodeLoop dstmaxlen (c :: src) dst =
      if dst.length + 4 ≥ dstmaxlen then dst
      else if encodingrequired c = false then percencodeLoop dstmaxlen src (dst ++ [c])
      else
        percencodeLoop dstmaxlen src
          (dst ++ [37, hexchar.getD ((c &&& 240) >>> 4) 0, hexchar.getD (c &&& 15) 0]) := rfl

/-- As long as four bytes of headroom remain, the encoding loop appends the reference
encoding of its input to what it has written. -/
theorem percencodeLoop_fits (dstmaxlen : Nat) (src : List Nat) : ∀ dst : List Nat,
    (∀ b ∈ src, b < 256) → dst.length + (referenceEncode src).length + 4 ≤ dstmaxlen →
    percencodeLoop dstmaxlen src dst = dst ++ referenceEncode src := by
  induction src with
  | nil => intro dst _ _; simp [percencodeLoop, referenceEncode]
  | cons c src ih =>
    intro dst hb hfit
    have hc : c < 256 := hb c (by simp)
    have hsrc : ∀ b ∈ src, b < 256 := fun b hb' => hb b (by simp [hb'])
    rw [referenceEncode_cons] at hfit ⊢
    rw [percencodeLoop_cons, encodingrequired_spec]
    cases hu : isUnreserved c
    · simp only [hu, Bool.false_eq_true, if_false, List.length_append, List.length_cons,
        List.length_nil] at hfit
      rw [if_neg (by omega)]
      simp only [Bool.not_false, Bool.true_eq_false, if_false]
      rw [ih _ hsrc (by simp; omega), hexchar_high c hc, hexchar_low c hc]
      simp
    · simp only [hu, if_true, List.length_append, List.length_cons, List.length_nil] at hfit
      rw [if_neg (by omega)]
      simp only [Bool.not_true, if_true]
      rw [ih _ hsrc (by simp; omega)]
      simp

theorem referenceEncode_unreserved (s : List Nat) (h : ∀ b ∈ s, isUnreserved b = true) :
    referenceEncode s = s := by
  induction s with
  | nil => rfl
  | cons c s ih =>
    rw [referenceEncode_cons, ih (fun b hb => h b (by simp [hb])), h c (by simp)]
    simp

theorem unreserved_lt : ∀ b, isUnreserved b = true → b < 127 ∧ b ≠ 37 ∧ b ≠ 43 ∧ 0 < b := by
  intro b hb
  simp [isUnreserved] at hb
  omega

/-! ## Lemmas: UTF-8 scan -/

theorem cont_not_control (n : Nat) (h : n &&& bx11000000 = bx10000000) : ¬ n < 32 := by
  intro hlt
  have key : ∀ m, m < 32 → m &&& bx11000000 ≠ bx10000000 := by decide
  exact key n hlt h

theorem utf8scan_nil : utf8scan [] = none := rfl

theorem utf8scan_cons (c : Nat) (rest : List Nat) : utf8scan (c :: rest) =
    if 0 < c ∧ c < 32 then some SecurityError.controlChar
    else if c &&& bx10000000 = 0 then utf8scan rest
    else if c &&& bx11100000 = bx11000000 then
      match rest with
      | n1 :: rest1 =>
        if n1 &&& bx11000000 = bx10000000 then utf8scan rest1
        else some SecurityError.invalidUtf8
      | [] => some SecurityError.invalidUtf8
    else if c &&& bx11110000 = bx11100000 then
      match rest with
      | n1 :: n2 :: rest2 =>
        if n1 &&& bx11000000 = bx10000000 ∧ n2 &&& bx11000000 = bx10000000 then utf8scan rest2
        else some SecurityError.invalidUtf8
      | _ => some SecurityError.invalidUtf8
    else some SecurityError.invalidUtf8 := by
  rcases rest with _ | ⟨n1, _ | ⟨n2, rest2⟩⟩ <;> rfl

theorem utf8scan_control_byte (c : Nat) (rest : List Nat) (h : 0 < c ∧ c < 32) :
    utf8scan (c :: rest) = some SecurityError.controlChar := by
  rw [utf8scan_cons]; simp only [if_pos h]

theorem utf8scan_ascii (c : Nat) (rest : List Nat) (h : ¬ (0 < c ∧ c < 32))
    (h1 : c &&& bx10000000 = 0) : utf8scan (c :: rest) = utf8scan rest := by
  rw [utf8scan_cons]; simp only [if_neg h, if_pos h1]

theorem utf8scan_two (c : Nat) (rest : List Nat) (h : ¬ (0 < c ∧ c < 32))
    (h1 : c &&& bx10000000 ≠ 0) (h2 : c &&& bx11100000 = bx11000000) :
    utf8scan (c :: rest) =
      match rest with
      | n1 :: rest1 =>
        if n1 &&& bx11000000 = bx10000000 then utf8scan rest1
        else some SecurityError.invalidUtf8
      | [] => some SecurityError.invalidUtf8 := by
  rw [utf8scan_cons]; simp only [if_neg h, if_neg h1, if_pos h2]

theorem utf8scan_three (c : Nat) (rest : List Nat) (h : ¬ (0 < c ∧ c < 32))
    (h1 : c &&& bx10000000 ≠ 0) (h2 : c &&& bx11100000 ≠ bx11000000)
    (h3 : c &&& bx11110000 = bx11100000) :
    utf8scan (c :: rest) =
      match rest with
      | n1 :: n2 :: rest2 =>
        if n1 &&& bx11000000 = bx10000000 ∧ n2 &&& bx11000000 = bx10000000 then utf8scan rest2
        else some SecurityError.invalidUtf8
      | _ => some SecurityError.invalidUtf8 := by
  rw [utf8scan_cons]; simp only [if_neg h, if_neg h1, if_neg h2, if_pos h3]

theorem utf8scan_bad_lead (c : Nat) (rest : List Nat) (h : ¬ (0 < c ∧ c < 32))
    (h1 : c &&& bx10000000 ≠ 0) (h2 : c &&& bx11100000 ≠ bx11000000)
    (h3 : c &&& bx11110000 ≠ bx11100000) :
    utf8scan (c :: rest) = some SecurityError.invalidUtf8 := by
  rw [utf8scan_cons]; simp only [if_neg h, if_neg h1, if_neg h2, if_neg h3]

set_option maxRecDepth 100000 in
theorem mask_low : ∀ b, b < 256 → (b &&& bx10000000 = 0 ↔ b < 128) := by decide

set_option maxRecDepth 100000 in
theorem mask_two : ∀ b, b < 256 → (b &&& bx11100000 = bx11000000 ↔ 192 ≤ b ∧ b ≤ 223) := by
  decide

set_option maxRecDepth 100000 in
theorem mask_three : ∀ b, b < 256 → (b &&& bx11110000 = bx11100000 ↔ 224 ≤ b ∧ b ≤ 239) := by
  decide

set_option maxRecDepth 100000 in
theorem mask_cont : ∀ b, b < 256 → (b &&& bx11000000 = bx10000000 ↔ 128 ≤ b ∧ b ≤ 191) := by
  decide

/-- Unfolding of the scan at a byte below 128 that is not a control byte. -/
theorem utf8scan_low (c : Nat) (rest : List Nat) (hc : ¬ (0 < c ∧ c < 32)) (h : c < 128) :
    utf8scan (c :: rest) = utf8scan rest := by
  rw [utf8scan_cons, if_neg hc, if_pos ((mask_low c (by omega)).mpr h)]

theorem utf8scan_lead2 (l c : Nat) (rest : List Nat) (h1 : 192 ≤ l) (h2 : l ≤ 223) :
    utf8scan (l :: c :: rest) =
      if c &&& bx11000000 = bx10000000 then utf8scan rest else some SecurityError.invalidUtf8 := by
  rw [utf8scan_cons, if_neg (by omega), if_neg (by rw [mask_low l (by omega)]; omega),
    if_pos ((mask_two l (by omega)).mpr ⟨h1, h2⟩)]

theorem utf8scan_lead2_end (l : Nat) (h1 : 192 ≤ l) (h2 : l ≤ 223) :
    utf8scan [l] = some SecurityError.invalidUtf8 := by
  rw [utf8scan_cons, if_neg (by omega), if_neg (by rw [mask_low l (by omega)]; omega),
    if_pos ((mask_two l (by omega)).mpr ⟨h1, h2⟩)]

theorem utf8scan_lead3 (l c1 c2 : Nat) (rest : List Nat) (h1 : 224 ≤ l) (h2 : l ≤ 239) :
    utf8scan (l :: c1 :: c2 :: rest) =
      if c1 &&& bx11000000 = bx10000000 ∧ c2 &&& bx11000000 = bx10000000 then utf8scan rest
      else some SecurityError.invalidUtf8 := by
  rw [utf8scan_cons, if_neg (by omega), if_neg (by rw [mask_low l (by omega)]; omega),
    if_neg (by rw [mask_two l (by omega)]; omega),
    if_pos ((mask_three l (by omega)).mpr ⟨h1, h2⟩)]

theorem utf8scan_lead3_end (l : Nat) (rest : List Nat) (h1 : 224 ≤ l) (h2 : l ≤ 239)
    (hr : rest.length < 2) : utf8scan (l :: rest) = some SecurityError.invalidUtf8 := by
  rw [utf8scan_cons, if_neg (by omega), if_neg (by rw [mask_low l (by omega)]; omega),
    if_neg (by rw [mask_two l (by omega)]; omega),
    if_pos ((mask_three l (by omega)).mpr ⟨h1, h2⟩)]
  rcases rest with _ | ⟨n1, _ | ⟨n2, rest2⟩⟩
  · rfl
  · rfl
  · simp at hr; omega

theorem utf8scan_other (c : Nat) (rest : List Nat) (hc : c < 256)
    (h : (128 ≤ c ∧ c ≤ 191) ∨ 240 ≤ c) :
    utf8scan (c :: rest) = some SecurityError.invalidUtf8 := by
  rw [utf8scan_cons, if_neg (by omega), if_neg (by rw [mask_low c hc]; omega),
    if_neg (by rw [mask_two c hc]; omega), if_neg (by rw [mask_three c hc]; omega)]

theorem utf8scan_accepts (s : List Nat) (h : HighBytesInSequences s)
    (hctl : ∀ b ∈ s, ¬ (0 < b ∧ b < 32)) : utf8scan s = none := by
  induction h with
  | done => rfl
  | low b rest hb _ ih =>
    rw [utf8scan_low b rest (hctl b (by simp)) hb]
    exact ih (fun x hx => hctl x (by simp [hx]))
  | two l c rest h1 h2 hc _ ih =>
    rw [utf8scan_lead2 l c rest h1 h2, if_pos ((mask_cont c (by unfold isContinuation at hc; omega)).mpr hc)]
    exact ih (fun x hx => hctl x (by simp [hx]))
  | three l c1 c2 rest h1 h2 hc1 hc2 _ ih =>
    rw [utf8scan_lead3 l c1 c2 rest h1 h2,
      if_pos ⟨(mask_cont c1 (by unfold isContinuation at hc1; omega)).mpr hc1,
        (mask_cont c2 (by unfold isContinuation at hc2; omega)).mpr hc2⟩]
    exact ih (fun x hx => hctl x (by simp [hx]))

theorem utf8scan_sound_aux (n : Nat) : ∀ s : List Nat, s.length ≤ n → (∀ b ∈ s, b < 256) →
    utf8scan s = none → HighBytesInSequences s := by
  induction n using Nat.strong_induction_on with
  | _ n ih =>
    intro s hlen hb hs
    rcases s with _ | ⟨c, rest⟩
    · exact HighBytesInSequences.done
    · have hl : rest.length < n := by simp at hlen; omega
      have hc : c < 256 := hb c (by simp)
      have hrest : ∀ b ∈ rest, b < 256 := fun b hb' => hb b (by simp [hb'])
      by_cases hctl : 0 < c ∧ c < 32
      · rw [utf8scan_cons, if_pos hctl] at hs; cases hs
      by_cases hlow : c < 128
      · rw [utf8scan_low c rest hctl hlow] at hs
        exact HighBytesInSequences.low c rest hlow (ih _ hl rest le_rfl hrest hs)
      by_cases h2 : c ≤ 191 ∨ 240 ≤ c
      · rw [utf8scan_other c rest hc (by omega)] at hs; cases hs
      by_cases h3 : c ≤ 223
      · rcases rest with _ | ⟨n1, rest1⟩
        · rw [utf8scan_lead2_end c (by omega) h3] at hs; cases hs
        · rw [utf8scan_lead2 c n1 rest1 (by omega) h3] at hs
          by_cases hn1 : n1 &&& bx11000000 = bx10000000
          · rw [if_pos hn1] at hs
            exact HighBytesInSequences.two c n1 rest1 (by omega) h3
              ((mask_cont n1 (hrest n1 (by simp))).mp hn1)
              (ih _ hl rest1 (by simp) (fun b hb' => hrest b (by simp [hb'])) hs)
          · rw [if_neg hn1] at hs; cases hs
      · rcases rest with _ | ⟨n1, _ | ⟨n2, rest2⟩⟩
        · rw [utf8scan_lead3_end c [] (by omega) (by omega) (by simp)] at hs; cases hs
        · rw [utf8scan_lead3_end c [n1] (by omega) (by omega) (by simp)] at hs; cases hs
        · rw [utf8scan_lead3 c n1 n2 rest2 (by omega) (by omega)] at hs
          by_cases hn : n1 &&& bx11000000 = bx10000000 ∧ n2 &&& bx11000000 = bx10000000
          · rw [if_pos hn] at hs
            exact HighBytesInSequences.three c n1 n2 rest2 (by omega) (by omega)
              ((mask_cont n1 (hrest n1 (by simp))).mp hn.1)
              ((mask_cont n2 (hrest n2 (by simp))).mp hn.2)
              (ih _ hl rest2 (by simp; omega) (fun b hb' => hrest b (by simp [hb'])) hs)
          · rw [if_neg hn] at hs; cases hs

theorem utf8scan_after_prefix (pre x : List Nat) (h : HighBytesInSequences pre)
    (hx : utf8scan x ≠ none) : utf8scan (pre ++ x) ≠ none := by
  induction h with
  | done => simpa using hx
  | low b rest hb _ ih =>
    by_cases hctl : 0 < b ∧ b < 32
    · rw [List.cons_append, utf8scan_cons, if_pos hctl]; simp
    · rw [List.cons_append, utf8scan_low b _ hctl hb]; exact ih
  | two l c rest h1 h2 hc _ ih =>
    rw [List.cons_append, List.cons_append, utf8scan_lead2 l c _ h1 h2,
      if_pos ((mask_cont c (by unfold isContinuation at hc; omega)).mpr hc)]
    exact ih
  | three l c1 c2 rest h1 h2 hc1 hc2 _ ih =>
    rw [List.cons_append, List.cons_append, List.cons_append, utf8scan_lead3 l c1 c2 _ h1 h2,
      if_pos ⟨(mask_cont c1 (by unfold isContinuation at hc1; omega)).mpr hc1,
        (mask_cont c2 (by unfold isContinuation at hc2; omega)).mpr hc2⟩]
    exact ih

/-! ## Lemmas: secondary-parameter split -/

theorem split_first (P : Nat → Prop) [DecidablePred P] (s : List Nat) :
    (∀ c ∈ s, ¬ P c) ∨ ∃ h x r, s = h ++ x :: r ∧ P x ∧ ∀ c ∈ h, ¬ P c := by
  induction s with
  | nil => left; simp
  | cons c s ih =>
    by_cases hc : P c
    · right; exact ⟨[], c, s, rfl, hc, by simp⟩
    · rcases ih with h | ⟨h, x, r, rfl, hx, hh⟩
      · left; intro b hb
        rcases List.mem_cons.mp hb with rfl | hb
        · exact hc
        · exact h b hb
      · right
        refine ⟨c :: h, x, r, rfl, hx, ?_⟩
        intro b hb
        rcases List.mem_cons.mp hb with rfl | hb
        · exact hc
        · exact hh b hb

theorem findIdx_all_false (f : Nat → Bool) (p : List Nat) (h : ∀ c ∈ p, f c = false) :
    p.findIdx f = p.length := by
  induction p with
  | nil => rfl
  | cons c p ih =>
    rw [List.findIdx_cons, h c (by simp), ih (fun b hb => h b (by simp [hb]))]
    simp

theorem findIdx_first (f : Nat → Bool) (p : List Nat) (x : Nat) (u : List Nat)
    (h : ∀ c ∈ p, f c = false) (hx : f x = true) : (p ++ x :: u).findIdx f = p.length := by
  induction p with
  | nil => simp [List.findIdx_cons, hx]
  | cons c p ih =>
    rw [List.cons_append, List.findIdx_cons, h c (by simp), ih (fun b hb => h b (by simp [hb]))]
    simp

theorem set_at_length (a : List Nat) (c x : Nat) (b : List Nat) :
    (a ++ c :: b).set a.length x = a ++ x :: b := by
  induction a with
  | nil => rfl
  | cons y a ih => simp [ih]

theorem cstrAt_zero (a b : List Nat) (h : 0 ∉ a) : cstrAt (a ++ 0 :: b) 0 = a := by
  unfold cstrAt
  rw [List.drop_zero, List.takeWhile_append_of_pos]
  · simp
  · intro c hc
    have : c ≠ 0 := fun e => h (e ▸ hc)
    simp [this]

theorem cstrAt_skip (a b : List Nat) (n : Nat) (hn : n = a.length) :
    cstrAt (a ++ b) n = cstrAt b 0 := by
  subst hn
  unfold cstrAt
  simp

theorem zeroFirstTab_nil : zeroFirstTab [] = [] := rfl
theorem zeroFirstTab_cons (c : Nat) (rest : List Nat) : zeroFirstTab (c :: rest) =
    if c = 0 then c :: rest else if c = 9 then 0 :: rest else c :: zeroFirstTab rest := rfl

theorem zeroFirstTab_read (r : List Nat) (h : 0 ∉ r) :
    cstrAt (zeroFirstTab (r ++ [0])) 0 = r.takeWhile (fun c => c != 9) := by
  induction r with
  | nil => rfl
  | cons c r ih =>
    have hc : c ≠ 0 := fun e => h (by simp [e])
    have hr : 0 ∉ r := fun e => h (by simp [e])
    rw [List.cons_append, zeroFirstTab_cons, if_neg hc]
    by_cases h9 : c = 9
    · subst h9; simp [cstrAt]
    · rw [if_neg h9]
      have ih' := ih hr
      unfold cstrAt at ih' ⊢
      simp only [List.drop_zero] at ih' ⊢
      rw [List.takeWhile_cons, List.takeWhile_cons]
      simp only [decide_not] at ih'
      simp [hc, h9, ih']

theorem scanPositions_nil (d i : Nat) (que : Option Nat) :
    scanPositions d [] i que = (que, none) := rfl

theorem scanPositions_cons (d c i : Nat) (rest : List Nat) (que : Option Nat) :
    scanPositions d (c :: rest) i que =
      if c = 9 then
        (if c = d ∧ (if c = 63 ∧ que = none then some i else que) = none then some i
          else (if c = 63 ∧ que = none then some i else que), some i)
      else scanPositions d rest (i + 1)
        (if c = d ∧ (if c = 63 ∧ que = none then some i else que) = none then some i
          else (if c = 63 ∧ que = none then some i else que)) := rfl

theorem scan_found (d q : Nat) (u : List Nat) : ∀ i : Nat, (∀ c ∈ u, c ≠ 9) →
    scanPositions d u i (some q) = (some q, none) := by
  induction u with
  | nil => intro i _; rfl
  | cons c u ih =>
    intro i h
    rw [scanPositions_cons, if_neg (h c (by simp))]
    simp only [reduceCtorEq, and_false, if_false]
    exact ih (i + 1) (fun b hb => h b (by simp [hb]))

theorem scan_found_tab (d q : Nat) (u r : List Nat) : ∀ i : Nat, (∀ c ∈ u, c ≠ 9) →
    scanPositions d (u ++ 9 :: r) i (some q) = (some q, some (i + u.length)) := by
  induction u with
  | nil => intro i _; simp [scanPositions_cons]
  | cons c u ih =>
    intro i h
    rw [List.cons_append, scanPositions_cons, if_neg (h c (by simp))]
    simp only [reduceCtorEq, and_false, if_false]
    rw [ih (i + 1) (fun b hb => h b (by simp [hb]))]
    simp; omega

theorem scan_none (d : Nat) (p : List Nat) : ∀ i : Nat, (∀ c ∈ p, c ≠ 9 ∧ c ≠ 63 ∧ c ≠ d) →
    ∀ rest, scanPositions d (p ++ rest) i none = scanPositions d rest (i + p.length) none := by
  induction p with
  | nil => intro i _ rest; rfl
  | cons c p ih =>
    intro i h rest
    obtain ⟨h9, h63, hd⟩ := h c (by simp)
    rw [List.cons_append, scanPositions_cons, if_neg h9]
    simp only [h63, hd, false_and, if_false]
    rw [ih (i + 1) (fun b hb => h b (by simp [hb]))]
    simp; congr 1; omega

theorem take_succ_at (p : List Nat) (c : Nat) (rest : List Nat) :
    (p ++ c :: rest).take (p.length + 1) = p ++ [c] := by
  induction p with
  | nil => rfl
  | cons y p ih => simp [ih]

theorem drop_succ_at (p : List Nat) (c : Nat) (rest : List Nat) :
    (p ++ c :: rest).drop (p.length + 1) = rest := by
  induction p with
  | nil => rfl
  | cons y p ih => simp [ih]

theorem scan_sep (d x i : Nat) (rest : List Nat) (hx9 : x ≠ 9) (hx : x = 63 ∨ x = d) :
    scanPositions d (x :: rest) i none = scanPositions d rest (i + 1) (some i) := by
  rw [scanPositions_cons, if_neg hx9]
  rcases hx with h | h
  · simp [h]
  · by_cases h63 : x = 63
    · simp [h63]
    · subst h; simp [h63]

theorem scan_tab (d i : Nat) (rest : List Nat) (hd : d ≠ 9) :
    scanPositions d (9 :: rest) i none = (none, some i) := by
  rw [scanPositions_cons, if_pos rfl]
  have : ¬ (9 = d) := fun e => hd e.symm
  simp [this]

/-- The buffer after the TAB of a selector `h ++ TAB :: r` has been handled. -/
theorem tab_part (h r : List Nat) (hr : 0 ∉ r) :
    ((((h ++ 9 :: r) ++ [0]).take (h.length + 1) ++
        zeroFirstTab (((h ++ 9 :: r) ++ [0]).drop (h.length + 1))).set h.length 0
      = h ++ 0 :: zeroFirstTab (r ++ [0])) ∧
    cstrAt (((h ++ 9 :: r) ++ [0]).take (h.length + 1) ++
        zeroFirstTab (((h ++ 9 :: r) ++ [0]).drop (h.length + 1))) (h.length + 1)
      = r.takeWhile (fun c => c != 9) := by
  have e : (h ++ 9 :: r) ++ [0] = h ++ 9 :: (r ++ [0]) := by simp
  rw [e, take_succ_at, drop_succ_at]
  constructor
  · rw [List.append_assoc, List.singleton_append, set_at_length]
  · rw [cstrAt_skip (h ++ [9]) _ _ (by simp), zeroFirstTab_read r hr]

theorem explode_plain (d : Nat) (p : List Nat) (hp : ∀ c ∈ p, c ≠ 9 ∧ c ≠ 63 ∧ c ≠ d)
    (h0 : 0 ∉ p) :
    explode_serverside_params_from_query p d = ⟨p, none, none⟩ := by
  have hpos : scanPositions d p 0 none = (none, none) := by
    have := scan_none d p 0 hp []
    rw [List.append_nil] at this
    rw [this]; rfl
  unfold explode_serverside_params_from_query
  rw [hpos]
  simp only
  rw [show p ++ [0] = p ++ 0 :: [] from rfl, cstrAt_zero p [] h0]

theorem explode_url (d : Nat) (p u : List Nat) (x : Nat)
    (hp : ∀ c ∈ p, c ≠ 9 ∧ c ≠ 63 ∧ c ≠ d) (hx9 : x ≠ 9) (hx : x = 63 ∨ x = d)
    (hu : ∀ c ∈ u, c ≠ 9) (h0p : 0 ∉ p) (h0u : 0 ∉ u) :
    explode_serverside_params_from_query (p ++ x :: u) d = ⟨p, some u, none⟩ := by
  have hpos : scanPositions d (p ++ x :: u) 0 none = (some p.length, none) := by
    rw [scan_none d p 0 hp, scan_sep d x _ u hx9 hx, scan_found d _ u _ hu]
    simp
  unfold explode_serverside_params_from_query
  rw [hpos]
  simp only
  have e : (p ++ x :: u) ++ [0] = p ++ x :: (u ++ [0]) := by simp
  rw [e, set_at_length, cstrAt_zero p _ h0p]
  have e2 : p ++ x :: (u ++ [0]) = (p ++ [x]) ++ (u ++ 0 :: []) := by simp
  rw [e2, cstrAt_skip (p ++ [x]) _ _ (by simp), cstrAt_zero u [] h0u]

theorem explode_search (d : Nat) (p r : List Nat) (hd : d ≠ 9)
    (hp : ∀ c ∈ p, c ≠ 9 ∧ c ≠ 63 ∧ c ≠ d) (h0p : 0 ∉ p) (h0r : 0 ∉ r) :
    explode_serverside_params_from_query (p ++ 9 :: r) d
      = ⟨p, none, some (r.takeWhile (fun c => c != 9))⟩ := by
  have hpos : scanPositions d (p ++ 9 :: r) 0 none = (none, some p.length) := by
    rw [scan_none d p 0 hp, scan_tab d _ r hd]
    simp
  unfold explode_serverside_params_from_query
  rw [hpos]
  simp only
  obtain ⟨e1, e2⟩ := tab_part p r h0r
  rw [e1, e2, cstrAt_zero p _ h0p]

theorem explode_both (d : Nat) (p u r : List Nat) (x : Nat)
    (hp : ∀ c ∈ p, c ≠ 9 ∧ c ≠ 63 ∧ c ≠ d) (hx9 : x ≠ 9) (hx : x = 63 ∨ x = d)
    (hu : ∀ c ∈ u, c ≠ 9) (h0p : 0 ∉ p) (h0u : 0 ∉ u) (h0r : 0 ∉ r) :
    explode_serverside_params_from_query (p ++ x :: (u ++ 9 :: r)) d
      = ⟨p, some u, some (r.takeWhile (fun c => c != 9))⟩ := by
  have hpos : scanPositions d (p ++ x :: (u ++ 9 :: r)) 0 none
      = (some p.length, some ((p ++ x :: u).length)) := by
    rw [scan_none d p 0 hp, scan_sep d x _ _ hx9 hx, scan_found_tab d _ u r _ hu]
    simp; omega
  unfold explode_serverside_params_from_query
  rw [hpos]
  simp only
  have es : p ++ x :: (u ++ 9 :: r) = (p ++ x :: u) ++ 9 :: r := by simp
  obtain ⟨e1, e2⟩ := tab_part (p ++ x :: u) r h0r
  rw [es, e1, e2]
  have e3 : (p ++ x :: u) ++ 0 :: zeroFirstTab (r ++ [0])
      = p ++ x :: (u ++ 0 :: zeroFirstTab (r ++ [0])) := by simp
  rw [e3, set_at_length, cstrAt_zero p _ h0p]
  have e4 : p ++ x :: (u ++ 0 :: zeroFirstTab (r ++ [0]))
      = (p ++ [x]) ++ (u ++ 0 :: zeroFirstTab (r ++ [0])) := by simp
  rw [e4, cstrAt_skip (p ++ [x]) _ _ (by simp), cstrAt_zero u _ h0u]

theorem sep_false (d c : Nat) (h63 : c ≠ 63) (hd : c ≠ d) :
    (c == 63 || (d != 0 && c == d)) = false := by
  simp [h63, hd]

theorem sep_true (d x : Nat) (hx : x = 63 ∨ x = d) (hx0 : x ≠ 0) :
    (x == 63 || (d != 0 && x == d)) = true := by
  rcases hx with h | h
  · simp [h]
  · subst h; simp [hx0]

theorem tab_false (c : Nat) (h : c ≠ 9) : (c == 9) = false := by simp [h]

theorem reference_plain (d : Nat) (p : List Nat) (hp : ∀ c ∈ p, c ≠ 9 ∧ c ≠ 63 ∧ c ≠ d) :
    referenceSplit d p = ⟨p, none, none⟩ := by
  unfold referenceSplit
  have ht : p.findIdx (fun c => c == 9) = p.length :=
    findIdx_all_false _ p (fun c hc => tab_false c (hp c hc).1)
  simp only [ht, List.take_length]
  have hq : p.findIdx (fun c => c == 63 || (d != 0 && c == d)) = p.length :=
    findIdx_all_false _ p (fun c hc => sep_false d c (hp c hc).2.1 (hp c hc).2.2)
  simp [hq]

theorem reference_url (d : Nat) (p u : List Nat) (x : Nat)
    (hp : ∀ c ∈ p, c ≠ 9 ∧ c ≠ 63 ∧ c ≠ d) (hx9 : x ≠ 9) (hx : x = 63 ∨ x = d) (hx0 : x ≠ 0)
    (hu : ∀ c ∈ u, c ≠ 9) :
    referenceSplit d (p ++ x :: u) = ⟨p, some u, none⟩ := by
  unfold referenceSplit
  have ht : (p ++ x :: u).findIdx (fun c => c == 9) = (p ++ x :: u).length := by
    apply findIdx_all_false
    intro c hc
    rcases List.mem_append.mp hc with h | h
    · exact tab_false c (hp c h).1
    · rcases List.mem_cons.mp h with rfl | h
      · exact tab_false _ hx9
      · exact tab_false c (hu c h)
  simp only [ht, List.take_length]
  have hq : (p ++ x :: u).findIdx (fun c => c == 63 || (d != 0 && c == d)) = p.length :=
    findIdx_first _ p x u (fun c hc => sep_false d c (hp c hc).2.1 (hp c hc).2.2)
      (sep_true d x hx hx0)
  simp only [hq, drop_succ_at, List.take_left]
  simp

theorem reference_search (d : Nat) (p r : List Nat)
    (hp : ∀ c ∈ p, c ≠ 9 ∧ c ≠ 63 ∧ c ≠ d) :
    referenceSplit d (p ++ 9 :: r) = ⟨p, none, some (r.takeWhile (fun c => c != 9))⟩ := by
  unfold referenceSplit
  have ht : (p ++ 9 :: r).findIdx (fun c => c == 9) = p.length :=
    findIdx_first _ p 9 r (fun c hc => tab_false c (hp c hc).1) rfl
  simp only [ht, List.take_left, drop_succ_at]
  have hq : p.findIdx (fun c => c == 63 || (d != 0 && c == d)) = p.length :=
    findIdx_all_false _ p (fun c hc => sep_false d c (hp c hc).2.1 (hp c hc).2.2)
  simp [hq]

theorem reference_both (d : Nat) (p u r : List Nat) (x : Nat)
    (hp : ∀ c ∈ p, c ≠ 9 ∧ c ≠ 63 ∧ c ≠ d) (hx9 : x ≠ 9) (hx : x = 63 ∨ x = d) (hx0 : x ≠ 0)
    (hu : ∀ c ∈ u, c ≠ 9) :
    referenceSplit d (p ++ x :: (u ++ 9 :: r))
      = ⟨p, some u, some (r.takeWhile (fun c => c != 9))⟩ := by
  have es : p ++ x :: (u ++ 9 :: r) = (p ++ x :: u) ++ 9 :: r := by simp
  rw [es]
  unfold referenceSplit
  have ht : ((p ++ x :: u) ++ 9 :: r).findIdx (fun c => c == 9) = (p ++ x :: u).length := by
    apply findIdx_first _ _ 9 r _ rfl
    intro c hc
    rcases List.mem_append.mp hc with h | h
    · exact tab_false c (hp c h).1
    · rcases List.mem_cons.mp h with rfl | h
      · exact tab_false _ hx9
      · exact tab_false c (hu c h)
  simp only [ht, List.take_left, drop_succ_at]
  have hq : (p ++ x :: u).findIdx (fun c => c == 63 || (d != 0 && c == d)) = p.length :=
    findIdx_first _ p x u (fun c hc => sep_false d c (hp c hc).2.1 (hp c hc).2.2)
      (sep_true d x hx hx0)
  simp only [hq, drop_succ_at]
  have e5 : (p ++ x :: u ++ 9 :: r).take p.length = p := by
    rw [List.append_assoc, List.take_left]
  simp [e5]

/-- For a delimiter other than TAB the split of the source is the reference split. -/
theorem explode_eq_reference (d : Nat) (s : List Nat) (hd : d ≠ 9) (hs : IsCString s) :
    explode_serverside_params_from_query s d = referenceSplit d s := by
  have h0 : ∀ l : List Nat, (∀ c ∈ l, c ∈ s) → 0 ∉ l := by
    intro l hl hm
    have := (hs 0 (hl 0 hm)).1
    omega
  rcases split_first (fun c => c = 9) s with hnt | ⟨h, t, r, rfl, ht, hh⟩
  · rcases split_first (fun c => c = 63 ∨ c = d) s with hns | ⟨p, x, u, rfl, hx, hp⟩
    · have hp : ∀ c ∈ s, c ≠ 9 ∧ c ≠ 63 ∧ c ≠ d := fun c hc =>
        ⟨hnt c hc, fun e => hns c hc (Or.inl e), fun e => hns c hc (Or.inr e)⟩
      rw [explode_plain d s hp (h0 s (fun _ h => h)), reference_plain d s hp]
    · have hp' : ∀ c ∈ p, c ≠ 9 ∧ c ≠ 63 ∧ c ≠ d := fun c hc =>
        ⟨hnt c (by simp [hc]), fun e => hp c hc (Or.inl e), fun e => hp c hc (Or.inr e)⟩
      have hx9 : x ≠ 9 := hnt x (by simp)
      have hu : ∀ c ∈ u, c ≠ 9 := fun c hc => hnt c (by simp [hc])
      have hx0 : x ≠ 0 := by have := (hs x (by simp)).1; omega
      rw [explode_url d p u x hp' hx9 hx hu (h0 p (fun c hc => by simp [hc]))
          (h0 u (fun c hc => by simp [hc])),
        reference_url d p u x hp' hx9 hx hx0 hu]
  · have ht9 : t = 9 := ht
    subst ht9
    rcases split_first (fun c => c = 63 ∨ c = d) h with hns | ⟨p, x, u, rfl, hx, hp⟩
    · have hp : ∀ c ∈ h, c ≠ 9 ∧ c ≠ 63 ∧ c ≠ d := fun c hc =>
        ⟨hh c hc, fun e => hns c hc (Or.inl e), fun e => hns c hc (Or.inr e)⟩
      rw [explode_search d h r hd hp (h0 h (fun c hc => by simp [hc]))
          (h0 r (fun c hc => by simp [hc])),
        reference_search d h r hp]
    · have hp' : ∀ c ∈ p, c ≠ 9 ∧ c ≠ 63 ∧ c ≠ d := fun c hc =>
        ⟨hh c (by simp [hc]), fun e => hp c hc (Or.inl e), fun e => hp c hc (Or.inr e)⟩
      have hx9 : x ≠ 9 := hh x (by simp)
      have hu : ∀ c ∈ u, c ≠ 9 := fun c hc => hh c (by simp [hc])
      have hx0 : x ≠ 0 := by have := (hs x (by simp)).1; omega
      have es : (p ++ x :: u) ++ 9 :: r = p ++ x :: (u ++ 9 :: r) := by simp
      rw [es, explode_both d p u r x hp' hx9 hx hu (h0 p (fun c hc => by simp [hc]))
          (h0 u (fun c hc => by simp [hc])) (h0 r (fun c hc => by simp [hc])),
        reference_both d p u r x hp' hx9 hx hx0 hu]

/-! ## Lemmas: bytes the scan can never accept -/

/-- A byte that the scan refuses as a lead byte and that is no continuation byte makes
the scan fail wherever it stands. -/
theorem utf8scan_rejects_aux (P : Nat → Prop)
    (hhead : ∀ c rest, P c → utf8scan (c :: rest) ≠ none)
    (hcont : ∀ c, P c → c &&& bx11000000 ≠ bx10000000) (n : Nat) :
    ∀ s : List Nat, s.length ≤ n → (∃ b ∈ s, P b) → utf8scan s ≠ none := by
  induction n using Nat.strong_induction_on with
  | _ n ih =>
    intro s hlen hex
    rcases s with _ | ⟨c, rest⟩
    · simp at hex
    · by_cases hP : P c
      · exact hhead c rest hP
      have hrest : ∃ b ∈ rest, P b := by
        obtain ⟨b, hb, hb2⟩ := hex
        rcases List.mem_cons.mp hb with rfl | hb
        · exact absurd hb2 hP
        · exact ⟨b, hb, hb2⟩
      have hl : rest.length < n := by simp at hlen; omega
      by_cases hc : 0 < c ∧ c < 32
      · simp [utf8scan_control_byte c rest hc]
      by_cases h1 : c &&& bx10000000 = 0
      · rw [utf8scan_ascii c rest hc h1]
        exact ih _ hl rest le_rfl hrest
      by_cases h2 : c &&& bx11100000 = bx11000000
      · rw [utf8scan_two c rest hc h1 h2]
        rcases rest with _ | ⟨n1, rest1⟩
        · simp
        · by_cases hn1 : n1 &&& bx11000000 = bx10000000
          · simp only [if_pos hn1]
            refine ih _ hl rest1 (by simp) ?_
            obtain ⟨b, hb, hb2⟩ := hrest
            rcases List.mem_cons.mp hb with rfl | hb
            · exact absurd hn1 (hcont _ hb2)
            · exact ⟨b, hb, hb2⟩
          · simp [hn1]
      by_cases h3 : c &&& bx11110000 = bx11100000
      · rw [utf8scan_three c rest hc h1 h2 h3]
        rcases rest with _ | ⟨n1, _ | ⟨n2, rest2⟩⟩
        · simp
        · simp
        · by_cases hn : n1 &&& bx11000000 = bx10000000 ∧ n2 &&& bx11000000 = bx10000000
          · simp only [if_pos hn]
            refine ih _ hl rest2 (by simp; omega) ?_
            obtain ⟨b, hb, hb2⟩ := hrest
            rcases List.mem_cons.mp hb with rfl | hb
            · exact absurd hn.1 (hcont _ hb2)
            · rcases List.mem_cons.mp hb with rfl | hb
              · exact absurd hn.2 (hcont _ hb2)
              · exact ⟨b, hb, hb2⟩
          · simp [hn]
      · simp [utf8scan_bad_lead c rest hc h1 h2 h3]

theorem utf8scan_control (s : List Nat) (h : ∃ b ∈ s, 0 < b ∧ b < 32) : utf8scan s ≠ none :=
  utf8scan_rejects_aux (fun b => 0 < b ∧ b < 32)
    (fun c rest hc => by simp [utf8scan_control_byte c rest hc])
    (fun c hc hm => cont_not_control c hm hc.2) s.length s le_rfl h

theorem utf8scan_four_byte_lead (s : List Nat) (h : ∃ b ∈ s, 240 ≤ b ∧ b ≤ 247) :
    utf8scan s ≠ none :=
  utf8scan_rejects_aux (fun b => 240 ≤ b ∧ b ≤ 247)
    (fun c rest hc => by simp [utf8scan_other c rest (by omega) (Or.inr hc.1)])
    (fun c hc hm => by have := (mask_cont c (by omega)).mp hm; omega) s.length s le_rfl h

theorem gophersecuritycheck_of_scan (s : List Nat) (h : utf8scan s ≠ none) :
    gophersecuritycheck s ≠ none := by
  intro hn
  exact h ((gophersecuritycheck_none_iff s).mp hn).2.2.2

theorem no_control_of_accepted (s : List Nat) (h : gophersecuritycheck s = none) :
    ∀ b ∈ s, ¬ (0 < b ∧ b < 32) := by
  intro b hb hc
  exact gophersecuritycheck_of_scan s (utf8scan_control s ⟨b, hb, hc⟩) h

theorem pipeline_accepted_checked (d : Nat) (raw path : List Nat)
    (u sq : Option (List Nat))
    (h : selectorPipeline d raw = PipelineOutcome.accepted path u sq) :
    gophersecuritycheck path = none := by
  unfold selectorPipeline at h
  simp only at h
  split_ifs at h
  all_goals
    split at h
    · cases h
    · split at h
      · cases h
      · rename_i hsec
        injection h with h1 _ _
        rw [← h1]; exact hsec

/-! ## Properties of the specification -/

/-- C1, evaluated at the failing input. With the gopher root `/srv/gopher` (no trailing
slash) and no public directory, a local file whose real path is
`/srv/gopher-private/secret` passes `checkforevasion` (return value 0) although that
path does not lie within the root. -/
theorem checkforevasion_accepts_sibling_directory :
    checkforevasion [47, 115, 114, 118, 47, 103, 111, 112, 104, 101, 114] []
        (some [47, 115, 114, 118, 47, 103, 111, 112, 104, 101, 114, 45, 112, 114, 105, 118,
          97, 116, 101, 47, 115, 101, 99, 114, 101, 116]) = 0 ∧
      ¬ IsWithin [47, 115, 114, 118, 47, 103, 111, 112, 104, 101, 114]
        [47, 115, 114, 118, 47, 103, 111, 112, 104, 101, 114, 45, 112, 114, 105, 118,
          97, 116, 101, 47, 115, 101, 99, 114, 101, 116] := by
  decide

/-- C2. Every string that contains the three bytes `%00` anywhere makes `percdecode`
fail, whatever surrounds them. -/
theorem percdecode_rejects_nul_escape (s : List Nat) (h : [37, 48, 48] <:+: s) :
    percdecode s = none := by
  obtain ⟨pre, t, rfl⟩ := h
  have key : ∀ n : Nat, ∀ pre : List Nat, pre.length ≤ n →
      percdecode (pre ++ 37 :: 48 :: 48 :: t) = none := by
    intro n
    induction n using Nat.strong_induction_on with
    | _ n ih =>
      intro pre hlen
      rcases pre with _ | ⟨c, pre1⟩
      · simp [percdecode_escape]
      · by_cases hc : c = 37
        · subst hc
          rcases pre1 with _ | ⟨a, _ | ⟨b, pre2⟩⟩
          · have h37 : hex2int 37 < 0 := by decide
            simp [percdecode_escape, h37]
          · have h37 : hex2int 37 < 0 := by decide
            simp [percdecode_escape, h37]
          · have h2 := ih (n - 1) (by simp at hlen; omega) pre2 (by simp at hlen; omega)
            simp [percdecode_escape, h2]
        · have h1 := ih (n - 1) (by simp at hlen; omega) pre1 (by simp at hlen; omega)
          simp [percdecode_cons_ne _ _ hc, h1]
  simpa using key pre.length pre le_rfl

/-- Witness for C2: `/%00` is rejected. -/
theorem percdecode_rejects_nul_escape_witness :
    [37, 48, 48] <:+: [47, 37, 48, 48] ∧ percdecode [47, 37, 48, 48] = none :=
  ⟨by decide, percdecode_rejects_nul_escape [47, 37, 48, 48] (by decide)⟩

/-- C3. A string with two consecutive TABs, or ending with a TAB, or containing a byte
in `1..31`, is refused by `gophersecuritycheck` (the result is not NULL). -/
theorem gophersecuritycheck_rejects_tabs_and_controls (s : List Nat)
    (h : [9, 9] <:+: s ∨ s.getLast? = some 9 ∨ ∃ b ∈ s, 1 ≤ b ∧ b ≤ 31) :
    gophersecuritycheck s ≠ none := by
  apply gophersecuritycheck_of_scan
  apply utf8scan_control
  rcases h with h | h | h
  · exact ⟨9, h.subset (by simp), by decide⟩
  · exact ⟨9, List.mem_of_getLast?_eq_some h, by decide⟩
  · obtain ⟨b, hb, h1, h2⟩ := h
    exact ⟨b, hb, by omega, by omega⟩

/-- Witness for C3: the selector `/a` followed by a TAB is refused. -/
theorem gophersecuritycheck_rejects_tabs_and_controls_witness :
    ([47, 97, 9] : List Nat).getLast? = some 9 ∧ gophersecuritycheck [47, 97, 9] ≠ none :=
  ⟨rfl, gophersecuritycheck_rejects_tabs_and_controls [47, 97, 9] (Or.inr (Or.inl rfl))⟩

/-- C4, as stated, fails: the raw line `a<TAB><TAB>` is accepted by the pipeline although it
contains two consecutive TABs and ends with a TAB, and the raw line made of `?` and 600
letters `a` is accepted although it is longer than 512 bytes. -/
theorem pipeline_raw_selector_counterexample :
    (selectorPipeline 0 [97, 9, 9] = PipelineOutcome.accepted [47, 97] none (some []) ∧
      [9, 9] <:+: [97, 9, 9] ∧ ([97, 9, 9] : List Nat).getLast? = some 9) ∧
    (selectorPipeline 0 (63 :: List.replicate 600 97)
        = PipelineOutcome.accepted [47] (some (List.replicate 600 97)) none ∧
      512 < (63 :: List.replicate 600 97).length) := by
  set_option maxRecDepth 100000 in decide

/-- C4, amended. The decoded path of every selector line that the pipeline of `main`
accepts has at most 512 bytes, contains no two consecutive TABs and does not end with
a TAB. -/
theorem pipeline_accepted_path_invariant (securldelim : Nat) (raw path : List Nat)
    (url_query search_query : Option (List Nat))
    (h : selectorPipeline securldelim raw
      = PipelineOutcome.accepted path url_query search_query) :
    path.length ≤ 512 ∧ ¬ [9, 9] <:+: path ∧ path.getLast? ≠ some 9 := by
  have hsec := pipeline_accepted_checked securldelim raw path url_query search_query h
  have hctl := no_control_of_accepted path hsec
  have h9 : 9 ∉ path := fun hm => hctl 9 hm (by decide)
  refine ⟨((gophersecuritycheck_none_iff path).mp hsec).1, ?_, ?_⟩
  · intro hi; exact h9 (hi.subset (by simp))
  · intro hl; exact h9 (List.mem_of_getLast?_eq_some hl)

/-- Witness for C4 amended: the line `a?b` is accepted with path `/a`. -/
theorem pipeline_accepted_path_invariant_witness :
    selectorPipeline 0 [97, 63, 98] = PipelineOutcome.accepted [47, 97] (some [98]) none ∧
      (([47, 97] : List Nat).length ≤ 512 ∧ ¬ [9, 9] <:+: ([47, 97] : List Nat) ∧
        ([47, 97] : List Nat).getLast? ≠ some 9) :=
  ⟨by decide, pipeline_accepted_path_invariant 0 [97, 63, 98] [47, 97] (some [98]) none
    (by decide)⟩

/-- C5. `percdecode` is the reference percent-decoder, and it succeeds exactly when every
`%` met by the scan is followed by two hex digits that are not both `0`. -/
theorem percdecode_refines_reference (s : List Nat) :
    percdecode s = referenceDecode s ∧
      ((percdecode s).isSome = true ↔ escapesWellFormed s = true) := by
  refine ⟨percdecode_eq_reference s, ?_⟩
  rw [percdecode_eq_reference s, reference_isSome_aux s.length s le_rfl]

/-- C6. On a string without `%`, `percdecode` succeeds, and decoding its result again
gives that same result. -/
theorem percdecode_idempotent_without_percent (s : List Nat) (h : 37 ∉ s) :
    ∃ t, percdecode s = some t ∧ percdecode t = some t := by
  refine ⟨s.map (fun c => if c = 43 then 32 else c), percdecode_no_percent s h, ?_⟩
  apply percdecode_plain
  · intro hm
    obtain ⟨c, hc, e⟩ := List.mem_map.mp hm
    by_cases h43 : c = 43
    · simp [h43] at e
    · simp only [if_neg h43] at e
      exact h (e ▸ hc)
  · intro hm
    obtain ⟨c, _, e⟩ := List.mem_map.mp hm
    by_cases h43 : c = 43
    · simp [h43] at e
    · simp only [if_neg h43] at e
      exact h43 e

/-- Witness for C6: `a+b` decodes to `a b`, which decodes to itself. -/
theorem percdecode_idempotent_without_percent_witness :
    37 ∉ ([97, 43, 98] : List Nat) ∧
      ∃ t, percdecode [97, 43, 98] = some t ∧ percdecode t = some t :=
  ⟨by decide, percdecode_idempotent_without_percent [97, 43, 98] (by decide)⟩

/-- C9, as stated, fails when the delimiter is the TAB byte: for the selector `a<TAB>b`
the code returns `b` as `url_query` as well as `search_query`, where the claim has no
`url_query` since no `?` or delimiter stands before the first TAB. -/
theorem explode_tab_delimiter_counterexample :
    explode_serverside_params_from_query [97, 9, 98] 9 = ⟨[97], some [98], some [98]⟩ ∧
      referenceSplit 9 [97, 9, 98] = ⟨[97], none, some [98]⟩ := by
  decide

/-- C9, amended. For every selector and every delimiter other than TAB,
`explode_serverside_params_from_query` is the reference split: path up to the first `?`
or delimiter standing before the first TAB, `url_query` the bytes between it and that
TAB, `search_query` the bytes from that TAB to the next; and when no `?` or delimiter
stands before the first TAB there is no `url_query`. -/
theorem explode_refines_reference (d : Nat) (s : List Nat) (hd : d ≠ 9) (hs : IsCString s) :
    explode_serverside_params_from_query s d = referenceSplit d s ∧
      ((∀ c ∈ s.takeWhile (fun c => c != 9), c ≠ 63 ∧ c ≠ d) →
        (explode_serverside_params_from_query s d).url_query = none) := by
  refine ⟨explode_eq_reference d s hd hs, ?_⟩
  intro hno
  rw [explode_eq_reference d s hd hs]
  unfold referenceSplit
  simp only
  have htake : s.take (s.findIdx (fun c => c == 9)) = s.takeWhile (fun c => c != 9) := by
    rw [List.takeWhile_eq_take_findIdx_not]
    have hf : (fun a : Nat => !(a != 9)) = (fun c : Nat => c == 9) := by
      funext a; cases h : a == 9 <;> simp [bne, h]
    rw [hf]
  have hq : (s.take (s.findIdx (fun c => c == 9))).findIdx
      (fun c => c == 63 || (d != 0 && c == d)) = (s.take (s.findIdx (fun c => c == 9))).length := by
    apply findIdx_all_false
    intro c hc
    rw [htake] at hc
    exact sep_false d c (hno c hc).1 (hno c hc).2
  rw [hq, if_neg]
  have hle : s.findIdx (fun c => c == 9) ≤ s.length := List.findIdx_le_length _
  rw [List.length_take]
  omega

/-- Witness for C9 amended: `/a?b<TAB>c?` with the delimiter disabled. -/
theorem explode_refines_reference_witness :
    explode_serverside_params_from_query [47, 97, 63, 98, 9, 99, 63] 0
        = referenceSplit 0 [47, 97, 63, 98, 9, 99, 63] ∧
      ((∀ c ∈ ([47, 97, 63, 98, 9, 99, 63] : List Nat).takeWhile (fun c => c != 9),
          c ≠ 63 ∧ c ≠ 0) →
        (explode_serverside_params_from_query [47, 97, 63, 98, 9, 99, 63] 0).url_query = none) :=
  explode_refines_reference 0 [47, 97, 63, 98, 9, 99, 63] (by decide) (by decide)

/-- C10. A string of at most 512 bytes without control bytes is accepted by
`gophersecuritycheck` exactly when its bytes with the high bit set form two-byte and
three-byte sequences; and a string is refused whenever it contains a lead byte
`0xF0..0xF7` of a four-byte sequence, a continuation byte where a sequence should
start, or a lead byte whose sequence is cut off by the end of the string. -/
theorem gophersecuritycheck_utf8_sequences :
    (∀ s : List Nat, IsCString s → s.length ≤ 512 → (∀ b ∈ s, ¬ (1 ≤ b ∧ b ≤ 31)) →
      (gophersecuritycheck s = none ↔ HighBytesInSequences s)) ∧
    (∀ s : List Nat, (∃ b ∈ s, 240 ≤ b ∧ b ≤ 247) → gophersecuritycheck s ≠ none) ∧
    (∀ (pre post : List Nat) (c : Nat), HighBytesInSequences pre → isContinuation c →
      gophersecuritycheck (pre ++ c :: post) ≠ none) ∧
    (∀ (pre : List Nat) (l : Nat), HighBytesInSequences pre → 192 ≤ l → l ≤ 239 →
      gophersecuritycheck (pre ++ [l]) ≠ none) ∧
    (∀ (pre : List Nat) (l c : Nat), HighBytesInSequences pre → 224 ≤ l → l ≤ 239 →
      gophersecuritycheck (pre ++ [l, c]) ≠ none) := by
  refine ⟨?_, ?_, ?_, ?_, ?_⟩
  · intro s hs hlen hctl
    have hctl' : ∀ b ∈ s, ¬ (0 < b ∧ b < 32) := fun b hb hc => hctl b hb (by omega)
    constructor
    · intro h
      exact utf8scan_sound_aux s.length s le_rfl (fun b hb => (hs b hb).2)
        ((gophersecuritycheck_none_iff s).mp h).2.2.2
    · intro h
      rw [gophersecuritycheck_none_iff]
      refine ⟨hlen, ?_, ?_, utf8scan_accepts s h hctl'⟩
      · cases hsome : (strstr s [9, 9]).isSome
        · rfl
        · exact absurd (strstr_tabs_mem s hsome) (fun hm => hctl 9 hm (by decide))
      · intro hl
        exact hctl 9 (lastchar_tab_mem s hl) (by decide)
  · intro s h
    exact gophersecuritycheck_of_scan s (utf8scan_four_byte_lead s h)
  · intro pre post c hpre hc
    apply gophersecuritycheck_of_scan
    apply utf8scan_after_prefix pre _ hpre
    unfold isContinuation at hc
    rw [utf8scan_other c post (by omega) (Or.inl hc)]
    simp
  · intro pre l hpre h1 h2
    apply gophersecuritycheck_of_scan
    apply utf8scan_after_prefix pre _ hpre
    by_cases h3 : l ≤ 223
    · rw [utf8scan_lead2_end l h1 h3]; simp
    · rw [utf8scan_lead3_end l [] (by omega) h2 (by simp)]; simp
  · intro pre l c hpre h1 h2
    apply gophersecuritycheck_of_scan
    apply utf8scan_after_prefix pre _ hpre
    rw [utf8scan_lead3_end l [c] h1 h2 (by simp)]; simp

/-- Witness for C10: `/é` (bytes `2F C3 A9`) is accepted, and a string holding the
four-byte sequence `F0 9F 98 80` is refused. -/
theorem gophersecuritycheck_utf8_sequences_witness :
    gophersecuritycheck [47, 195, 169] = none ∧
      gophersecuritycheck [47, 240, 159, 152, 128] ≠ none :=
  ⟨(gophersecuritycheck_utf8_sequences.1 [47, 195, 169] (by decide) (by decide)
      (by decide)).mpr
      (HighBytesInSequences.low 47 _ (by decide)
        (HighBytesInSequences.two 195 169 [] (by decide) (by decide) ⟨by decide, by decide⟩
          HighBytesInSequences.done)),
    gophersecuritycheck_utf8_sequences.2.1 [47, 240, 159, 152, 128]
      ⟨240, by decide, by decide, by decide⟩⟩

/-! ## Lemmas: `strstr` and `RemoveDoubleChar` -/

theorem stringstartswith_of_prefix (s p : List Nat) (h : p <+: s) : stringstartswith s p = 1 := by
  induction s generalizing p with
  | nil =>
    have : p = [] := List.prefix_nil.mp h
    subst this; rfl
  | cons c s ih =>
    rcases p with _ | ⟨d, p⟩
    · rfl
    · have hs : stringstartswith (c :: s) (d :: p) =
          if c ≠ d then 0 else stringstartswith s p := rfl
      obtain ⟨hcd, hp⟩ := List.cons_prefix_cons.mp h
      rw [hs, if_neg (by simp [hcd]), ih p hp]

theorem stringstartswith_eq_one_iff (s p : List Nat) : stringstartswith s p = 1 ↔ p <+: s :=
  ⟨fun h => stringstartswith_prefix s p (by omega), stringstartswith_of_prefix s p⟩

theorem strstr_nil (needle : List Nat) :
    strstr [] needle = if needle = [] then some 0 else none := rfl

theorem strstr_some (s needle : List Nat) : ∀ i, strstr s needle = some i →
    i ≤ s.length ∧ needle <+: s.drop i := by
  induction s with
  | nil =>
    intro i h
    rw [strstr_nil] at h
    by_cases hn : needle = []
    · rw [if_pos hn] at h
      cases h
      subst hn
      exact ⟨le_rfl, List.nil_prefix⟩
    · rw [if_neg hn] at h; cases h
  | cons c s ih =>
    intro i h
    rw [strstr_cons] at h
    by_cases hp : stringstartswith (c :: s) needle = 1
    · rw [if_pos hp] at h
      cases h
      exact ⟨Nat.zero_le _, (stringstartswith_eq_one_iff _ _).mp hp⟩
    · rw [if_neg hp] at h
      cases hs : strstr s needle with
      | none => rw [hs] at h; cases h
      | some j =>
        rw [hs] at h
        cases h
        obtain ⟨h1, h2⟩ := ih j hs
        exact ⟨by simp; omega, by simpa using h2⟩

theorem strstr_none (s needle : List Nat) (h : strstr s needle = none) : ¬ needle <:+: s := by
  induction s with
  | nil =>
    rw [strstr_nil] at h
    by_cases hn : needle = []
    · rw [if_pos hn] at h; cases h
    · intro hi
      exact hn (List.eq_nil_of_infix_nil hi)
  | cons c s ih =>
    rw [strstr_cons] at h
    by_cases hp : stringstartswith (c :: s) needle = 1
    · rw [if_pos hp] at h; cases h
    · rw [if_neg hp] at h
      have hs : strstr s needle = none := by
        cases hs : strstr s needle with
        | none => rfl
        | some j => rw [hs] at h; cases h
      intro hi
      rcases List.infix_cons_iff.mp hi with h1 | h1
      · exact hp ((stringstartswith_eq_one_iff _ _).mpr h1)
      · exact ih hs h1

theorem strstr_some_lt (s needle : List Nat) (i : Nat) (h : strstr s needle = some i)
    (hn : needle ≠ []) : i < s.length := by
  obtain ⟨h1, h2⟩ := strstr_some s needle i h
  rcases Nat.lt_or_ge i s.length with hlt | hge
  · exact hlt
  · rw [List.drop_eq_nil_of_le hge] at h2
    exact absurd (List.prefix_nil.mp h2) hn

theorem RemoveDoubleCharLoop_zero (ch : Nat) (s : List Nat) :
    RemoveDoubleCharLoop ch 0 s = s := rfl

theorem RemoveDoubleCharLoop_succ (ch fuel : Nat) (s : List Nat) :
    RemoveDoubleCharLoop ch (fuel + 1) s =
      match strstr s [ch, ch] with
      | none => s
      | some occur => RemoveDoubleCharLoop ch fuel (s.eraseIdx occur) := rfl

/-- With as many passes as the string has bytes, the loop of `RemoveDoubleChar` ends
because `strstr` finds no doubled byte any more. -/
theorem RemoveDoubleCharLoop_done (ch : Nat) : ∀ (fuel : Nat) (s : List Nat), s.length ≤ fuel →
    strstr (RemoveDoubleCharLoop ch fuel s) [ch, ch] = none := by
  intro fuel
  induction fuel with
  | zero =>
    intro s hs
    have : s = [] := List.eq_nil_of_length_eq_zero (by omega)
    subst this
    rfl
  | succ fuel ih =>
    intro s hs
    rw [RemoveDoubleCharLoop_succ]
    cases hocc : strstr s [ch, ch] with
    | none => simpa using hocc
    | some occur =>
      simp only
      apply ih
      have hlt := strstr_some_lt s [ch, ch] occur hocc (by simp)
      rw [List.length_eraseIdx]
      simp [hlt]; omega

theorem eraseIdx_head_of_double (ch : Nat) (s : List Nat) (occur : Nat)
    (h : [ch, ch] <+: s.drop occur) : (s.eraseIdx occur).head? = s.head? := by
  rcases occur with _ | k
  · obtain ⟨t, ht⟩ := h
    rw [List.drop_zero] at ht
    rw [← ht]; rfl
  · rcases s with _ | ⟨a, s⟩
    · rfl
    · rfl

theorem RemoveDoubleCharLoop_head (ch : Nat) : ∀ (fuel : Nat) (s : List Nat),
    (RemoveDoubleCharLoop ch fuel s).head? = s.head? := by
  intro fuel
  induction fuel with
  | zero => intro s; rfl
  | succ fuel ih =>
    intro s
    rw [RemoveDoubleCharLoop_succ]
    cases hocc : strstr s [ch, ch] with
    | none => rfl
    | some occur =>
      simp only
      rw [ih, eraseIdx_head_of_double ch s occur (strstr_some s _ occur hocc).2]

theorem RemoveDoubleCharLoop_sublist (ch : Nat) : ∀ (fuel : Nat) (s : List Nat),
    (RemoveDoubleCharLoop ch fuel s).Sublist s := by
  intro fuel
  induction fuel with
  | zero => intro s; exact List.Sublist.refl _
  | succ fuel ih =>
    intro s
    rw [RemoveDoubleCharLoop_succ]
    cases hocc : strstr s [ch, ch] with
    | none => exact List.Sublist.refl _
    | some occur => exact (ih _).trans (List.eraseIdx_sublist s occur)

theorem RemoveDoubleChar_no_double (s : List Nat) (ch : Nat) :
    ¬ [ch, ch] <:+: RemoveDoubleChar s ch :=
  strstr_none _ _ (RemoveDoubleCharLoop_done ch s.length s le_rfl)

theorem RemoveDoubleChar_head (s : List Nat) (ch : Nat) :
    (RemoveDoubleChar s ch).head? = s.head? :=
  RemoveDoubleCharLoop_head ch s.length s

theorem RemoveDoubleChar_sublist (s : List Nat) (ch : Nat) : (RemoveDoubleChar s ch).Sublist s :=
  RemoveDoubleCharLoop_sublist ch s.length s

/-! ## Lemmas: the path keeps its leading slash -/

theorem scanPositions_ge (d : Nat) (s : List Nat) : ∀ (i : Nat) (que : Option Nat),
    (∀ q, que = some q → 1 ≤ q) → 1 ≤ i →
    (∀ q, (scanPositions d s i que).1 = some q → 1 ≤ q) ∧
      (∀ t, (scanPositions d s i que).2 = some t → 1 ≤ t) := by
  induction s with
  | nil =>
    intro i que hq _
    rw [scanPositions_nil]
    exact ⟨hq, fun t h => by cases h⟩
  | cons c rest ih =>
    intro i que hq hi
    rw [scanPositions_cons]
    have hq2 : ∀ q, (if c = d ∧ (if c = 63 ∧ que = none then some i else que) = none then some i
        else (if c = 63 ∧ que = none then some i else que)) = some q → 1 ≤ q := by
      intro q h
      split_ifs at h with h1 h2 h3
      all_goals first
        | (cases h; exact hi)
        | exact hq q h
    by_cases h9 : c = 9
    · rw [if_pos h9]
      exact ⟨hq2, fun t h => by cases h; exact hi⟩
    · rw [if_neg h9]
      exact ih (i + 1) _ hq2 (by omega)

theorem head_set_pos (l : List Nat) (i x : Nat) (hi : 1 ≤ i) : (l.set i x).head? = l.head? := by
  rcases l with _ | ⟨a, l⟩
  · rfl
  · rcases i with _ | i
    · omega
    · rfl

theorem head_take_append (l m : List Nat) (n : Nat) (h : l ≠ []) :
    (l.take (n + 1) ++ m).head? = l.head? := by
  rcases l with _ | ⟨a, l⟩
  · exact absurd rfl h
  · rfl

theorem explode_path_head (d c : Nat) (rest : List Nat) (h63 : c ≠ 63) (hd : c ≠ d)
    (h9 : c ≠ 9) (h0 : c ≠ 0) :
    (explode_serverside_params_from_query (c :: rest) d).path.head? = some c := by
  have hscan : scanPositions d (c :: rest) 0 none = scanPositions d rest 1 none := by
    rw [scanPositions_cons, if_neg h9]
    simp [h63, hd]
  obtain ⟨hq, ht⟩ := scanPositions_ge d rest 1 none (fun q h => by cases h) le_rfl
  have hbuf : ∀ buf : List Nat, buf.head? = some c → (cstrAt buf 0).head? = some c := by
    intro buf hb
    rcases buf with _ | ⟨a, buf⟩
    · cases hb
    · simp only [List.head?_cons, Option.some.injEq] at hb
      subst hb
      simp [cstrAt, List.takeWhile_cons, h0]
  unfold explode_serverside_params_from_query
  rw [hscan]
  simp only
  apply hbuf
  cases h1 : (scanPositions d rest 1 none).1 with
  | none =>
    cases h2 : (scanPositions d rest 1 none).2 with
    | none => rfl
    | some t =>
      simp only
      rw [head_set_pos _ _ _ (ht t h2), head_take_append _ _ _ (by simp)]
      rfl
  | some q =>
    cases h2 : (scanPositions d rest 1 none).2 with
    | none =>
      simp only
      rw [head_set_pos _ _ _ (hq q h1)]
      rfl
    | some t =>
      simp only
      rw [head_set_pos _ _ _ (hq q h1), head_set_pos _ _ _ (ht t h2),
        head_take_append _ _ _ (by simp)]
      rfl

theorem percdecode_head (c : Nat) (p out : List Nat) (hc : c ≠ 37) (h43 : c ≠ 43)
    (h : percdecode p = some out) (hp : p.head? = some c) : out.head? = some c := by
  rcases p with _ | ⟨a, rest⟩
  · cases hp
  · simp only [List.head?_cons, Option.some.injEq] at hp
    subst hp
    rw [percdecode_cons_ne a rest hc] at h
    cases hr : percdecode rest with
    | none => rw [hr] at h; cases h
    | some o =>
      rw [hr] at h
      simp only [Option.map_some', Option.some.injEq] at h
      rw [← h]
      simp [h43]

theorem selectorPipeline_path_head (d : Nat) (raw path : List Nat) (u sq : Option (List Nat))
    (hd : d ≠ 47)
    (h : selectorPipeline d raw = PipelineOutcome.accepted path u sq) :
    path.head? = some 47 := by
  unfold selectorPipeline at h
  simp only at h
  have key : ∀ dl : List Nat, dl.head? = some 47 →
      (match percdecode (explode_serverside_params_from_query dl d).path with
        | none => PipelineOutcome.decodeFailed
        | some decoded =>
          match gophersecuritycheck decoded with
          | some e => PipelineOutcome.rejected e
          | none => PipelineOutcome.accepted decoded
              (explode_serverside_params_from_query dl d).url_query
              (explode_serverside_params_from_query dl d).search_query)
        = PipelineOutcome.accepted path u sq → path.head? = some 47 := by
    intro dl hdl hm
    rcases dl with _ | ⟨a, rest⟩
    · cases hdl
    · simp only [List.head?_cons, Option.some.injEq] at hdl
      subst hdl
      have hph := explode_path_head d 47 rest (by decide) (fun e => hd e.symm) (by decide)
        (by decide)
      split at hm
      · cases hm
      · rename_i decoded hdec
        split at hm
        · cases hm
        · injection hm with h1 _ _
          rw [← h1]
          exact percdecode_head 47 _ decoded (by decide) (by decide) hdec hph
  split_ifs at h
  all_goals
    refine key _ ?_ h
    first
      | rfl
      | (rename_i hh; exact not_not.mp hh)

/-! ## Lemmas: `strcasecmp` and the defaults of a gophermap line -/

theorem tolower_pos (c : Nat) (h : c ≠ 0) : tolower c ≠ 0 := by
  unfold tolower
  split_ifs <;> omega

theorem strcasecmp_cons_cons (a b : Nat) (s1 s2 : List Nat) :
    strcasecmp (a :: s1) (b :: s2) =
      if tolower a ≠ tolower b then (tolower a : Int) - (tolower b : Int)
      else strcasecmp s1 s2 := rfl

/-- On C strings `strcasecmp` returns 0 exactly for strings equal up to ASCII case. -/
theorem strcasecmp_eq_zero_iff (a : List Nat) : ∀ b : List Nat, 0 ∉ a → 0 ∉ b →
    (strcasecmp a b = 0 ↔ EqIgnoringCase a b) := by
  unfold EqIgnoringCase
  induction a with
  | nil =>
    intro b _ hb
    rcases b with _ | ⟨y, b⟩
    · simp [strcasecmp]
    · have hy : y ≠ 0 := fun e => hb (by simp [e])
      have := tolower_pos y hy
      simp only [strcasecmp, List.map_nil, List.map_cons]
      constructor
      · intro h; omega
      · intro h; cases h
  | cons x a ih =>
    intro b ha hb
    have hx : x ≠ 0 := fun e => ha (by simp [e])
    have hxl := tolower_pos x hx
    rcases b with _ | ⟨y, b⟩
    · simp only [strcasecmp, List.map_nil, List.map_cons]
      constructor
      · intro h; omega
      · intro h; cases h
    · rw [strcasecmp_cons_cons]
      by_cases hxy : tolower x = tolower y
      · rw [if_neg (by simp [hxy]),
          ih b (fun e => ha (by simp [e])) (fun e => hb (by simp [e]))]
        simp [hxy]
      · rw [if_pos hxy]
        simp only [List.map_cons, List.cons.injEq]
        constructor
        · intro h; omega
        · intro h; exact absurd h.1 hxy

theorem head?_eq_none_iff_nil (l : List Nat) : l.head? = none ↔ l = [] := by
  cases l <;> simp

theorem cTruncate_of_le (n : Nat) (s : List Nat) (h : s.length + 1 ≤ n) : cTruncate n s = s := by
  unfold cTruncate
  exact List.take_of_length_le (by omega)

/-! ## Lemmas: the reading loops of `explodegophermapline` -/

theorem readField_nil (limit : Nat) (acc : List Nat) :
    readField limit [] acc = if acc.length = limit then FieldRead.overflow else FieldRead.nul acc :=
  rfl

theorem readField_cons (limit c : Nat) (rest acc : List Nat) :
    readField limit (c :: rest) acc =
      if acc.length = limit then FieldRead.overflow
      else if c = 9 then FieldRead.tab acc rest
      else readField limit rest (acc ++ [c]) := rfl

/-- What a reading loop returns, in terms of the bytes before the first TAB. -/
theorem readField_spec (limit : Nat) (s : List Nat) : ∀ acc : List Nat, acc.length ≤ limit →
    readField limit s acc =
      if limit ≤ acc.length + (s.takeWhile (fun c => c != 9)).length then FieldRead.overflow
      else
        match s.dropWhile (fun c => c != 9) with
        | [] => FieldRead.nul (acc ++ s.takeWhile (fun c => c != 9))
        | _ :: rest => FieldRead.tab (acc ++ s.takeWhile (fun c => c != 9)) rest := by
  induction s with
  | nil =>
    intro acc hacc
    rw [readField_nil]
    by_cases h : acc.length = limit
    · rw [if_pos h, if_pos (by simp; omega)]
    · rw [if_neg h, if_neg (by simp; omega)]
      simp
  | cons c rest ih =>
    intro acc hacc
    rw [readField_cons]
    by_cases h : acc.length = limit
    · rw [if_pos h, if_pos (by omega)]
    · rw [if_neg h]
      by_cases h9 : c = 9
      · subst h9
        rw [if_pos rfl, if_neg (by simp; omega)]
        simp
      · rw [if_neg h9, ih (acc ++ [c]) (by simp; omega)]
        have htw : (c :: rest).takeWhile (fun c => c != 9) = c :: rest.takeWhile (fun c => c != 9) := by
          simp [List.takeWhile_cons, h9]
        have hdw : (c :: rest).dropWhile (fun c => c != 9) = rest.dropWhile (fun c => c != 9) := by
          simp [List.dropWhile_cons, h9]
        rw [htw, hdw]
        simp only [List.length_append, List.length_cons, List.length_nil, List.append_assoc,
          List.singleton_append]
        by_cases hlim : limit ≤ acc.length + ((rest.takeWhile (fun c => c != 9)).length + 1)
        · rw [if_pos (by omega), if_pos hlim]
        · rw [if_neg (by omega), if_neg hlim]

theorem readField_overflow (limit : Nat) (s : List Nat)
    (h : limit ≤ (s.takeWhile (fun c => c != 9)).length) :
    readField limit s [] = FieldRead.overflow := by
  rw [readField_spec limit s [] (Nat.zero_le _), if_pos (by simpa using h)]

theorem readField_nul (limit : Nat) (s : List Nat)
    (h : (s.takeWhile (fun c => c != 9)).length < limit)
    (hd : s.dropWhile (fun c => c != 9) = []) :
    readField limit s [] = FieldRead.nul (s.takeWhile (fun c => c != 9)) := by
  rw [readField_spec limit s [] (Nat.zero_le _), if_neg (by simp; omega), hd]
  simp

theorem readField_tab (limit : Nat) (s : List Nat) (x : Nat) (rest : List Nat)
    (h : (s.takeWhile (fun c => c != 9)).length < limit)
    (hd : s.dropWhile (fun c => c != 9) = x :: rest) :
    readField limit s [] = FieldRead.tab (s.takeWhile (fun c => c != 9)) rest := by
  rw [readField_spec limit s [] (Nat.zero_le _), if_neg (by simp; omega), hd]
  simp

theorem nthField_zero (s : List Nat) : nthField s 0 = some (s.takeWhile (fun c => c != 9)) := rfl

theorem nthField_succ_nil (s : List Nat) (k : Nat) (h : s.dropWhile (fun c => c != 9) = []) :
    nthField s (k + 1) = none := by
  show (match s.dropWhile (fun c => c != 9) with
    | [] => none
    | _ :: rest => nthField rest k) = none
  rw [h]

theorem nthField_succ_cons (s : List Nat) (k x : Nat) (rest : List Nat)
    (h : s.dropWhile (fun c => c != 9) = x :: rest) :
    nthField s (k + 1) = nthField rest k := by
  show (match s.dropWhile (fun c => c != 9) with
    | [] => none
    | _ :: rest => nthField rest k) = nthField rest k
  rw [h]

theorem explodegophermapline_cons (tmpstring : List Nat) (itemtype : Nat) (l1 : List Nat) :
    explodegophermapline tmpstring (itemtype :: l1) =
      match readField 1023 l1 [] with
      | FieldRead.overflow => none
      | FieldRead.nul itemdesc => some ⟨itemtype, itemdesc, [], [], 0⟩
      | FieldRead.tab itemdesc l2 =>
        match readField 1023 l2 [] with
        | FieldRead.overflow => none
        | FieldRead.nul itemselector => some ⟨itemtype, itemdesc, itemselector, [], 0⟩
        | FieldRead.tab itemselector l3 =>
          match readField 63 l3 [] with
          | FieldRead.overflow => none
          | FieldRead.nul itemserver => some ⟨itemtype, itemdesc, itemselector, itemserver, 0⟩
          | FieldRead.tab itemserver l4 =>
            match readField 8 l4 [] with
            | FieldRead.overflow => none
            | FieldRead.nul digits =>
              some ⟨itemtype, itemdesc, itemselector, itemserver,
                portOfString (if digits = [] then tmpstring else digits)⟩
            | FieldRead.tab digits _ =>
              some ⟨itemtype, itemdesc, itemselector, itemserver,
                portOfString (if digits = [] then tmpstring else digits)⟩ := rfl

/-! ## Lemmas: reading lines -/

theorem sockreadlineLoop_nil (n : Nat) (buf : List Nat) (got : Bool) :
    sockreadlineLoop n [] buf got = (if got then some buf else none, []) := rfl

theorem sockreadlineLoop_cons (n ch : Nat) (rest buf : List Nat) (got : Bool) :
    sockreadlineLoop n (ch :: rest) buf got =
      if ch = 13 then sockreadlineLoop n rest buf true
      else if ch = 10 then (some buf, rest)
      else if buf.length + 1 < n then sockreadlineLoop n rest (buf ++ [ch]) true
      else sockreadlineLoop n rest buf true := rfl

/-- What the reading loop has stored when it has gone through the bytes `l` of a line:
the bytes other than CR, as long as the buffer has room. -/
theorem stored_step (n c : Nat) (buf l : List Nat) (hc : c ≠ 13) :
    (if buf.length + 1 < n then
        (buf ++ [c]) ++ (l.filter (fun c => c != 13)).take (n - 1 - (buf ++ [c]).length)
      else buf ++ (l.filter (fun c => c != 13)).take (n - 1 - buf.length))
      = buf ++ ((c :: l).filter (fun c => c != 13)).take (n - 1 - buf.length) := by
  have hf : (c :: l).filter (fun c => c != 13) = c :: l.filter (fun c => c != 13) := by
    simp [List.filter_cons, hc]
  rw [hf]
  by_cases h : buf.length + 1 < n
  · rw [if_pos h]
    have e : n - 1 - buf.length = (n - 1 - (buf ++ [c]).length) + 1 := by
      simp only [List.length_append, List.length_cons, List.length_nil]; omega
    rw [e, List.take_succ_cons]
    simp
  · rw [if_neg h]
    have e : n - 1 - buf.length = 0 := by omega
    rw [e]
    simp

theorem sockreadlineLoop_line (n : Nat) (l rest : List Nat) : ∀ (buf : List Nat) (got : Bool),
    (∀ c ∈ l, c ≠ 10) →
    sockreadlineLoop n (l ++ 10 :: rest) buf got =
      (some (buf ++ (l.filter (fun c => c != 13)).take (n - 1 - buf.length)), rest) := by
  induction l with
  | nil =>
    intro buf got _
    rw [List.nil_append, sockreadlineLoop_cons, if_neg (by decide), if_pos rfl]
    simp
  | cons c l ih =>
    intro buf got hl
    have hc : c ≠ 10 := hl c (by simp)
    have hl' : ∀ x ∈ l, x ≠ 10 := fun x hx => hl x (by simp [hx])
    rw [List.cons_append, sockreadlineLoop_cons]
    by_cases h13 : c = 13
    · subst h13
      rw [if_pos rfl, ih buf true hl']
      simp [List.filter_cons]
    · rw [if_neg h13, if_neg hc, ← stored_step n c buf l h13]
      by_cases h : buf.length + 1 < n
      · rw [if_pos h, if_pos h, ih _ true hl']
      · rw [if_neg h, if_neg h, ih _ true hl']

theorem sockreadlineLoop_last (n : Nat) (l : List Nat) : ∀ (buf : List Nat) (got : Bool),
    (∀ c ∈ l, c ≠ 10) →
    sockreadlineLoop n l buf got =
      (if got = true ∨ l ≠ [] then
          some (buf ++ (l.filter (fun c => c != 13)).take (n - 1 - buf.length))
        else none, []) := by
  induction l with
  | nil =>
    intro buf got _
    rw [sockreadlineLoop_nil]
    cases got <;> simp
  | cons c l ih =>
    intro buf got hl
    have hc : c ≠ 10 := hl c (by simp)
    have hl' : ∀ x ∈ l, x ≠ 10 := fun x hx => hl x (by simp [hx])
    rw [sockreadlineLoop_cons, if_pos (Or.inr (by simp))]
    by_cases h13 : c = 13
    · subst h13
      rw [if_pos rfl, ih buf true hl', if_pos (Or.inl rfl)]
      simp [List.filter_cons]
    · rw [if_neg h13, if_neg hc, ← stored_step n c buf l h13]
      by_cases h : buf.length + 1 < n
      · rw [if_pos h, if_pos h, ih _ true hl', if_pos (Or.inl rfl)]
      · rw [if_neg h, if_neg h, ih _ true hl', if_pos (Or.inl rfl)]

theorem sockreadline_line (n : Nat) (l rest : List Nat) (hl : ∀ c ∈ l, c ≠ 10) :
    sockreadline n (l ++ 10 :: rest) = (some ((l.filter (fun c => c != 13)).take (n - 1)), rest) := by
  unfold sockreadline
  rw [sockreadlineLoop_line n l rest [] false hl]
  simp

theorem sockreadline_last (n : Nat) (l : List Nat) (hl : ∀ c ∈ l, c ≠ 10) (hne : l ≠ []) :
    sockreadline n l = (some ((l.filter (fun c => c != 13)).take (n - 1)), []) := by
  unfold sockreadline
  rw [sockreadlineLoop_last n l [] false hl, if_pos (Or.inr hne)]
  simp

theorem sockreadline_eof (n : Nat) : sockreadline n [] = (none, []) := rfl

theorem fileLinesAux_nil (cur : List Nat) :
    fileLinesAux [] cur = if cur = [] then [] else [cur] := rfl

theorem fileLinesAux_cons (c : Nat) (rest cur : List Nat) :
    fileLinesAux (c :: rest) cur =
      if c = 10 then cur :: fileLinesAux rest [] else fileLinesAux rest (cur ++ [c]) := rfl

theorem fileLinesAux_line (l rest : List Nat) : ∀ cur : List Nat, (∀ c ∈ l, c ≠ 10) →
    fileLinesAux (l ++ 10 :: rest) cur = (cur ++ l) :: fileLinesAux rest [] := by
  induction l with
  | nil => intro cur _; rw [List.nil_append, fileLinesAux_cons, if_pos rfl]; simp
  | cons c l ih =>
    intro cur hl
    rw [List.cons_append, fileLinesAux_cons, if_neg (hl c (by simp)),
      ih _ (fun x hx => hl x (by simp [hx]))]
    simp

theorem fileLinesAux_last (l : List Nat) : ∀ cur : List Nat, (∀ c ∈ l, c ≠ 10) →
    fileLinesAux l cur = if cur ++ l = [] then [] else [cur ++ l] := by
  induction l with
  | nil => intro cur _; rw [fileLinesAux_nil]; simp
  | cons c l ih =>
    intro cur hl
    rw [fileLinesAux_cons, if_neg (hl c (by simp)), ih _ (fun x hx => hl x (by simp [hx]))]
    simp

theorem sendtxtLoop_zero (n : Nat) (stream : List Nat) : sendtxtLoop n 0 stream = [] := rfl

theorem sendtxtLoop_succ (n fuel : Nat) (stream : List Nat) :
    sendtxtLoop n (fuel + 1) stream =
      match sockreadline n stream with
      | (none, _) => []
      | (some buf, rest) =>
        (if cstr buf = [46] then [46, 32] else cstr buf) :: sendtxtLoop n fuel rest := rfl

theorem sendtxtLoop_nil (n fuel : Nat) : sendtxtLoop n fuel [] = [] := by
  cases fuel with
  | zero => rfl
  | succ f => rw [sendtxtLoop_succ, sockreadline_eof]

/-- With more passes than the file has bytes, the loop of `sendtxtfiletosock` sends one
line per line of the file, in order. -/
theorem sendtxtLoop_lines (n : Nat) : ∀ (fuel : Nat) (stream : List Nat), stream.length < fuel →
    sendtxtLoop n fuel stream = (fileLines stream).map (fun l => escapeDot (keptOfLine n l)) := by
  intro fuel
  induction fuel with
  | zero => intro stream h; omega
  | succ fuel ih =>
    intro stream hlen
    rcases split_first (fun c => c = 10) stream with hno | ⟨l, x, rest, rfl, hx, hl⟩
    · by_cases hne : stream = []
      · subst hne
        rw [sendtxtLoop_nil]; rfl
      · rw [sendtxtLoop_succ, sockreadline_last n stream hno hne]
        simp only
        rw [sendtxtLoop_nil]
        unfold fileLines
        rw [fileLinesAux_last stream [] hno]
        simp [hne, escapeDot, keptOfLine]
    · have hx10 : x = 10 := hx
      subst hx10
      rw [sendtxtLoop_succ, sockreadline_line n l rest hl]
      simp only
      rw [ih rest (by simp at hlen; omega)]
      unfold fileLines
      rw [fileLinesAux_line l rest [] hl]
      simp [escapeDot, keptOfLine]

/-! ## Lemmas: the lines of a menu -/

theorem cstr_no_nul (buf : List Nat) : 0 ∉ cstr buf := by
  unfold cstr
  intro h
  have := List.mem_takeWhile_imp h
  simp at this

theorem cstr_of_no_nul (s : List Nat) (h : 0 ∉ s) : cstr s = s := by
  unfold cstr
  apply List.takeWhile_eq_self_iff.mpr
  intro c hc
  have : c ≠ 0 := fun e => h (e ▸ hc)
  simp [this]

theorem cstr_cons (c : Nat) (rest : List Nat) :
    cstr (c :: rest) = if c = 0 then [] else c :: cstr rest := by
  unfold cstr
  by_cases h : c = 0
  · simp [h]
  · simp [h, List.takeWhile_cons]

/-- A menu line printed into a buffer of at least three bytes never reads as the
terminator `.`, provided the description is a C string. -/
theorem menu_line_ne_dot (size itemtype : Nat) (desc selector server : List Nat) (port : Int)
    (hsize : 3 ≤ size) (hdesc : 0 ∉ desc) :
    cstr (cTruncate size (menuLineText itemtype desc selector server port)) ≠ [46] := by
  unfold cTruncate menuLineText
  obtain ⟨m, hm⟩ : ∃ m, size - 1 = m + 2 := ⟨size - 3, by omega⟩
  rw [hm, List.take_succ_cons, cstr_cons]
  by_cases ht : itemtype = 0
  · rw [if_pos ht]; simp
  · rw [if_neg ht]
    rcases desc with _ | ⟨d, desc⟩
    · simp only [List.nil_append, List.cons_append, List.take_succ_cons]
      rw [cstr_cons, if_neg (by decide)]
      simp
    · have hd : d ≠ 0 := fun e => hdesc (by simp [e])
      simp only [List.cons_append, List.take_succ_cons]
      rw [cstr_cons, if_neg hd]
      simp

/-- A menu line printed into a large enough buffer contains a TAB, provided the item type
is not NUL and the description is a C string. -/
theorem menu_line_has_tab (size itemtype : Nat) (desc selector server : List Nat) (port : Int)
    (ht : itemtype ≠ 0) (hdesc : 0 ∉ desc) (hsize : desc.length + 3 ≤ size) :
    9 ∈ cstr (cTruncate size (menuLineText itemtype desc selector server port)) := by
  unfold cTruncate menuLineText cstr
  have e : (itemtype :: (desc ++ [9] ++ selector ++ [9] ++ server ++ [9] ++ fmtInt port))
      = (itemtype :: desc) ++ 9 :: (selector ++ [9] ++ server ++ [9] ++ fmtInt port) := by simp
  rw [e, List.take_append_eq_append_take,
    List.take_of_length_le (by simp; omega)]
  have hk : ∃ k, size - 1 - (itemtype :: desc).length = k + 1 :=
    ⟨size - 1 - (itemtype :: desc).length - 1, by simp; omega⟩
  obtain ⟨k, hk⟩ := hk
  rw [hk, List.take_succ_cons, List.takeWhile_append_of_pos]
  · simp [List.takeWhile_cons]
  · intro c hc
    rcases List.mem_cons.mp hc with rfl | hc
    · simp [ht]
    · have : c ≠ 0 := fun e => hdesc (e ▸ hc)
      simp [this]

theorem readField_field (limit : Nat) (s : List Nat) :
    (∀ f, readField limit s [] = FieldRead.nul f →
      f = s.takeWhile (fun c => c != 9) ∧ f.length < limit) ∧
    (∀ f r, readField limit s [] = FieldRead.tab f r →
      f = s.takeWhile (fun c => c != 9) ∧ f.length < limit) := by
  have hspec := readField_spec limit s [] (Nat.zero_le _)
  constructor
  · intro f h
    rw [h] at hspec
    by_cases hl : limit ≤ ([] : List Nat).length + (s.takeWhile (fun c => c != 9)).length
    · rw [if_pos hl] at hspec; cases hspec
    · rw [if_neg hl] at hspec
      cases hd : s.dropWhile (fun c => c != 9) with
      | nil =>
        rw [hd] at hspec
        simp only [List.nil_append, FieldRead.nul.injEq] at hspec
        subst hspec
        simp at hl
        exact ⟨rfl, hl⟩
      | cons x r => rw [hd] at hspec; cases hspec
  · intro f r h
    rw [h] at hspec
    by_cases hl : limit ≤ ([] : List Nat).length + (s.takeWhile (fun c => c != 9)).length
    · rw [if_pos hl] at hspec; cases hspec
    · rw [if_neg hl] at hspec
      cases hd : s.dropWhile (fun c => c != 9) with
      | nil => rw [hd] at hspec; cases hspec
      | cons x r' =>
        rw [hd] at hspec
        simp only [List.nil_append, FieldRead.tab.injEq] at hspec
        obtain ⟨h1, -⟩ := hspec
        subst h1
        simp at hl
        exact ⟨rfl, hl⟩

/-- The description and the item type returned by `explodegophermapline`. -/
theorem explodegophermapline_desc (tmpstring line : List Nat) (item : GophermapItem)
    (h : explodegophermapline tmpstring line = some item) :
    item.itemdesc = (line.drop 1).takeWhile (fun c => c != 9) ∧ item.itemdesc.length ≤ 1022 ∧
      item.itemtype = (line.head?).getD 105 := by
  rcases line with _ | ⟨t, l1⟩
  · have : explodegophermapline tmpstring [] = some ⟨105, [], [], [], 0⟩ := rfl
    rw [this] at h
    cases h
    exact ⟨rfl, by simp, rfl⟩
  · rw [explodegophermapline_cons] at h
    obtain ⟨hn, ht⟩ := readField_field 1023 l1
    cases h1 : readField 1023 l1 [] with
    | overflow => rw [h1] at h; cases h
    | nul d =>
      rw [h1] at h
      cases h
      obtain ⟨e, hl⟩ := hn d h1
      exact ⟨e, by simp only; omega, rfl⟩
    | tab d l2 =>
      rw [h1] at h
      obtain ⟨e, hl⟩ := ht d l2 h1
      simp only at h
      have key : item.itemdesc = d ∧ item.itemtype = t := by
        cases h2 : readField 1023 l2 [] with
        | overflow => rw [h2] at h; cases h
        | nul s => rw [h2] at h; cases h; exact ⟨rfl, rfl⟩
        | tab s l3 =>
          rw [h2] at h
          simp only at h
          cases h3 : readField 63 l3 [] with
          | overflow => rw [h3] at h; cases h
          | nul sv => rw [h3] at h; cases h; exact ⟨rfl, rfl⟩
          | tab sv l4 =>
            rw [h3] at h
            simp only at h
            cases h4 : readField 8 l4 [] with
            | overflow => rw [h4] at h; cases h
            | nul p => rw [h4] at h; cases h; exact ⟨rfl, rfl⟩
            | tab p l5 => rw [h4] at h; cases h; exact ⟨rfl, rfl⟩
      rw [key.1, key.2]
      exact ⟨e, by omega, rfl⟩

theorem explodegophermapline_desc_no_nul (tmpstring line : List Nat) (item : GophermapItem)
    (h : explodegophermapline tmpstring line = some item) (h0 : 0 ∉ line) :
    0 ∉ item.itemdesc := by
  rw [(explodegophermapline_desc tmpstring line item h).1]
  intro hm
  exact h0 (List.mem_of_mem_drop ((List.takeWhile_sublist _).subset hm))

theorem explodegophermapline_type_ne_zero (tmpstring line : List Nat) (item : GophermapItem)
    (h : explodegophermapline tmpstring line = some item) (h0 : 0 ∉ line) :
    item.itemtype ≠ 0 := by
  rw [(explodegophermapline_desc tmpstring line item h).2.2]
  rcases line with _ | ⟨t, l⟩
  · decide
  · intro e
    simp only [List.head?_cons, Option.getD_some] at e
    exact h0 (by simp [e])

theorem cgiGophermapLoop_zero (config : MotsognirConfig) (urldir : List Nat)
    (garbage : Nat → List Nat) (stream : List Nat) :
    cgiGophermapLoop config urldir garbage 0 stream = [] := rfl

theorem cgiGophermapLoop_succ (config : MotsognirConfig) (urldir : List Nat)
    (garbage : Nat → List Nat) (fuel : Nat) (stream : List Nat) :
    cgiGophermapLoop config urldir garbage (fuel + 1) stream =
      match sockreadline 4096 stream with
      | (none, _) => []
      | (some buf, rest) =>
        if buf.head? = some 35 then cgiGophermapLoop config urldir garbage fuel rest
        else
          match explodegophermapline (garbage fuel) (cstr buf) with
          | none => []
          | some item =>
            cstr (buildgophermapline 4096 item.itemtype item.itemdesc item.itemselector
              item.itemserver item.itemport urldir config)
              :: cgiGophermapLoop config urldir garbage fuel rest := rfl

theorem gophermapLoop_zero (config : MotsognirConfig) (world : World)
    (localfile directorytolist stream : List Nat) :
    gophermapLoop config world localfile directorytolist 0 stream = [] := rfl

theorem gophermapLoop_succ (config : MotsognirConfig) (world : World)
    (localfile directorytolist : List Nat) (fuel : Nat) (stream : List Nat) :
    gophermapLoop config world localfile directorytolist (fuel + 1) stream =
      match sockreadline 1023 stream with
      | (none, _) => []
      | (some buf, rest) =>
        gophermapLine config world localfile directorytolist fuel (cstr buf)
          ++ gophermapLoop config world localfile directorytolist fuel rest := rfl

theorem built_line_ok (tmpstring line : List Nat) (item : GophermapItem)
    (curdir : List Nat) (config : MotsognirConfig)
    (h : explodegophermapline tmpstring line = some item) (h0 : 0 ∉ line) :
    cstr (buildgophermapline 4096 item.itemtype item.itemdesc item.itemselector
      item.itemserver item.itemport curdir config) ≠ [46] := by
  unfold buildgophermapline
  exact menu_line_ne_dot 4096 _ _ _ _ _ (by omega)
    (explodegophermapline_desc_no_nul tmpstring line item h h0)

theorem cgiGophermapLoop_ok (config : MotsognirConfig) (urldir : List Nat)
    (garbage : Nat → List Nat) : ∀ (fuel : Nat) (stream : List Nat),
    ∀ l ∈ cgiGophermapLoop config urldir garbage fuel stream, l ≠ [46] := by
  intro fuel
  induction fuel with
  | zero => intro stream l hl; rw [cgiGophermapLoop_zero] at hl; cases hl
  | succ fuel ih =>
    intro stream l hl
    rw [cgiGophermapLoop_succ] at hl
    rcases hr : sockreadline 4096 stream with ⟨_ | buf, rest⟩
    · rw [hr] at hl; cases hl
    · rw [hr] at hl
      simp only at hl
      by_cases hc : buf.head? = some 35
      · rw [if_pos hc] at hl
        exact ih rest l hl
      · rw [if_neg hc] at hl
        cases he : explodegophermapline (garbage fuel) (cstr buf) with
        | none => rw [he] at hl; cases hl
        | some item =>
          rw [he] at hl
          simp only at hl
          rcases List.mem_cons.mp hl with rfl | hl
          · exact built_line_ok _ _ item urldir config he (cstr_no_nul buf)
          · exact ih rest l hl

theorem execCgiGophermap_ok (config : MotsognirConfig) (world : World)
    (localfile scriptname : List Nat) (launcher : Option (List Nat)) (garbage : Nat → List Nat) :
    ∀ l ∈ execCgiGophermap config world localfile scriptname launcher garbage, l ≠ [46] := by
  intro l hl
  unfold execCgiGophermap at hl
  simp only at hl
  split at hl
  · cases hl
  · exact cgiGophermapLoop_ok _ _ _ _ _ l hl

theorem dirEntryLine_ok (config : MotsognirConfig) (directorytolist : List Nat) (dirsonly : Int)
    (e : DirEntry) (h0 : 0 ∉ e.d_name) (l : List Nat)
    (h : dirEntryLine config directorytolist dirsonly e = some l) : l ≠ [46] := by
  unfold dirEntryLine at h
  split_ifs at h
  all_goals
    dsimp only at h
    simp only [Option.some.injEq] at h
    rw [← h]
    exact menu_line_ne_dot 2048 _ _ _ _ _ (by omega) h0

theorem outputdircontent_ok (config : MotsognirConfig) (world : World)
    (localfile directorytolist : List Nat) (dirsonly : Int) (hw : WorldNamesOk world) :
    ∀ l ∈ outputdircontent config world localfile directorytolist dirsonly, l ≠ [46] := by
  intro l hl
  unfold outputdircontent at hl
  split_ifs at hl with ho
  · simp only [List.mem_singleton] at hl
    subst hl; decide
  · cases hs : world.scandir localfile with
    | none => rw [hs] at hl; cases hl
    | some entries =>
      rw [hs] at hl
      simp only at hl
      split_ifs at hl with hempty
      · simp only [List.mem_singleton] at hl
        subst hl; decide
      · obtain ⟨e, he, hel⟩ := List.mem_filterMap.mp hl
        exact dirEntryLine_ok config directorytolist dirsonly e (hw localfile entries hs e he) l hel

theorem gophermapLine_ok (config : MotsognirConfig) (world : World)
    (localfile directorytolist : List Nat) (k : Nat) (linebuff : List Nat)
    (hw : WorldNamesOk world) (h0 : 0 ∉ linebuff) :
    ∀ l ∈ gophermapLine config world localfile directorytolist k linebuff, l ≠ [46] := by
  intro l hl
  unfold gophermapLine at hl
  by_cases c1 : linebuff.head? = some 35
  · rw [if_pos c1] at hl; cases hl
  rw [if_neg c1] at hl
  by_cases c2 : strcasecmp linebuff filesDirective = 0
  · rw [if_pos c2] at hl
    exact outputdircontent_ok _ _ _ _ _ hw l hl
  rw [if_neg c2] at hl
  by_cases c3 : strcasecmp linebuff dirsDirective = 0
  · rw [if_pos c3] at hl
    exact outputdircontent_ok _ _ _ _ _ hw l hl
  rw [if_neg c3] at hl
  cases he : explodegophermapline (world.tmpstring 0 k) linebuff with
  | none =>
    rw [he] at hl
    simp only [List.mem_singleton] at hl
    subst hl; decide
  | some item =>
    rw [he] at hl
    simp only at hl
    by_cases c4 : item.itemtype = 61
    · rw [if_pos c4] at hl
      by_cases c5 : config.subgophermaps ≠ 0
      · rw [if_pos c5] at hl
        cases hr : world.realpath item.itemdesc with
        | none => rw [hr] at hl; cases hl
        | some real =>
          rw [hr] at hl
          simp only at hl
          by_cases c6 : config.phpsupport ≠ 0 ∧ getfileextension item.itemdesc = [112, 104, 112]
          · rw [if_pos c6] at hl
            exact execCgiGophermap_ok _ _ _ _ _ _ l hl
          · rw [if_neg c6] at hl
            by_cases c7 : config.cgisupport ≠ 0
            · rw [if_pos c7] at hl
              exact execCgiGophermap_ok _ _ _ _ _ _ l hl
            · rw [if_neg c7] at hl; cases hl
      · rw [if_neg c5] at hl; cases hl
    · rw [if_neg c4] at hl
      simp only [List.mem_singleton] at hl
      subst hl
      exact built_line_ok _ _ item directorytolist config he h0

theorem gophermapLoop_ok (config : MotsognirConfig) (world : World)
    (localfile directorytolist : List Nat) (hw : WorldNamesOk world) :
    ∀ (fuel : Nat) (stream : List Nat),
    ∀ l ∈ gophermapLoop config world localfile directorytolist fuel stream, l ≠ [46] := by
  intro fuel
  induction fuel with
  | zero => intro stream l hl; rw [gophermapLoop_zero] at hl; cases hl
  | succ fuel ih =>
    intro stream l hl
    rw [gophermapLoop_succ] at hl
    rcases hr : sockreadline 1023 stream with ⟨_ | buf, rest⟩
    · rw [hr] at hl; cases hl
    · rw [hr] at hl
      simp only at hl
      rcases List.mem_append.mp hl with h1 | h1
      · exact gophermapLine_ok _ _ _ _ _ _ hw (cstr_no_nul buf) l h1
      · exact ih rest l h1

theorem outputgophermap_ok (config : MotsognirConfig) (world : World)
    (localfile gophermapfile directorytolist : List Nat) (hw : WorldNamesOk world) :
    ∀ l ∈ outputgophermap config world localfile gophermapfile directorytolist, l ≠ [46] := by
  intro l hl
  unfold outputgophermap at hl
  split_ifs at hl
  · exact execCgiGophermap_ok _ _ _ _ _ _ l hl
  · exact execCgiGophermap_ok _ _ _ _ _ _ l hl
  · cases hf : world.fileContent gophermapfile with
    | none => rw [hf] at hl; cases hl
    | some bytes =>
      rw [hf] at hl
      exact gophermapLoop_ok _ _ _ _ hw _ _ l hl

theorem outputdirBody_ok (config : MotsognirConfig) (world : World)
    (localfile directorytolist : List Nat) (hw : WorldNamesOk world) :
    ∀ l ∈ outputdirBody config world localfile directorytolist, l ≠ [46] := by
  intro l hl
  unfold outputdirBody at hl
  split_ifs at hl
  · exact outputgophermap_ok _ _ _ _ _ hw l hl
  · exact execCgiGophermap_ok _ _ _ _ _ _ l hl
  · exact execCgiGophermap_ok _ _ _ _ _ _ l hl
  · cases hd : config.defaultgophermap with
    | none => rw [hd] at hl; exact outputdircontent_ok _ _ _ _ _ hw l hl
    | some d => rw [hd] at hl; exact outputgophermap_ok _ _ _ _ _ hw l hl

theorem sendtxtLoop_ok (n : Nat) : ∀ (fuel : Nat) (stream : List Nat),
    ∀ l ∈ sendtxtLoop n fuel stream, l ≠ [46] := by
  intro fuel
  induction fuel with
  | zero => intro stream l hl; rw [sendtxtLoop_zero] at hl; cases hl
  | succ fuel ih =>
    intro stream l hl
    rw [sendtxtLoop_succ] at hl
    rcases hr : sockreadline n stream with ⟨_ | buf, rest⟩
    · rw [hr] at hl; cases hl
    · rw [hr] at hl
      simp only at hl
      rcases List.mem_cons.mp hl with rfl | h1
      · by_cases hd : cstr buf = [46]
        · rw [if_pos hd]; decide
        · rw [if_neg hd]; exact hd
      · exact ih rest l h1

/-! ## Lemmas: printing and reading a port number -/

theorem decimalAux_zero (n : Nat) (acc : List Nat) : decimalAux 0 n acc = acc := rfl

theorem decimalAux_succ (fuel n : Nat) (acc : List Nat) :
    decimalAux (fuel + 1) n acc =
      if n < 10 then (48 + n) :: acc else decimalAux fuel (n / 10) ((48 + n % 10) :: acc) := rfl

theorem decimalAux_append : ∀ (fuel n : Nat) (acc : List Nat),
    decimalAux fuel n acc = decimalAux fuel n [] ++ acc := by
  intro fuel
  induction fuel with
  | zero => intro n acc; rfl
  | succ fuel ih =>
    intro n acc
    rw [decimalAux_succ, decimalAux_succ]
    by_cases h : n < 10
    · rw [if_pos h, if_pos h]; rfl
    · rw [if_neg h, if_neg h, ih (n / 10) ((48 + n % 10) :: acc), ih (n / 10) [48 + n % 10]]
      simp

theorem decimalAux_digits : ∀ (fuel n : Nat), ∀ c ∈ decimalAux fuel n [], 48 ≤ c ∧ c ≤ 57 := by
  intro fuel
  induction fuel with
  | zero => intro n c hc; cases hc
  | succ fuel ih =>
    intro n c hc
    rw [decimalAux_succ] at hc
    by_cases h : n < 10
    · rw [if_pos h] at hc
      simp only [List.mem_singleton] at hc
      omega
    · rw [if_neg h, decimalAux_append] at hc
      rcases List.mem_append.mp hc with h1 | h1
      · exact ih _ c h1
      · simp only [List.mem_singleton] at h1
        omega

theorem decimalAux_ne_nil (fuel n : Nat) : decimalAux (fuel + 1) n [] ≠ [] := by
  rw [decimalAux_succ]
  by_cases h : n < 10
  · rw [if_pos h]; simp
  · rw [if_neg h, decimalAux_append]; simp

theorem decimalAux_length : ∀ (fuel n k : Nat), 1 ≤ k → n < 10 ^ k →
    (decimalAux fuel n []).length ≤ k := by
  intro fuel
  induction fuel with
  | zero => intro n k _ _; simp [decimalAux_zero]
  | succ fuel ih =>
    intro n k hk hn
    rw [decimalAux_succ]
    by_cases h : n < 10
    · rw [if_pos h]; simpa using hk
    · rw [if_neg h, decimalAux_append]
      obtain ⟨j, rfl⟩ : ∃ j, k = j + 1 := ⟨k - 1, by omega⟩
      have hj : 1 ≤ j := by
        rcases j with _ | j
        · simp at hn; omega
        · omega
      have h2 : n / 10 < 10 ^ j := by
        rw [pow_succ] at hn
        exact Nat.div_lt_of_lt_mul (by rw [Nat.mul_comm]; exact hn)
      have := ih (n / 10) j hj h2
      simp only [List.length_append, List.length_singleton]
      omega

theorem atolDigits_nil (acc : Nat) : atolDigits [] acc = acc := rfl

theorem atolDigits_cons (c : Nat) (rest : List Nat) (acc : Nat) :
    atolDigits (c :: rest) acc =
      if 48 ≤ c ∧ c ≤ 57 then atolDigits rest (acc * 10 + (c - 48)) else acc := rfl

theorem atolDigits_snoc (ds : List Nat) (c : Nat) (hc : 48 ≤ c ∧ c ≤ 57) :
    (∀ d ∈ ds, 48 ≤ d ∧ d ≤ 57) → ∀ acc, atolDigits (ds ++ [c]) acc
      = atolDigits ds acc * 10 + (c - 48) := by
  induction ds with
  | nil =>
    intro _ acc
    rw [List.nil_append, atolDigits_cons, if_pos hc, atolDigits_nil, atolDigits_nil]
  | cons d ds ih =>
    intro hds acc
    have hd := hds d (List.mem_cons_self _ _)
    rw [List.cons_append, atolDigits_cons, if_pos hd, atolDigits_cons, if_pos hd]
    exact ih (fun x hx => hds x (List.mem_cons_of_mem _ hx)) _

theorem atolDigits_decimalAux : ∀ (fuel n : Nat), n < 10 ^ fuel →
    atolDigits (decimalAux fuel n []) 0 = n := by
  intro fuel
  induction fuel with
  | zero => intro n hn; simp at hn; subst hn; rfl
  | succ fuel ih =>
    intro n hn
    rw [decimalAux_succ]
    by_cases h : n < 10
    · rw [if_pos h, atolDigits_cons, if_pos (by omega), atolDigits_nil]
      omega
    · rw [if_neg h, decimalAux_append,
        atolDigits_snoc _ _ (by omega) (decimalAux_digits fuel (n / 10))]
      have h2 : n / 10 < 10 ^ fuel := by
        rw [pow_succ] at hn
        exact Nat.div_lt_of_lt_mul (by rw [Nat.mul_comm]; exact hn)
      rw [ih (n / 10) h2]
      omega

theorem atol_of_digit_head (c : Nat) (rest : List Nat) (hc : 48 ≤ c ∧ c ≤ 57) :
    atol (c :: rest) = (atolDigits (c :: rest) 0 : Int) := by
  have hsp : isspace c = false := by
    unfold isspace
    simp only [decide_eq_false_iff_not]
    omega
  unfold atol
  rw [List.dropWhile_cons, hsp]
  simp only [Bool.false_eq_true, if_false]
  split
  · rename_i heq
    simp only [List.cons.injEq] at heq
    omega
  · rename_i heq
    simp only [List.cons.injEq] at heq
    omega
  · rfl

/-- Reading back a printed port number: `atol` of what `%ld` prints for a number in
1..65535 is that number, and the text has one to five bytes, all digits. -/
theorem portOfString_fmtInt (p : Int) (h1 : 1 ≤ p) (h2 : p ≤ 65535) :
    portOfString (fmtInt p) = p ∧ fmtInt p ≠ [] ∧ (fmtInt p).length ≤ 5 ∧
      ∀ c ∈ fmtInt p, 48 ≤ c ∧ c ≤ 57 := by
  obtain ⟨n, rfl⟩ : ∃ n : Nat, p = (n : Int) := ⟨p.toNat, by omega⟩
  have hf : fmtInt (n : Int) = decimalAux (n + 1) n [] := by
    unfold fmtInt
    rw [if_neg (by omega)]
    simp
  have hdig := decimalAux_digits (n + 1) n
  have hne := decimalAux_ne_nil n n
  have hlen := decimalAux_length (n + 1) n 5 (by omega) (by norm_num; omega)
  have hval : atolDigits (decimalAux (n + 1) n []) 0 = n :=
    atolDigits_decimalAux (n + 1) n
      (lt_of_lt_of_le (Nat.lt_pow_self (by omega) n) (Nat.pow_le_pow_right (by omega) (by omega)))
  rw [hf]
  refine ⟨?_, hne, hlen, hdig⟩
  have hat : atol (decimalAux (n + 1) n []) = (n : Int) := by
    rcases hl : decimalAux (n + 1) n [] with _ | ⟨c, rest⟩
    · exact absurd hl hne
    · rw [atol_of_digit_head c rest (by rw [hl] at hdig; exact hdig c (List.mem_cons_self _ _)),
        ← hl, hval]
  unfold portOfString
  rw [hat, if_neg (by omega)]

theorem portOfString_range (s : List Nat) :
    portOfString s = 0 ∨ (1 ≤ portOfString s ∧ portOfString s ≤ 65535) := by
  unfold portOfString
  by_cases h : atol s < 1 ∨ atol s > 65535
  · rw [if_pos h]; exact Or.inl rfl
  · rw [if_neg h]; right; omega

/-! ## Lemmas: reading a line made of fields -/

theorem takeWhile_field (f rest : List Nat) (hf : 9 ∉ f) :
    (f ++ 9 :: rest).takeWhile (fun c => c != 9) = f ∧
    (f ++ 9 :: rest).dropWhile (fun c => c != 9) = 9 :: rest := by
  have hp : ∀ c ∈ f, (fun c => c != 9) c = true := by
    intro c hc
    have : c ≠ 9 := fun e => hf (e ▸ hc)
    simp [this]
  constructor
  · rw [List.takeWhile_append_of_pos hp]
    simp [List.takeWhile_cons]
  · rw [List.dropWhile_append_of_pos hp]
    simp [List.dropWhile_cons]

theorem takeWhile_last_field (f : List Nat) (hf : 9 ∉ f) :
    f.takeWhile (fun c => c != 9) = f ∧ f.dropWhile (fun c => c != 9) = [] := by
  have hp : ∀ c ∈ f, (fun c => c != 9) c = true := by
    intro c hc
    have : c ≠ 9 := fun e => hf (e ▸ hc)
    simp [this]
  exact ⟨List.takeWhile_eq_self_iff.mpr hp, List.dropWhile_eq_nil_iff.mpr hp⟩

theorem readField_of_field (limit : Nat) (f rest : List Nat) (hf : 9 ∉ f)
    (hl : f.length < limit) : readField limit (f ++ 9 :: rest) [] = FieldRead.tab f rest := by
  obtain ⟨h1, h2⟩ := takeWhile_field f rest hf
  have := readField_tab limit (f ++ 9 :: rest) 9 rest (by rw [h1]; exact hl) h2
  rw [h1] at this
  exact this

theorem readField_of_last_field (limit : Nat) (f : List Nat) (hf : 9 ∉ f)
    (hl : f.length < limit) : readField limit f [] = FieldRead.nul f := by
  obtain ⟨h1, h2⟩ := takeWhile_last_field f hf
  have := readField_nul limit f (by rw [h1]; exact hl) h2
  rw [h1] at this
  exact this

theorem readField_tab_inv (limit : Nat) (s f r : List Nat)
    (h : readField limit s [] = FieldRead.tab f r) :
    s = f ++ 9 :: r ∧ 9 ∉ f ∧ f.length < limit := by
  have hspec := readField_spec limit s [] (Nat.zero_le _)
  rw [h] at hspec
  by_cases hl : limit ≤ ([] : List Nat).length + (s.takeWhile (fun c => c != 9)).length
  · rw [if_pos hl] at hspec; cases hspec
  · rw [if_neg hl] at hspec
    cases hd : s.dropWhile (fun c => c != 9) with
    | nil => rw [hd] at hspec; cases hspec
    | cons x r2 =>
      rw [hd] at hspec
      simp only [List.nil_append, FieldRead.tab.injEq] at hspec
      obtain ⟨h1, h2⟩ := hspec
      subst h1; subst h2
      have hx : x = 9 := by
        have := List.head_dropWhile_not (fun c => c != 9) s (by rw [hd]; simp)
        simp only [hd, List.head_cons] at this
        simpa using this
      subst hx
      refine ⟨?_, ?_, by simpa using hl⟩
      · rw [← hd, List.takeWhile_append_dropWhile]
      · intro hm
        have := List.mem_takeWhile_imp hm
        simp at this

theorem readField_nul_inv (limit : Nat) (s f : List Nat)
    (h : readField limit s [] = FieldRead.nul f) :
    s = f ∧ 9 ∉ f ∧ f.length < limit := by
  have hspec := readField_spec limit s [] (Nat.zero_le _)
  rw [h] at hspec
  by_cases hl : limit ≤ ([] : List Nat).length + (s.takeWhile (fun c => c != 9)).length
  · rw [if_pos hl] at hspec; cases hspec
  · rw [if_neg hl] at hspec
    cases hd : s.dropWhile (fun c => c != 9) with
    | cons x r2 => rw [hd] at hspec; cases hspec
    | nil =>
      rw [hd] at hspec
      simp only [List.nil_append, FieldRead.nul.injEq] at hspec
      subst hspec
      have hs : s.takeWhile (fun c => c != 9) = s := by
        have := List.takeWhile_append_dropWhile (fun c => c != 9) s
        rw [hd, List.append_nil] at this
        exact this
      refine ⟨hs.symm, ?_, by simpa using hl⟩
      intro hm
      have := List.mem_takeWhile_imp hm
      simp at this

/-- A line made of a type byte and four fields without TAB, within the limits of the
reading loops, is parsed into these fields. -/
theorem explodegophermapline_of_fields (tmpstring : List Nat) (t : Nat)
    (d s sv digits : List Nat) (hd : 9 ∉ d) (hs : 9 ∉ s) (hsv : 9 ∉ sv) (hp : 9 ∉ digits)
    (hdl : d.length ≤ 1022) (hsl : s.length ≤ 1022) (hsvl : sv.length ≤ 62)
    (hpl : digits.length ≤ 7) (hpn : digits ≠ []) :
    explodegophermapline tmpstring (t :: (d ++ 9 :: (s ++ 9 :: (sv ++ 9 :: digits))))
      = some ⟨t, d, s, sv, portOfString digits⟩ := by
  rw [explodegophermapline_cons, readField_of_field 1023 d _ hd (by omega)]
  simp only
  rw [readField_of_field 1023 s _ hs (by omega)]
  simp only
  rw [readField_of_field 63 sv _ hsv (by omega)]
  simp only
  rw [readField_of_last_field 8 digits hp (by omega)]
  simp only
  rw [if_neg hpn]

/-- The fields returned by `explodegophermapline` for a line without NUL. -/
theorem explodegophermapline_fields (tmpstring line : List Nat) (item : GophermapItem)
    (h : explodegophermapline tmpstring line = some item) (h0 : 0 ∉ line) :
    (9 ∉ item.itemdesc ∧ 0 ∉ item.itemdesc ∧ item.itemdesc.length ≤ 1022) ∧
    (9 ∉ item.itemselector ∧ 0 ∉ item.itemselector ∧ item.itemselector.length ≤ 1022) ∧
    (9 ∉ item.itemserver ∧ 0 ∉ item.itemserver ∧ item.itemserver.length ≤ 62) ∧
    (item.itemport = 0 ∨ (1 ≤ item.itemport ∧ item.itemport ≤ 65535)) := by
  have hnil : (9 ∉ ([] : List Nat) ∧ 0 ∉ ([] : List Nat) ∧ ([] : List Nat).length ≤ 1022) :=
    ⟨by simp, by simp, by simp⟩
  have hnil2 : (9 ∉ ([] : List Nat) ∧ 0 ∉ ([] : List Nat) ∧ ([] : List Nat).length ≤ 62) :=
    ⟨by simp, by simp, by simp⟩
  rcases line with _ | ⟨t, l1⟩
  · have : explodegophermapline tmpstring [] = some ⟨105, [], [], [], 0⟩ := rfl
    rw [this] at h
    cases h
    exact ⟨hnil, hnil, hnil2, Or.inl rfl⟩
  · rw [explodegophermapline_cons] at h
    have h01 : 0 ∉ l1 := fun hm => h0 (List.mem_cons_of_mem _ hm)
    cases h1 : readField 1023 l1 [] with
    | overflow => rw [h1] at h; cases h
    | nul d =>
      rw [h1] at h
      cases h
      obtain ⟨e, h9, hl⟩ := readField_nul_inv _ _ _ h1
      subst e
      exact ⟨⟨h9, h01, Nat.le_of_lt_succ hl⟩, hnil, hnil2, Or.inl rfl⟩
    | tab d l2 =>
      rw [h1] at h
      simp only at h
      obtain ⟨e, h9, hl⟩ := readField_tab_inv _ _ _ _ h1
      subst e
      have hd0 : 0 ∉ d := fun hm => h01 (List.mem_append_left _ hm)
      have h02 : 0 ∉ l2 := fun hm => h01 (List.mem_append_right _ (List.mem_cons_of_mem _ hm))
      have hD : 9 ∉ d ∧ 0 ∉ d ∧ d.length ≤ 1022 := ⟨h9, hd0, by omega⟩
      cases h2 : readField 1023 l2 [] with
      | overflow => rw [h2] at h; cases h
      | nul s =>
        rw [h2] at h
        cases h
        obtain ⟨e, h9s, hls⟩ := readField_nul_inv _ _ _ h2
        subst e
        exact ⟨hD, ⟨h9s, h02, Nat.le_of_lt_succ hls⟩, hnil2, Or.inl rfl⟩
      | tab s l3 =>
        rw [h2] at h
        simp only at h
        obtain ⟨e, h9s, hls⟩ := readField_tab_inv _ _ _ _ h2
        subst e
        have hs0 : 0 ∉ s := fun hm => h02 (List.mem_append_left _ hm)
        have h03 : 0 ∉ l3 := fun hm => h02 (List.mem_append_right _ (List.mem_cons_of_mem _ hm))
        have hS : 9 ∉ s ∧ 0 ∉ s ∧ s.length ≤ 1022 := ⟨h9s, hs0, by omega⟩
        cases h3 : readField 63 l3 [] with
        | overflow => rw [h3] at h; cases h
        | nul sv =>
          rw [h3] at h
          cases h
          obtain ⟨e, h9v, hlv⟩ := readField_nul_inv _ _ _ h3
          subst e
          exact ⟨hD, hS, ⟨h9v, h03, Nat.le_of_lt_succ hlv⟩, Or.inl rfl⟩
        | tab sv l4 =>
          rw [h3] at h
          simp only at h
          obtain ⟨e, h9v, hlv⟩ := readField_tab_inv _ _ _ _ h3
          subst e
          have hv0 : 0 ∉ sv := fun hm => h03 (List.mem_append_left _ hm)
          have hV : 9 ∉ sv ∧ 0 ∉ sv ∧ sv.length ≤ 62 := ⟨h9v, hv0, by omega⟩
          cases h4 : readField 8 l4 [] with
          | overflow => rw [h4] at h; cases h
          | nul p => rw [h4] at h; cases h; exact ⟨hD, hS, hV, portOfString_range _⟩
          | tab p l5 => rw [h4] at h; cases h; exact ⟨hD, hS, hV, portOfString_range _⟩

/-! ## Lemmas: the path computed by `computerelativepath` -/

theorem head?_take_succ (l : List Nat) (k : Nat) : (l.take (k + 1)).head? = l.head? := by
  cases l <;> rfl

theorem scanBackSlash_le (r : List Nat) : ∀ i, scanBackSlash r i ≤ i := by
  intro i
  induction i with
  | zero => exact Nat.le_refl _
  | succ i ih =>
    show (if r.getD (i + 1) 0 = 47 then i + 1 else scanBackSlash r i) ≤ i + 1
    split_ifs
    · exact Nat.le_refl _
    · omega

theorem simplifyDotDotLoop_succ (fuel : Nat) (result : List Nat) :
    simplifyDotDotLoop (fuel + 1) result =
      match strstr result [47, 46, 46, 47] with
      | none => result
      | some tempptr =>
        simplifyDotDotLoop fuel
          (result.take (if tempptr = 0 then 0 else scanBackSlash result (tempptr - 1))
            ++ result.drop (tempptr + 3)) := rfl

theorem simplifyDotDotLoop_ok : ∀ (fuel : Nat) (r : List Nat), r.head? = some 47 →
    (simplifyDotDotLoop fuel r).head? = some 47 ∧
    (∀ b ∈ simplifyDotDotLoop fuel r, b ∈ r) ∧
    (simplifyDotDotLoop fuel r).length ≤ r.length := by
  intro fuel
  induction fuel with
  | zero => intro r hr; exact ⟨hr, fun _ h => h, Nat.le_refl _⟩
  | succ fuel ih =>
    intro r hr
    rw [simplifyDotDotLoop_succ]
    cases hs : strstr r [47, 46, 46, 47] with
    | none => exact ⟨hr, fun _ h => h, Nat.le_refl _⟩
    | some t =>
      simp only
      obtain ⟨hle, hpre⟩ := strstr_some r _ t hs
      have hls : (if t = 0 then 0 else scanBackSlash r (t - 1)) ≤ t := by
        split_ifs
        · omega
        · have := scanBackSlash_le r (t - 1); omega
      generalize (if t = 0 then 0 else scanBackSlash r (t - 1)) = ls at hls
      have hdrop : (r.drop (t + 3)).head? = some 47 := by
        obtain ⟨w, hw⟩ := hpre
        have : r.drop (t + 3) = (r.drop t).drop 3 := by
          rw [List.drop_drop]
        rw [this, ← hw]
        rfl
      have hhead : (r.take ls ++ r.drop (t + 3)).head? = some 47 := by
        rcases ls with _ | k
        · simpa using hdrop
        · rcases r with _ | ⟨a, r⟩
          · cases hr
          · simpa using hr
      have hsub : ∀ b ∈ r.take ls ++ r.drop (t + 3), b ∈ r := by
        intro b hb
        rcases List.mem_append.mp hb with h1 | h1
        · exact List.mem_of_mem_take h1
        · exact List.mem_of_mem_drop h1
      have hlen : (r.take ls ++ r.drop (t + 3)).length ≤ r.length := by
        simp only [List.length_append, List.length_take, List.length_drop]
        omega
      obtain ⟨i1, i2, i3⟩ := ih _ hhead
      exact ⟨i1, fun b hb => hsub b (i2 b hb), by omega⟩

theorem cutAfterLastSlash_ok (r : List Nat) (hr : r.head? = some 47) : ∀ x,
    (cutAfterLastSlash r x).head? = some 47 ∧ (∀ b ∈ cutAfterLastSlash r x, b ∈ r) ∧
    (cutAfterLastSlash r x).length ≤ r.length := by
  intro x
  induction x with
  | zero => exact ⟨hr, fun _ h => h, Nat.le_refl _⟩
  | succ x ih =>
    show (if r.getD x 0 = 47 then r.take (x + 1) else cutAfterLastSlash r x).head? = some 47 ∧
      (∀ b ∈ (if r.getD x 0 = 47 then r.take (x + 1) else cutAfterLastSlash r x), b ∈ r) ∧
      (if r.getD x 0 = 47 then r.take (x + 1) else cutAfterLastSlash r x).length ≤ r.length
    split_ifs
    · exact ⟨by rw [head?_take_succ]; exact hr, fun b hb => List.mem_of_mem_take hb,
        by simp⟩
    · exact ih

/-- The path resolved against a current directory that begins with `/` begins with `/`,
is made of bytes of the directory and of the relative path, and fits the buffer. -/
theorem computerelativepath_ok (n : Nat) (curdir relpath : List Nat) (hn : 2 ≤ n)
    (hc : curdir.head? = some 47) :
    (computerelativepath n curdir relpath).head? = some 47 ∧
    (∀ b ∈ computerelativepath n curdir relpath, b ∈ curdir ∨ b = 47 ∨ b ∈ relpath) ∧
    (computerelativepath n curdir relpath).length ≤ n - 1 := by
  have hg1 : (cTruncate n (curdir ++ [47] ++ relpath)).head? = some 47 := by
    unfold cTruncate
    obtain ⟨k, hk⟩ : ∃ k, n - 1 = k + 1 := ⟨n - 2, by omega⟩
    rw [hk, head?_take_succ]
    rcases curdir with _ | ⟨a, c⟩
    · cases hc
    · simpa using hc
  have hg2 : ∀ b ∈ cTruncate n (curdir ++ [47] ++ relpath), b ∈ curdir ∨ b = 47 ∨ b ∈ relpath := by
    intro b hb
    unfold cTruncate at hb
    have := List.mem_of_mem_take hb
    simp only [List.mem_append, List.mem_singleton] at this
    tauto
  have hg3 : (cTruncate n (curdir ++ [47] ++ relpath)).length ≤ n - 1 := by
    unfold cTruncate
    rw [List.length_take]
    omega
  unfold computerelativepath
  dsimp only
  generalize cTruncate n (curdir ++ [47] ++ relpath) = glued at hg1 hg2 hg3
  have hd1 : (RemoveDoubleChar glued 47).head? = some 47 := by
    rw [RemoveDoubleChar_head]; exact hg1
  have hd2 : ∀ b ∈ RemoveDoubleChar glued 47, b ∈ glued :=
    fun b hb => (RemoveDoubleChar_sublist glued 47).subset hb
  have hd3 : (RemoveDoubleChar glued 47).length ≤ glued.length :=
    (RemoveDoubleChar_sublist glued 47).length_le
  generalize RemoveDoubleChar glued 47 = nodouble at hd1 hd2 hd3
  obtain ⟨hs1, hs2, hs3⟩ := simplifyDotDotLoop_ok nodouble.length nodouble hd1
  generalize simplifyDotDotLoop nodouble.length nodouble = result at hs1 hs2 hs3
  have base : ∀ r : List Nat, r.head? = some 47 → (∀ b ∈ r, b ∈ result) →
      r.length ≤ result.length →
      r.head? = some 47 ∧ (∀ b ∈ r, b ∈ curdir ∨ b = 47 ∨ b ∈ relpath) ∧ r.length ≤ n - 1 :=
    fun r h1 h2 h3 => ⟨h1, fun b hb => hg2 b (hd2 b (hs2 b (h2 b hb))), by omega⟩
  by_cases hlen : result.length < 3
  · rw [if_pos hlen]
    exact base result hs1 (fun _ h => h) (Nat.le_refl _)
  · rw [if_neg hlen]
    split_ifs with hcond hx
    · refine base _ (by rw [head?_take_succ]; exact hs1) (fun b hb => List.mem_of_mem_take hb) ?_
      simp
    · obtain ⟨k, hk⟩ : ∃ k, result.length - 3 = k + 1 := ⟨result.length - 3 - 1, by omega⟩
      have htake : (result.take (result.length - 3)).head? = some 47 := by
        rw [hk, head?_take_succ]; exact hs1
      obtain ⟨c1, c2, c3⟩ := cutAfterLastSlash_ok _ htake (result.length - 3)
      refine base _ c1 (fun b hb => List.mem_of_mem_take (c2 b hb)) ?_
      have : (result.take (result.length - 3)).length ≤ result.length := by simp
      omega
    · exact base result hs1 (fun _ h => h) (Nat.le_refl _)

/-! ## Lemmas: a relative path of 1020 bytes in the directory `/d` -/

theorem stringstartswith_cons_cons (c d : Nat) (s t : List Nat) :
    stringstartswith (c :: s) (d :: t) = if c ≠ d then 0 else stringstartswith s t := rfl

theorem strstr_replicate_none (c d : Nat) (t : List Nat) (h : c ≠ d) :
    ∀ n, strstr (List.replicate n c) (d :: t) = none := by
  intro n
  induction n with
  | zero => rfl
  | succ n ih =>
    rw [List.replicate_succ, strstr_cons, stringstartswith_cons_cons, if_pos h,
      if_neg (by decide), ih]
    rfl

theorem strstr_slash_none (n x : Nat) (t : List Nat) (h1 : x ≠ 100) (h2 : x ≠ 97) :
    strstr (47 :: 100 :: 47 :: List.replicate (n + 1) 97) (47 :: x :: t) = none := by
  have a1 : stringstartswith (47 :: 100 :: 47 :: List.replicate (n + 1) 97) (47 :: x :: t)
      = 0 := by
    rw [stringstartswith_cons_cons, if_neg (by decide), stringstartswith_cons_cons,
      if_pos (fun e => h1 e.symm)]
  have a2 : stringstartswith (100 :: 47 :: List.replicate (n + 1) 97) (47 :: x :: t) = 0 := by
    rw [stringstartswith_cons_cons, if_pos (by decide)]
  have a3 : stringstartswith (47 :: List.replicate (n + 1) 97) (47 :: x :: t) = 0 := by
    rw [stringstartswith_cons_cons, if_neg (by decide), List.replicate_succ,
      stringstartswith_cons_cons, if_pos (fun e => h2 e.symm)]
  rw [strstr_cons, a1, if_neg (by decide), strstr_cons, a2, if_neg (by decide), strstr_cons, a3,
    if_neg (by decide), strstr_replicate_none 97 47 (x :: t) (by decide)]
  rfl

set_option maxRecDepth 100000 in
/-- The path `/d/aaa...` of 1023 bytes is left as it is by `computerelativepath`. -/
theorem computerelativepath_long :
    computerelativepath 1024 [47, 100] (List.replicate 1020 97)
      = 47 :: 100 :: 47 :: List.replicate 1020 97 := by
  unfold computerelativepath
  dsimp only
  have hg : cTruncate 1024 ([47, 100] ++ [47] ++ List.replicate 1020 97)
      = 47 :: 100 :: 47 :: List.replicate (1019 + 1) 97 := by decide
  have hlen : (47 :: 100 :: 47 :: List.replicate (1019 + 1) 97).length = 1022 + 1 := by
    simp
  have hnd : RemoveDoubleChar (47 :: 100 :: 47 :: List.replicate (1019 + 1) 97) 47
      = 47 :: 100 :: 47 :: List.replicate (1019 + 1) 97 := by
    unfold RemoveDoubleChar
    rw [hlen, RemoveDoubleCharLoop_succ, strstr_slash_none 1019 47 [] (by decide) (by decide)]
  have hsd : simplifyDotDotLoop (1022 + 1) (47 :: 100 :: 47 :: List.replicate (1019 + 1) 97)
      = 47 :: 100 :: 47 :: List.replicate (1019 + 1) 97 := by
    rw [simplifyDotDotLoop_succ,
      strstr_slash_none 1019 46 [46, 47] (by decide) (by decide)]
  rw [hg, hnd, hlen, hsd, hlen]
  rw [if_neg (by omega), if_neg (by decide)]

/-! ## Properties of the specification: menus and gophermaps -/

/-- C11. For every raw selector line and every secondary-URL delimiter that is disabled or
is not `/`, the path that the pipeline of `main` leaves after `RemoveDoubleChar` begins
with `/` and contains no two consecutive `/`; the empty line gives the path `/`. -/
theorem pipeline_path_canonical (securldelim : Nat) (raw p : List Nat)
    (hd : securldelim = 0 ∨ securldelim ≠ 47) (h : pipelinePath securldelim raw = some p) :
    (p.head? = some 47 ∧ ¬ [47, 47] <:+: p) ∧ pipelinePath securldelim [] = some [47] := by
  have hd' : securldelim ≠ 47 := by
    rcases hd with h0 | h1
    · omega
    · exact h1
  constructor
  · unfold pipelinePath at h
    split at h
    · rename_i path u sq hacc
      injection h with h
      subst h
      refine ⟨?_, RemoveDoubleChar_no_double path 47⟩
      rw [RemoveDoubleChar_head]
      exact selectorPipeline_path_head securldelim raw path u sq hd' hacc
    · cases h
  · have hex : explode_serverside_params_from_query [47] securldelim = ⟨[47], none, none⟩ := by
      apply explode_plain
      · intro c hc
        simp only [List.mem_singleton] at hc
        subst hc
        exact ⟨by decide, by decide, fun e => hd' e.symm⟩
      · decide
    have hp : selectorPipeline securldelim [] = PipelineOutcome.accepted [47] none none := by
      unfold selectorPipeline
      simp only [if_true]
      rw [if_neg (by decide), if_neg (by decide), if_neg (by decide), if_neg (by decide), hex]
      rfl
    unfold pipelinePath
    rw [hp]
    rfl

/-- Witness for C11: `%2Fa///b` gives the path `/a/b`. -/
theorem pipeline_path_canonical_witness :
    pipelinePath 0 [37, 50, 70, 97, 47, 47, 47, 98] = some [47, 97, 47, 98] ∧
      ((([47, 97, 47, 98] : List Nat).head? = some 47 ∧ ¬ [47, 47] <:+: [47, 97, 47, 98]) ∧
        pipelinePath 0 [] = some [47]) :=
  ⟨by decide, pipeline_path_canonical 0 [37, 50, 70, 97, 47, 47, 47, 98] [47, 97, 47, 98]
    (Or.inl rfl) (by decide)⟩

/-- C12, as stated, fails: `gophersecuritycheck` accepts `/` followed by the overlong form
`C0 AF`, and `/` followed by the encoded surrogate `ED A0 80`, neither of which is
well-formed UTF-8. -/
theorem gophersecuritycheck_accepts_ill_formed_utf8 :
    (gophersecuritycheck [47, 192, 175] = none ∧ wellFormedUtf8 [47, 192, 175] = false) ∧
      (gophersecuritycheck [47, 237, 160, 128] = none ∧
        wellFormedUtf8 [47, 237, 160, 128] = false) := by
  decide

/-- C12, amended. Every path accepted by `gophersecuritycheck` contains only bytes
`0x20..0x7F` and sequences of the shape `110xxxxx 10xxxxxx` or
`1110xxxx 10xxxxxx 10xxxxxx`; overlong forms and encoded surrogates are not told apart
from well-formed sequences. -/
theorem gophersecuritycheck_accepted_shape (s : List Nat) (hs : IsCString s)
    (h : gophersecuritycheck s = none) :
    HighBytesInSequences s ∧ ∀ b ∈ s, 32 ≤ b := by
  refine ⟨utf8scan_sound_aux s.length s le_rfl (fun b hb => (hs b hb).2)
    ((gophersecuritycheck_none_iff s).mp h).2.2.2, ?_⟩
  intro b hb
  have h1 := no_control_of_accepted s h b hb
  have h2 := (hs b hb).1
  omega

/-- Witness for C12 amended: the accepted path `/é`. -/
theorem gophersecuritycheck_accepted_shape_witness :
    HighBytesInSequences [47, 195, 169] ∧ ∀ b ∈ ([47, 195, 169] : List Nat), 32 ≤ b :=
  gophersecuritycheck_accepted_shape [47, 195, 169] (by decide) (by decide)

/-- C13. The line built by `buildgophermapline` carries the configured hostname and port
when server and port are both missing; the given server with the configured port (server
equal to the hostname up to case) or 70 (otherwise) when only the port is missing; the
configured hostname with the given port when only the server is missing; and the given
server and port when both are present. -/
theorem buildgophermapline_defaults (linebuff_len itemtype : Nat)
    (desc selector server : List Nat) (port : Int) (curdirectory : List Nat)
    (config : MotsognirConfig)
    (hserver : IsCString server) (hhost : IsCString config.gopherhostname) :
    buildgophermapline linebuff_len itemtype desc selector server port curdirectory config =
        cTruncate linebuff_len (menuLineText itemtype desc
          (resolvedSelector itemtype selector (defaultedServer server port config) curdirectory
            config)
          (defaultedServer server port config) (defaultedPort server port config)) ∧
      (server = [] ∧ port = 0 →
        defaultedServer server port config = config.gopherhostname ∧
          defaultedPort server port config = config.gopherport) ∧
      (server ≠ [] ∧ port = 0 →
        defaultedServer server port config = server ∧
          defaultedPort server port config =
            if EqIgnoringCase server config.gopherhostname then config.gopherport else 70) ∧
      (server = [] ∧ port ≠ 0 →
        defaultedServer server port config = config.gopherhostname ∧
          defaultedPort server port config = port) ∧
      (server ≠ [] ∧ port ≠ 0 →
        defaultedServer server port config = server ∧
          defaultedPort server port config = port) := by
  refine ⟨rfl, ?_, ?_, ?_, ?_⟩
  · rintro ⟨hs, hp⟩
    subst hs; subst hp
    simp [defaultedServer, defaultedPort]
  · rintro ⟨hs, hp⟩
    subst hp
    have hne : ¬ server.head? = none := fun e => hs ((head?_eq_none_iff_nil server).mp e)
    have hcmp := strcasecmp_eq_zero_iff server config.gopherhostname
      (fun hm => by have := (hserver 0 hm).1; omega)
      (fun hm => by have := (hhost 0 hm).1; omega)
    simp only [defaultedServer, defaultedPort, hne, false_and, if_false, if_true, hcmp,
      and_self]
  · rintro ⟨hs, hp⟩
    subst hs
    simp [defaultedServer, defaultedPort, hp]
  · rintro ⟨hs, hp⟩
    have hne : ¬ server.head? = none := fun e => hs ((head?_eq_none_iff_nil server).mp e)
    simp [defaultedServer, defaultedPort, hp, hne]

/-- Witness for C13: a line naming the server `Example.ORG` without a port, built for the
host `example.org` on port 7070, keeps the server and carries the port 7070. -/
theorem buildgophermapline_defaults_witness :
    defaultedServer [69, 120, 97, 109, 112, 108, 101, 46, 79, 82, 71] 0
        ⟨[101, 120, 97, 109, 112, 108, 101, 46, 111, 114, 103], 7070, none, 0, 0, 0,
          fun _ => 57⟩ = [69, 120, 97, 109, 112, 108, 101, 46, 79, 82, 71] ∧
      defaultedPort [69, 120, 97, 109, 112, 108, 101, 46, 79, 82, 71] 0
        ⟨[101, 120, 97, 109, 112, 108, 101, 46, 111, 114, 103], 7070, none, 0, 0, 0,
          fun _ => 57⟩ = 7070 :=
  (buildgophermapline_defaults 4096 48 [82] [47, 120]
    [69, 120, 97, 109, 112, 108, 101, 46, 79, 82, 71] 0 [47]
    ⟨[101, 120, 97, 109, 112, 108, 101, 46, 111, 114, 103], 7070, none, 0, 0, 0, fun _ => 57⟩
    (by decide) (by decide)).2.2.1 ⟨by decide, rfl⟩

theorem cstr_menuLine (t : Nat) (d s sv : List Nat) (p : Int) (ht : t ≠ 0) (hd : 0 ∉ d)
    (hs : 0 ∉ s) (hsv : 0 ∉ sv) (hp : ∀ c ∈ fmtInt p, 48 ≤ c ∧ c ≤ 57)
    (hlen : d.length + s.length + sv.length + (fmtInt p).length + 5 ≤ 4096) :
    cstr (cTruncate 4096 (menuLineText t d s sv p))
      = t :: (d ++ 9 :: (s ++ 9 :: (sv ++ 9 :: fmtInt p))) := by
  have e : menuLineText t d s sv p = t :: (d ++ 9 :: (s ++ 9 :: (sv ++ 9 :: fmtInt p))) := by
    unfold menuLineText
    simp
  rw [e, cTruncate_of_le _ _ (by simp; omega)]
  apply cstr_of_no_nul
  intro h
  simp only [List.mem_cons, List.mem_append] at h
  rcases h with h | h | h | h | h | h | h | h
  · exact ht h.symm
  · exact hd h
  · omega
  · exact hs h
  · omega
  · exact hsv h
  · omega
  · have := hp 0 h; omega

set_option maxRecDepth 100000 in
/-- C14, as stated, fails: in the directory `/d` the line `0x<TAB>` followed by 1020
bytes `a` is parsed and built into a line whose selector `/d/aaa...` has 1023 bytes,
which `explodegophermapline` refuses; and with a hostname of 63 bytes the line built from
the gophermap line `i` is refused as well. -/
theorem defaulting_not_stable_counterexample :
    (defaultedLine [] [47, 100] scenarioConfig ([48, 120, 9] ++ List.replicate 1020 97)
        = some ([48, 120, 9, 47, 100, 47] ++ List.replicate 1020 97
            ++ [9, 101, 120, 97, 109, 112, 108, 101, 46, 111, 114, 103, 9, 55, 48]) ∧
      defaultedLine [] [47, 100] scenarioConfig ([48, 120, 9, 47, 100, 47]
            ++ List.replicate 1020 97
            ++ [9, 101, 120, 97, 109, 112, 108, 101, 46, 111, 114, 103, 9, 55, 48]) = none) ∧
    (defaultedLine [] [47] longHostConfig [105]
        = some ([105, 9, 9] ++ List.replicate 63 97 ++ [9, 55, 48]) ∧
      defaultedLine [] [47] longHostConfig ([105, 9, 9] ++ List.replicate 63 97 ++ [9, 55, 48])
        = none) := by
  refine ⟨⟨?_, by decide⟩, by decide⟩
  have he : explodegophermapline [] ([48, 120, 9] ++ List.replicate 1020 97)
      = some ⟨48, [120], List.replicate 1020 97, [], 0⟩ := by decide
  have hsv : defaultedServer [] 0 scenarioConfig
      = [101, 120, 97, 109, 112, 108, 101, 46, 111, 114, 103] := by decide
  have hp : defaultedPort [] 0 scenarioConfig = 70 := by decide
  have hrs : resolvedSelector 48 (List.replicate 1020 97)
      [101, 120, 97, 109, 112, 108, 101, 46, 111, 114, 103] [47, 100] scenarioConfig
      = 47 :: 100 :: 47 :: List.replicate 1020 97 := by
    unfold resolvedSelector
    rw [if_pos (by decide)]
    exact computerelativepath_long
  unfold defaultedLine
  rw [he]
  simp only [Option.some.injEq]
  unfold buildgophermapline
  simp only
  rw [hsv, hp, hrs]
  decide

/-- C14, amended. Gophermap defaulting is stable when the emitted line can be read
back.  For a gophermap line without NUL that `explodegophermapline` parses, a current
directory that begins with `/` and holds no TAB, a hostname of 1 to 62 bytes without TAB,
a port in 1..65535, and an emitted selector of at most 1022 bytes, parsing the line
emitted by `buildgophermapline` and building it again yields exactly the same line,
whatever the port buffer holds. -/
theorem defaultedLine_stable (tmpstring tmpstring2 curdirectory : List Nat)
    (config : MotsognirConfig) (line l1 : List Nat)
    (hline : 0 ∉ line)
    (hcur : curdirectory.head? = some 47) (hcur9 : 9 ∉ curdirectory) (hcur0 : 0 ∉ curdirectory)
    (hhost : config.gopherhostname ≠ []) (hhost9 : 9 ∉ config.gopherhostname)
    (hhost0 : 0 ∉ config.gopherhostname) (hhostlen : config.gopherhostname.length ≤ 62)
    (hport : 1 ≤ config.gopherport ∧ config.gopherport ≤ 65535)
    (hsel : ∀ item, explodegophermapline tmpstring line = some item →
      (resolvedSelector item.itemtype item.itemselector
        (defaultedServer item.itemserver item.itemport config) curdirectory config).length ≤ 1022)
    (hfirst : defaultedLine tmpstring curdirectory config line = some l1) :
    defaultedLine tmpstring2 curdirectory config l1 = some l1 := by
  unfold defaultedLine at hfirst
  cases he : explodegophermapline tmpstring line with
  | none => rw [he] at hfirst; cases hfirst
  | some item =>
    rw [he] at hfirst
    simp only [Option.some.injEq] at hfirst
    have hsel1 := hsel item he
    obtain ⟨⟨hd9, hd0, hdl⟩, ⟨hs9, hs0, hsl⟩, ⟨hv9, hv0, hvl⟩, hp⟩ :=
      explodegophermapline_fields tmpstring line item he hline
    have ht := explodegophermapline_type_ne_zero tmpstring line item he hline
    obtain ⟨t, d, s, sv, p⟩ := item
    simp only at hsel1 hd9 hd0 hdl hs9 hs0 hsl hv9 hv0 hvl hp ht hfirst
    -- the server and the port after the first pass
    have hSV : defaultedServer sv p config ≠ [] ∧ 9 ∉ defaultedServer sv p config ∧
        0 ∉ defaultedServer sv p config ∧ (defaultedServer sv p config).length ≤ 62 := by
      unfold defaultedServer
      have hsvne : sv.head? ≠ none → sv ≠ [] := fun h e => h (by rw [e]; rfl)
      split_ifs with c1 c2 c3
      · exact ⟨hhost, hhost9, hhost0, hhostlen⟩
      · have : sv.head? ≠ none := fun e => c1 ⟨e, c2⟩
        exact ⟨hsvne this, hv9, hv0, hvl⟩
      · exact ⟨hhost, hhost9, hhost0, hhostlen⟩
      · exact ⟨hsvne c3, hv9, hv0, hvl⟩
    have hP : 1 ≤ defaultedPort sv p config ∧ defaultedPort sv p config ≤ 65535 := by
      unfold defaultedPort
      split_ifs with c1 c2 c3
      · exact hport
      · exact hport
      · omega
      · omega
    generalize hSVdef : defaultedServer sv p config = SV at hSV hsel1 hfirst
    generalize hPdef : defaultedPort sv p config = P at hP
    obtain ⟨hSVne, hSV9, hSV0, hSVl⟩ := hSV
    obtain ⟨hpv, hpne, hpl, hpd⟩ := portOfString_fmtInt P hP.1 hP.2
    -- the selector after the first pass
    have hcrp := computerelativepath_ok 1024 curdirectory s (by omega) hcur
    have hS : 9 ∉ resolvedSelector t s SV curdirectory config ∧
        0 ∉ resolvedSelector t s SV curdirectory config ∧
        resolvedSelector t (resolvedSelector t s SV curdirectory config) SV curdirectory config
          = resolvedSelector t s SV curdirectory config := by
      unfold resolvedSelector at hsel1
      by_cases hc : t ≠ 105 ∧ s.head? ≠ some 47 ∧ s.head? ≠ none ∧
          strcasecmp SV config.gopherhostname = 0 ∧ stringstartswith s [85, 82, 76, 58] = 0
      · rw [if_pos hc] at hsel1
        have e1 : resolvedSelector t s SV curdirectory config
            = computerelativepath 1024 curdirectory s := by
          unfold resolvedSelector
          rw [if_pos hc]
        rw [e1]
        refine ⟨?_, ?_, ?_⟩
        · intro hm
          rcases hcrp.2.1 9 hm with h | h | h
          · exact hcur9 h
          · omega
          · exact hs9 h
        · intro hm
          rcases hcrp.2.1 0 hm with h | h | h
          · exact hcur0 h
          · omega
          · exact hs0 h
        · unfold resolvedSelector
          rw [if_neg (fun hc2 => hc2.2.1 hcrp.1)]
          exact cTruncate_of_le _ _ (by omega)
      · have e1 : resolvedSelector t s SV curdirectory config = s := by
          unfold resolvedSelector
          rw [if_neg hc]
          exact cTruncate_of_le _ _ (by omega)
        rw [e1]
        exact ⟨hs9, hs0, e1⟩
    generalize hSdef : resolvedSelector t s SV curdirectory config = S at hS hsel1 hfirst
    obtain ⟨hS9, hS0, hSfix⟩ := hS
    -- the line sent by the first pass
    have hl1 : l1 = t :: (d ++ 9 :: (S ++ 9 :: (SV ++ 9 :: fmtInt P))) := by
      rw [← hfirst]
      unfold buildgophermapline
      simp only
      rw [hSVdef, hPdef, hSdef]
      exact cstr_menuLine t d S SV P ht hd0 hS0 hSV0 hpd (by omega)
    -- the second pass
    have hparse : explodegophermapline tmpstring2 l1 = some ⟨t, d, S, SV, P⟩ := by
      rw [hl1, explodegophermapline_of_fields tmpstring2 t d S SV (fmtInt P) hd9 hS9 hSV9
        (fun hm => by have := hpd 9 hm; omega) hdl hsel1 hSVl (by omega) hpne, hpv]
    have hSV2 : defaultedServer SV P config = SV := by
      unfold defaultedServer
      have h1 : ¬ (SV.head? = none ∧ P = 0) := fun h => by omega
      have h2 : ¬ P = 0 := by omega
      have h3 : ¬ SV.head? = none := by
        rcases SV with _ | ⟨a, r⟩
        · exact absurd rfl hSVne
        · simp
      rw [if_neg h1, if_neg h2, if_neg h3]
    have hP2 : defaultedPort SV P config = P := by
      unfold defaultedPort
      have h1 : ¬ (SV.head? = none ∧ P = 0) := fun h => by omega
      have h2 : ¬ P = 0 := by omega
      rw [if_neg h1, if_neg h2]
    unfold defaultedLine
    rw [hparse]
    simp only [Option.some.injEq]
    unfold buildgophermapline
    simp only
    rw [hSV2, hP2, hSfix, hl1]
    exact cstr_menuLine t d S SV P ht hd0 hS0 hSV0 hpd (by omega)

/-- Witness for C14 amended: the second line of scenario 3 in the directory `/d/`. -/
theorem defaultedLine_stable_witness :
    defaultedLine [49] [47, 100, 47] scenarioConfig
      [48, 82, 101, 97, 100, 109, 101, 9, 47, 100, 47, 114, 101, 97, 100, 109, 101, 46, 116,
        120, 116, 9, 101, 120, 97, 109, 112, 108, 101, 46, 111, 114, 103, 9, 55, 48]
      = some [48, 82, 101, 97, 100, 109, 101, 9, 47, 100, 47, 114, 101, 97, 100, 109, 101, 46,
        116, 120, 116, 9, 101, 120, 97, 109, 112, 108, 101, 46, 111, 114, 103, 9, 55, 48] :=
  defaultedLine_stable [] [49] [47, 100, 47] scenarioConfig
    [48, 82, 101, 97, 100, 109, 101, 9, 114, 101, 97, 100, 109, 101, 46, 116, 120, 116, 9, 9]
    _ (by decide) (by decide) (by decide) (by decide) (by decide) (by decide) (by decide)
    (by decide) (by decide)
    (fun item h => by
      have h2 : explodegophermapline []
          [48, 82, 101, 97, 100, 109, 101, 9, 114, 101, 97, 100, 109, 101, 46, 116, 120, 116, 9, 9]
          = some ⟨48, [82, 101, 97, 100, 109, 101],
              [114, 101, 97, 100, 109, 101, 46, 116, 120, 116], [], 0⟩ := by decide
      rw [h2] at h
      cases h
      decide)
    (by decide)

theorem stringstartswith_eq_zero_iff (s p : List Nat) : stringstartswith s p = 0 ↔ ¬ p <+: s := by
  constructor
  · intro h hp
    rw [ stringstartswith_of_prefix s p hp] at h
    cases h
  · intro h
    by_contra hne
    exact h ( stringstartswith_prefix s p hne)

theorem defaultedServer_cstring (server : List Nat) (port : Int) (config : MotsognirConfig)
    (hserver : IsCString server) (hhost : IsCString config.gopherhostname) :
    IsCString (defaultedServer server port config) := by
  unfold defaultedServer
  split_ifs <;> assumption

/-- C15. `buildgophermapline` replaces the selector by its resolution against the current
directory exactly when the item type is not `i`, the selector is not empty, does not begin
with `/` or with `URL:`, and the server after defaulting equals the configured hostname up
to case; otherwise, in particular on every `i` line and on every line of a foreign server,
the selector is emitted unchanged. -/
theorem buildgophermapline_selector (linebuff_len itemtype : Nat)
    (desc selector server : List Nat) (port : Int) (curdirectory : List Nat)
    (config : MotsognirConfig) (hsel : selector.length ≤ 1023)
    (hserver : IsCString server) (hhost : IsCString config.gopherhostname) :
    buildgophermapline linebuff_len itemtype desc selector server port curdirectory config =
        cTruncate linebuff_len (menuLineText itemtype desc
          (resolvedSelector itemtype selector (defaultedServer server port config) curdirectory
            config)
          (defaultedServer server port config) (defaultedPort server port config)) ∧
      resolvedSelector itemtype selector (defaultedServer server port config) curdirectory config
        = (if itemtype ≠ 105 ∧ selector ≠ [] ∧ selector.head? ≠ some 47 ∧
              ¬ [85, 82, 76, 58] <+: selector ∧
              EqIgnoringCase (defaultedServer server port config) config.gopherhostname
            then computerelativepath 1024 curdirectory selector else selector) ∧
      (itemtype = 105 →
        resolvedSelector itemtype selector (defaultedServer server port config) curdirectory
          config = selector) ∧
      (¬ EqIgnoringCase (defaultedServer server port config) config.gopherhostname →
        resolvedSelector itemtype selector (defaultedServer server port config) curdirectory
          config = selector) := by
  have hS := defaultedServer_cstring server port config hserver hhost
  have hcmp := strcasecmp_eq_zero_iff (defaultedServer server port config) config.gopherhostname
    (fun hm => by have := (hS 0 hm).1; omega)
    (fun hm => by have := (hhost 0 hm).1; omega)
  have htr : cTruncate 1024 selector = selector := cTruncate_of_le 1024 selector (by omega)
  have hmain : resolvedSelector itemtype selector (defaultedServer server port config)
      curdirectory config
        = (if itemtype ≠ 105 ∧ selector ≠ [] ∧ selector.head? ≠ some 47 ∧
              ¬ [85, 82, 76, 58] <+: selector ∧
              EqIgnoringCase (defaultedServer server port config) config.gopherhostname
            then computerelativepath 1024 curdirectory selector else selector) := by
    unfold resolvedSelector
    rw [htr]
    have hnil : selector.head? ≠ none ↔ selector ≠ [] := not_congr (head?_eq_none_iff_nil selector)
    have hurl := stringstartswith_eq_zero_iff selector [85, 82, 76, 58]
    by_cases hc : itemtype ≠ 105 ∧ selector ≠ [] ∧ selector.head? ≠ some 47 ∧
        ¬ [85, 82, 76, 58] <+: selector ∧
        EqIgnoringCase (defaultedServer server port config) config.gopherhostname
    · rw [if_pos hc, if_pos ⟨hc.1, hc.2.2.1, hnil.mpr hc.2.1, hcmp.mpr hc.2.2.2.2,
        hurl.mpr hc.2.2.2.1⟩]
    · rw [if_neg hc, if_neg]
      rintro ⟨h1, h2, h3, h4, h5⟩
      exact hc ⟨h1, hnil.mp h3, h2, hurl.mp h5, hcmp.mp h4⟩
  refine ⟨rfl, hmain, ?_, ?_⟩
  · intro hi
    rw [hmain, if_neg]
    rintro ⟨h1, -⟩
    exact h1 hi
  · intro hf
    rw [hmain, if_neg]
    rintro ⟨-, -, -, -, h5⟩
    exact hf h5

/-- Witness for C15: the relative selector `readme.txt` of a local `0` item is resolved
against `/d/`. -/
theorem buildgophermapline_selector_witness :
    resolvedSelector 48 [114, 101, 97, 100, 109, 101, 46, 116, 120, 116]
        (defaultedServer [] 0
          ⟨[101, 120, 97, 109, 112, 108, 101, 46, 111, 114, 103], 70, none, 0, 0, 0,
            fun _ => 57⟩) [47, 100, 47]
        ⟨[101, 120, 97, 109, 112, 108, 101, 46, 111, 114, 103], 70, none, 0, 0, 0, fun _ => 57⟩
      = [47, 100, 47, 114, 101, 97, 100, 109, 101, 46, 116, 120, 116] :=
  (buildgophermapline_selector 4096 48 [82] [114, 101, 97, 100, 109, 101, 46, 116, 120, 116] [] 0
    [47, 100, 47]
    ⟨[101, 120, 97, 109, 112, 108, 101, 46, 111, 114, 103], 70, none, 0, 0, 0, fun _ => 57⟩
    (by decide) (by decide) (by decide)).2.1

/-- The line built by `buildgophermapline` depends on the configuration through the
hostname and the port only. -/
theorem buildgophermapline_congr (linebuff_len itemtype : Nat) (desc selector server : List Nat)
    (port : Int) (curdirectory : List Nat) (config config2 : MotsognirConfig)
    (hh : config.gopherhostname = config2.gopherhostname)
    (hp : config.gopherport = config2.gopherport) :
    buildgophermapline linebuff_len itemtype desc selector server port curdirectory config
      = buildgophermapline linebuff_len itemtype desc selector server port curdirectory config2 := by
  unfold buildgophermapline resolvedSelector defaultedServer defaultedPort
  rw [hh, hp]

/-- The line sent for a gophermap line that is an ordinary menu item. -/
theorem gophermapLine_item (config : MotsognirConfig) (world : World)
    (localfile directorytolist : List Nat) (k : Nat) (linebuff : List Nat) (item : GophermapItem)
    (h1 : linebuff.head? ≠ some 35) (h2 : strcasecmp linebuff filesDirective ≠ 0)
    (h3 : strcasecmp linebuff dirsDirective ≠ 0)
    (he : explodegophermapline (world.tmpstring 0 k) linebuff = some item)
    (h4 : item.itemtype ≠ 61) :
    gophermapLine config world localfile directorytolist k linebuff =
      [cstr (buildgophermapline 4096 item.itemtype item.itemdesc item.itemselector
        item.itemserver item.itemport directorytolist config)] := by
  unfold gophermapLine
  rw [if_neg h1, if_neg h2, if_neg h3, he]
  simp only
  rw [if_neg h4]

/-- C16, as stated, fails: in scenario 3 the first line sent ends with port 70, so
the output is not the three lines of the scenario. -/
theorem scenario3_counterexample :
    outputdir scenarioConfig (scenarioWorld []) scenarioLocalDir [47, 100, 47]
      = [[105, 72, 101, 108, 108, 111, 9, 102, 97, 107, 101, 9, 102, 97, 107, 101, 9, 55, 48],
         [48, 82, 101, 97, 100, 109, 101, 9, 47, 100, 47, 114, 101, 97, 100, 109, 101, 46, 116,
           120, 116, 9, 101, 120, 97, 109, 112, 108, 101, 46, 111, 114, 103, 9, 55, 48],
         [46]] ∧
    outputdir scenarioConfig (scenarioWorld []) scenarioLocalDir [47, 100, 47]
      ≠ [[105, 72, 101, 108, 108, 111, 9, 102, 97, 107, 101, 9, 102, 97, 107, 101, 9, 48],
         [48, 82, 101, 97, 100, 109, 101, 9, 47, 100, 47, 114, 101, 97, 100, 109, 101, 46, 116,
           120, 116, 9, 101, 120, 97, 109, 112, 108, 101, 46, 111, 114, 103, 9, 55, 48],
         [46]] := by
  decide

/-- C16, amended. With hostname `example.org`, port 70 and current directory `/d/`,
the gophermap of scenario 3 found in the file `gophermap` of the directory produces the
three lines `iHello<TAB>fake<TAB>fake<TAB>70`,
`0Readme<TAB>/d/readme.txt<TAB>example.org<TAB>70` and `.`, provided the bytes found in
the port buffer of `explodegophermapline` are not a port number in 1..65535. -/
theorem scenario3_output (config : MotsognirConfig) (world : World)
    (hhost : config.gopherhostname = [101, 120, 97, 109, 112, 108, 101, 46, 111, 114, 103])
    (hport : config.gopherport = 70)
    (hfile : world.fileContent scenarioGophermapPath = some scenarioGophermap)
    (hgarbage : ∀ k, portOfString (world.tmpstring 0 k) = 0) :
    outputdir config world scenarioLocalDir [47, 100, 47]
      = [[105, 72, 101, 108, 108, 111, 9, 102, 97, 107, 101, 9, 102, 97, 107, 101, 9, 55, 48],
         [48, 82, 101, 97, 100, 109, 101, 9, 47, 100, 47, 114, 101, 97, 100, 109, 101, 46, 116,
           120, 116, 9, 101, 120, 97, 109, 112, 108, 101, 46, 111, 114, 103, 9, 55, 48],
         [46]] := by
  have hl1 : gophermapLine config world scenarioLocalDir [47, 100, 47] 40
      [105, 72, 101, 108, 108, 111, 9, 102, 97, 107, 101, 9, 102, 97, 107, 101, 9, 48]
      = [[105, 72, 101, 108, 108, 111, 9, 102, 97, 107, 101, 9, 102, 97, 107, 101, 9, 55, 48]] := by
    have he : explodegophermapline (world.tmpstring 0 40)
        [105, 72, 101, 108, 108, 111, 9, 102, 97, 107, 101, 9, 102, 97, 107, 101, 9, 48]
        = some ⟨105, [72, 101, 108, 108, 111], [102, 97, 107, 101], [102, 97, 107, 101], 0⟩ := rfl
    rw [gophermapLine_item config world scenarioLocalDir [47, 100, 47] 40 _ _
      (by decide) (by decide) (by decide) he (by decide)]
    rw [buildgophermapline_congr 4096 _ _ _ _ _ _ config scenarioConfig hhost hport]
    decide
  have hl2 : gophermapLine config world scenarioLocalDir [47, 100, 47] 39
      [48, 82, 101, 97, 100, 109, 101, 9, 114, 101, 97, 100, 109, 101, 46, 116, 120, 116, 9, 9]
      = [[48, 82, 101, 97, 100, 109, 101, 9, 47, 100, 47, 114, 101, 97, 100, 109, 101, 46, 116,
           120, 116, 9, 101, 120, 97, 109, 112, 108, 101, 46, 111, 114, 103, 9, 55, 48]] := by
    have he : explodegophermapline (world.tmpstring 0 39)
        [48, 82, 101, 97, 100, 109, 101, 9, 114, 101, 97, 100, 109, 101, 46, 116, 120, 116, 9, 9]
        = some ⟨48, [82, 101, 97, 100, 109, 101], [114, 101, 97, 100, 109, 101, 46, 116, 120, 116],
            [], 0⟩ := by
      rw [← hgarbage 39]
      rfl
    rw [gophermapLine_item config world scenarioLocalDir [47, 100, 47] 39 _ _
      (by decide) (by decide) (by decide) he (by decide)]
    rw [buildgophermapline_congr 4096 _ _ _ _ _ _ config scenarioConfig hhost hport]
    decide
  have hloop : gophermapLoop config world scenarioLocalDir [47, 100, 47]
      (scenarioGophermap.length + 1) scenarioGophermap
      = [[105, 72, 101, 108, 108, 111, 9, 102, 97, 107, 101, 9, 102, 97, 107, 101, 9, 55, 48],
         [48, 82, 101, 97, 100, 109, 101, 9, 47, 100, 47, 114, 101, 97, 100, 109, 101, 46, 116,
           120, 116, 9, 101, 120, 97, 109, 112, 108, 101, 46, 111, 114, 103, 9, 55, 48]] := by
    have hlen : scenarioGophermap.length + 1 = 38 + 1 + 1 + 1 := by decide
    have hr1 : sockreadline 1023 scenarioGophermap
        = (some [105, 72, 101, 108, 108, 111, 9, 102, 97, 107, 101, 9, 102, 97, 107, 101, 9, 48],
           [48, 82, 101, 97, 100, 109, 101, 9, 114, 101, 97, 100, 109, 101, 46, 116, 120, 116,
             9, 9, 10]) := by decide
    have hr2 : sockreadline 1023 [48, 82, 101, 97, 100, 109, 101, 9, 114, 101, 97, 100, 109, 101,
        46, 116, 120, 116, 9, 9, 10]
        = (some [48, 82, 101, 97, 100, 109, 101, 9, 114, 101, 97, 100, 109, 101, 46, 116, 120,
            116, 9, 9], []) := by decide
    have hr3 : sockreadline 1023 [] = (none, []) := by decide
    have hc1 : cstr [105, 72, 101, 108, 108, 111, 9, 102, 97, 107, 101, 9, 102, 97, 107, 101, 9, 48]
        = [105, 72, 101, 108, 108, 111, 9, 102, 97, 107, 101, 9, 102, 97, 107, 101, 9, 48] := by
      decide
    have hc2 : cstr [48, 82, 101, 97, 100, 109, 101, 9, 114, 101, 97, 100, 109, 101, 46, 116, 120,
        116, 9, 9]
        = [48, 82, 101, 97, 100, 109, 101, 9, 114, 101, 97, 100, 109, 101, 46, 116, 120,
            116, 9, 9] := by decide
    rw [hlen, gophermapLoop_succ, hr1]
    simp only
    rw [gophermapLoop_succ, hr2]
    simp only
    rw [gophermapLoop_succ, hr3]
    simp only
    rw [hc1, hc2, hl1, hl2]
    rfl
  have hgm : outputgophermap config world scenarioLocalDir scenarioGophermapPath [47, 100, 47]
      = gophermapLoop config world scenarioLocalDir [47, 100, 47]
          (scenarioGophermap.length + 1) scenarioGophermap := by
    unfold outputgophermap
    have e1 : stringendswith scenarioGophermapPath [46, 99, 103, 105] = 0 := by decide
    have e2 : stringendswith scenarioGophermapPath [46, 112, 104, 112] = 0 := by decide
    rw [if_neg (by rw [e1]; simp), if_neg (by rw [e2]; simp), hfile]
  have hbody : outputdirBody config world scenarioLocalDir [47, 100, 47]
      = outputgophermap config world scenarioLocalDir scenarioGophermapPath [47, 100, 47] := by
    unfold outputdirBody
    have hp : cTruncate 5120 (scenarioLocalDir ++ gophermapName) = scenarioGophermapPath := by
      decide
    have hf : fexist world scenarioGophermapPath = 1 := by
      unfold fexist
      rw [hfile]
      rfl
    rw [hp, hf, if_pos (by decide)]
  unfold outputdir
  have d1 : (if lastcharofstring scenarioLocalDir ≠ 47 then scenarioLocalDir ++ [47]
      else scenarioLocalDir) = scenarioLocalDir := by decide
  have d2 : (if lastcharofstring [47, 100, 47] ≠ 47 then [47, 100, 47] ++ [47]
      else [47, 100, 47]) = [47, 100, 47] := by decide
  simp only [d1, d2, hbody, hgm, hloop]
  rfl

/-- Witness for C16 amended: the file system of scenario 3 in which the port buffer holds the
text `0`. -/
theorem scenario3_output_witness :
    outputdir scenarioConfig (scenarioWorld [48]) scenarioLocalDir [47, 100, 47]
      = [[105, 72, 101, 108, 108, 111, 9, 102, 97, 107, 101, 9, 102, 97, 107, 101, 9, 55, 48],
         [48, 82, 101, 97, 100, 109, 101, 9, 47, 100, 47, 114, 101, 97, 100, 109, 101, 46, 116,
           120, 116, 9, 101, 120, 97, 109, 112, 108, 101, 46, 111, 114, 103, 9, 55, 48],
         [46]] :=
  scenario3_output scenarioConfig (scenarioWorld [48]) rfl rfl rfl (fun _ => (by decide : portOfString [48] = 0))

/-- C17, as stated, fails: a line whose description has exactly 1023 bytes is refused,
and so is a line whose server has exactly 63 bytes. -/
theorem explodegophermapline_limit_counterexample :
    explodegophermapline [] (105 :: List.replicate 1023 97) = none ∧
      explodegophermapline [] ([49, 100, 9, 47, 9] ++ List.replicate 63 97) = none := by
  set_option maxRecDepth 100000 in decide

/-- C17, amended. `explodegophermapline` succeeds exactly on the lines whose description and
selector have at most 1022 bytes, whose server has at most 62 bytes and whose port field
has at most 7 bytes (the fields being the TAB-separated parts that follow the item
type, as far as they are present), and on the empty line. -/
theorem explodegophermapline_succeeds_iff (tmpstring : List Nat) (itemtype : Nat)
    (l : List Nat) :
    ((explodegophermapline tmpstring (itemtype :: l)).isSome = true ↔
      (∀ f, nthField l 0 = some f → f.length ≤ 1022) ∧
        (∀ f, nthField l 1 = some f → f.length ≤ 1022) ∧
        (∀ f, nthField l 2 = some f → f.length ≤ 62) ∧
        (∀ f, nthField l 3 = some f → f.length ≤ 7)) ∧
      (explodegophermapline tmpstring []).isSome = true := by
  refine ⟨?_, rfl⟩
  rw [explodegophermapline_cons]
  by_cases h0 : (l.takeWhile (fun c => c != 9)).length < 1023
  swap
  · rw [readField_overflow 1023 l (by omega)]
    simp only [Option.isSome_none, Bool.false_eq_true, false_iff]
    intro hall
    have := hall.1 _ (nthField_zero l)
    omega
  cases hd0 : l.dropWhile (fun c => c != 9) with
  | nil =>
    rw [readField_nul 1023 l h0 hd0]
    simp only [Option.isSome_some, true_iff]
    refine ⟨fun f hf => ?_, fun f hf => ?_, fun f hf => ?_, fun f hf => ?_⟩
    · rw [nthField_zero] at hf; cases hf; omega
    · rw [nthField_succ_nil l _ hd0] at hf; cases hf
    · rw [nthField_succ_nil l _ hd0] at hf; cases hf
    · rw [nthField_succ_nil l _ hd0] at hf; cases hf
  | cons x0 l2 =>
    rw [readField_tab 1023 l x0 l2 h0 hd0]
    simp only
    have e1 : ∀ k, nthField l (k + 1) = nthField l2 k := fun k => nthField_succ_cons l k x0 l2 hd0
    rw [e1 0, e1 1, e1 2]
    by_cases h1 : (l2.takeWhile (fun c => c != 9)).length < 1023
    swap
    · rw [readField_overflow 1023 l2 (by omega)]
      simp only [Option.isSome_none, Bool.false_eq_true, false_iff]
      intro hall
      have := hall.2.1 _ (nthField_zero l2)
      omega
    cases hd1 : l2.dropWhile (fun c => c != 9) with
    | nil =>
      rw [readField_nul 1023 l2 h1 hd1]
      simp only [Option.isSome_some, true_iff]
      refine ⟨fun f hf => ?_, fun f hf => ?_, fun f hf => ?_, fun f hf => ?_⟩
      · rw [nthField_zero] at hf; cases hf; omega
      · rw [nthField_zero] at hf; cases hf; omega
      · rw [nthField_succ_nil l2 _ hd1] at hf; cases hf
      · rw [nthField_succ_nil l2 _ hd1] at hf; cases hf
    | cons x1 l3 =>
      rw [readField_tab 1023 l2 x1 l3 h1 hd1]
      simp only
      have e2 : ∀ k, nthField l2 (k + 1) = nthField l3 k :=
        fun k => nthField_succ_cons l2 k x1 l3 hd1
      rw [e2 0, e2 1]
      by_cases h2 : (l3.takeWhile (fun c => c != 9)).length < 63
      swap
      · rw [readField_overflow 63 l3 (by omega)]
        simp only [Option.isSome_none, Bool.false_eq_true, false_iff]
        intro hall
        have := hall.2.2.1 _ (nthField_zero l3)
        omega
      cases hd2 : l3.dropWhile (fun c => c != 9) with
      | nil =>
        rw [readField_nul 63 l3 h2 hd2]
        simp only [Option.isSome_some, true_iff]
        refine ⟨fun f hf => ?_, fun f hf => ?_, fun f hf => ?_, fun f hf => ?_⟩
        · rw [nthField_zero] at hf; cases hf; omega
        · rw [nthField_zero] at hf; cases hf; omega
        · rw [nthField_zero] at hf; cases hf; omega
        · rw [nthField_succ_nil l3 _ hd2] at hf; cases hf
      | cons x2 l4 =>
        rw [readField_tab 63 l3 x2 l4 h2 hd2]
        simp only
        rw [nthField_succ_cons l3 0 x2 l4 hd2]
        by_cases h3 : (l4.takeWhile (fun c => c != 9)).length < 8
        swap
        · rw [readField_overflow 8 l4 (by omega)]
          simp only [Option.isSome_none, Bool.false_eq_true, false_iff]
          intro hall
          have := hall.2.2.2 _ (nthField_zero l4)
          omega
        have hfields : (∀ f, nthField l 0 = some f → f.length ≤ 1022) ∧
            (∀ f, nthField l2 0 = some f → f.length ≤ 1022) ∧
            (∀ f, nthField l3 0 = some f → f.length ≤ 62) ∧
            (∀ f, nthField l4 0 = some f → f.length ≤ 7) := by
          refine ⟨fun f hf => ?_, fun f hf => ?_, fun f hf => ?_, fun f hf => ?_⟩
          all_goals (rw [nthField_zero] at hf; cases hf; omega)
        cases hd3 : l4.dropWhile (fun c => c != 9) with
        | nil =>
          rw [readField_nul 8 l4 h3 hd3]
          simp only [Option.isSome_some, true_iff]
          exact hfields
        | cons x3 l5 =>
          rw [readField_tab 8 l4 x3 l5 h3 hd3]
          simp only [Option.isSome_some, true_iff]
          exact hfields

/-- Witness for C17 amended: the line `1d<TAB>/<TAB>host<TAB>70` is parsed. -/
theorem explodegophermapline_succeeds_iff_witness :
    (explodegophermapline [] [49, 100, 9, 47, 9, 104, 111, 115, 116, 9, 55, 48]).isSome = true :=
  (explodegophermapline_succeeds_iff [] 49 [100, 9, 47, 9, 104, 111, 115, 116, 9, 55, 48]).1.mpr
    ⟨by decide, by decide, by decide, by decide⟩

theorem keptOfLine_plain (n : Nat) (l : List Nat) (h13 : 13 ∉ l) (h0 : 0 ∉ l)
    (hlen : l.length + 1 ≤ n) : keptOfLine n l = l := by
  unfold keptOfLine cstr
  have hf : l.filter (fun c => c != 13) = l := by
    apply List.filter_eq_self.mpr
    intro c hc
    have : c ≠ 13 := fun e => h13 (e ▸ hc)
    simp [this]
  rw [hf, List.take_of_length_le (by omega)]
  apply List.takeWhile_eq_self_iff.mpr
  intro c hc
  have : c ≠ 0 := fun e => h0 (e ▸ hc)
  simp [this]

/-- C18, as stated, fails: the line `a<CR>b` of a file is sent as `ab`, and the line
`a<NUL>b` is sent as `a`. -/
theorem sendtxtfiletosock_not_identical_counterexample :
    (fileLines [97, 13, 98, 10] = [[97, 13, 98]] ∧
      sendtxtfiletosock (some [97, 13, 98, 10]) = [[97, 98]]) ∧
    (fileLines [97, 0, 98, 10] = [[97, 0, 98]] ∧
      sendtxtfiletosock (some [97, 0, 98, 10]) = [[97]]) := by
  decide

/-- C18, amended. `sendtxtfiletosock` sends one line per line of the file, in order: the
line without its CR bytes, cut after 1048574 bytes and at its first NUL byte, with `.`
replaced by `. `.  So a file whose lines have no CR and no NUL byte and at most 1048574
bytes is sent line by line, a line `.` as `. ` and every other line unchanged. -/
theorem sendtxtfiletosock_lines (bytes : List Nat) :
    sendtxtfiletosock (some bytes)
        = (fileLines bytes).map (fun l => escapeDot (keptOfLine (1024 * 1024 - 1) l)) ∧
      ((∀ l ∈ fileLines bytes, 13 ∉ l ∧ 0 ∉ l ∧ l.length ≤ 1048574) →
        sendtxtfiletosock (some bytes) = (fileLines bytes).map escapeDot) := by
  have h1 : sendtxtfiletosock (some bytes)
      = (fileLines bytes).map (fun l => escapeDot (keptOfLine (1024 * 1024 - 1) l)) := by
    unfold sendtxtfiletosock
    exact sendtxtLoop_lines _ _ bytes (by omega)
  refine ⟨h1, ?_⟩
  intro hall
  rw [h1]
  apply List.map_congr_left
  intro l hl
  obtain ⟨a, b, c⟩ := hall l hl
  rw [keptOfLine_plain _ l a b (by omega)]

/-- Witness for C18 amended: the file `a`, `.`, `..` is sent as `a`, `. `, `..`. -/
theorem sendtxtfiletosock_lines_witness :
    sendtxtfiletosock (some [97, 10, 46, 10, 46, 46, 10]) = [[97], [46, 32], [46, 46]] :=
  ((sendtxtfiletosock_lines [97, 10, 46, 10, 46, 46, 10]).2 (by decide)).trans (by decide)

/-- C20, as stated, fails: a line made of a space and `%FILES%` is not taken as the
directive; it is sent as the menu line ` %FILES%<TAB><TAB>example.org<TAB>70`, while the
full listing of the (empty) directory is the line `iThis directory is empty.`. -/
theorem gophermapLine_untrimmed_directive_counterexample :
    gophermapLine scenarioConfig (scenarioWorld []) scenarioLocalDir [47, 100, 47] 0
        [32, 37, 70, 73, 76, 69, 83, 37]
      = [[32, 37, 70, 73, 76, 69, 83, 37, 9, 9, 101, 120, 97, 109, 112, 108, 101, 46, 111, 114,
          103, 9, 55, 48]] ∧
    outputdircontent scenarioConfig (scenarioWorld []) scenarioLocalDir [47, 100, 47] 0
      = [emptyDirLine] ∧
    gophermapLine scenarioConfig (scenarioWorld []) scenarioLocalDir [47, 100, 47] 0
        [37, 70, 73, 76, 69, 83, 37, 32]
      ≠ outputdircontent scenarioConfig (scenarioWorld []) scenarioLocalDir [47, 100, 47] 0 := by
  decide

/-- C20, amended. A gophermap line that equals `%FILES%`, compared without regard
to case and without any trimming, is replaced by the full directory listing, and a line
that equals `%DIRS%` by the directories-only listing. -/
theorem gophermapLine_directives (config : MotsognirConfig) (world : World)
    (localfile directorytolist : List Nat) (k : Nat) (linebuff : List Nat)
    (h0 : 0 ∉ linebuff) :
    (EqIgnoringCase linebuff filesDirective →
      gophermapLine config world localfile directorytolist k linebuff
        = outputdircontent config world localfile directorytolist 0) ∧
    (EqIgnoringCase linebuff dirsDirective →
      gophermapLine config world localfile directorytolist k linebuff
        = outputdircontent config world localfile directorytolist 1) := by
  have hf := strcasecmp_eq_zero_iff linebuff filesDirective h0 (by decide)
  have hd := strcasecmp_eq_zero_iff linebuff dirsDirective h0 (by decide)
  have hhead : ∀ d : List Nat, d.head? = some 37 → EqIgnoringCase linebuff d →
      ¬ linebuff.head? = some 35 := by
    intro d hd1 he hc
    unfold EqIgnoringCase at he
    rcases linebuff with _ | ⟨c, l⟩
    · cases hc
    · rcases d with _ | ⟨c2, l2⟩
      · cases hd1
      · simp only [List.head?_cons, Option.some.injEq] at hc hd1
        subst hc; subst hd1
        simp only [List.map_cons, List.cons.injEq] at he
        exact absurd he.1 (by decide)
  constructor
  · intro he
    unfold gophermapLine
    rw [if_neg (hhead filesDirective rfl he), if_pos (hf.mpr he)]
  · intro he
    have hne : ¬ strcasecmp linebuff filesDirective = 0 := by
      intro hz
      have h1 := hf.mp hz
      unfold EqIgnoringCase at h1 he
      rw [h1] at he
      exact absurd he (by decide)
    unfold gophermapLine
    rw [if_neg (hhead dirsDirective rfl he), if_neg hne, if_pos (hd.mpr he)]

/-- Witness for C20 amended: the line `%files%` gives the full listing. -/
theorem gophermapLine_directives_witness :
    gophermapLine scenarioConfig (scenarioWorld []) scenarioLocalDir [47, 100, 47] 0
        [37, 102, 105, 108, 101, 115, 37]
      = outputdircontent scenarioConfig (scenarioWorld []) scenarioLocalDir [47, 100, 47] 0 :=
  (gophermapLine_directives scenarioConfig (scenarioWorld []) scenarioLocalDir [47, 100, 47] 0
    [37, 102, 105, 108, 101, 115, 37] (by decide)).1 (by decide)

/-! ## Lemmas: `RemoveDoubleChar` reduces runs -/

theorem collapseRuns_cons (ch a : Nat) (x : List Nat) :
    collapseRuns ch (a :: x) =
      match x.head? with
      | none => [a]
      | some b => if a = ch ∧ b = ch then collapseRuns ch x else a :: collapseRuns ch x := by
  rcases x with _ | ⟨b, r⟩ <;> rfl

theorem collapseRuns_cons_congr (ch a : Nat) (x y : List Nat) (hh : x.head? = y.head?)
    (hc : collapseRuns ch x = collapseRuns ch y) :
    collapseRuns ch (a :: x) = collapseRuns ch (a :: y) := by
  rw [collapseRuns_cons, collapseRuns_cons, hh, hc]

theorem collapseRuns_eraseIdx (ch : Nat) : ∀ (i : Nat) (s : List Nat),
    [ch, ch] <+: s.drop i → collapseRuns ch (s.eraseIdx i) = collapseRuns ch s := by
  intro i
  induction i with
  | zero =>
    intro s h
    obtain ⟨t, ht⟩ := h
    rw [List.drop_zero] at ht
    subst ht
    show collapseRuns ch (ch :: t) = collapseRuns ch (ch :: ch :: t)
    rw [collapseRuns_cons ch ch (ch :: t)]
    simp
  | succ i ih =>
    intro s h
    rcases s with _ | ⟨a, s⟩
    · obtain ⟨t, ht⟩ := h
      simp at ht
    · rw [List.drop_succ_cons] at h
      rw [List.eraseIdx_cons_succ]
      exact collapseRuns_cons_congr ch a _ _ (eraseIdx_head_of_double ch s i h) (ih s h)

theorem collapseRuns_of_no_double (ch : Nat) : ∀ s : List Nat, ¬ [ch, ch] <:+: s →
    collapseRuns ch s = s := by
  intro s
  induction s with
  | nil => intro _; rfl
  | cons a s ih =>
    intro h
    have hs : ¬ [ch, ch] <:+: s := fun hi => h (List.infix_cons hi)
    rw [collapseRuns_cons]
    rcases s with _ | ⟨b, r⟩
    · rfl
    · simp only [List.head?_cons]
      have hab : ¬ (a = ch ∧ b = ch) := by
        rintro ⟨rfl, rfl⟩
        exact h ⟨[], r, rfl⟩
      rw [if_neg hab, ih hs]

theorem collapseRuns_loop (ch : Nat) : ∀ (fuel : Nat) (s : List Nat),
    collapseRuns ch (RemoveDoubleCharLoop ch fuel s) = collapseRuns ch s := by
  intro fuel
  induction fuel with
  | zero => intro s; rfl
  | succ fuel ih =>
    intro s
    rw [RemoveDoubleCharLoop_succ]
    cases h : strstr s [ch, ch] with
    | none => rfl
    | some occur =>
      simp only
      rw [ih, collapseRuns_eraseIdx ch occur s (strstr_some s _ occur h).2]

/-- `RemoveDoubleChar` computes the string with the runs of `ch` reduced to one byte. -/
theorem RemoveDoubleChar_eq_collapseRuns (s : List Nat) (ch : Nat) :
    RemoveDoubleChar s ch = collapseRuns ch s := by
  have h1 := collapseRuns_loop ch s.length s
  have h2 := collapseRuns_of_no_double ch _ (RemoveDoubleChar_no_double s ch)
  unfold RemoveDoubleChar at h2 ⊢
  rw [← h1, h2]

theorem collapseRuns_doubled (ch : Nat) (B : List Nat) : ∀ A : List Nat,
    collapseRuns ch (A ++ ch :: B) = collapseRuns ch (A ++ ch :: ch :: B) := by
  intro A
  induction A with
  | nil =>
    show collapseRuns ch (ch :: B) = collapseRuns ch (ch :: ch :: B)
    rw [collapseRuns_cons ch ch (ch :: B)]
    simp
  | cons a A ih =>
    rw [List.cons_append, List.cons_append]
    apply collapseRuns_cons_congr ch a _ _ _ ih
    rcases A with _ | ⟨b, A⟩ <;> rfl

theorem lastSlashIndex_snoc : ∀ (s : List Nat) (i : Nat) (last : Option Nat),
    lastSlashIndex (s ++ [47]) i last = some (i + s.length) := by
  intro s
  induction s with
  | nil => intro i last; rfl
  | cons c s ih =>
    intro i last
    show lastSlashIndex (s ++ [47]) (i + 1) (if c = 47 then some i else last) = _
    rw [ih]
    simp only [List.length_cons]
    congr 1
    omega

theorem getdirpart_snoc (A : List Nat) (hA : A ≠ []) : getdirpart (A ++ [47]) = A := by
  unfold getdirpart
  rw [lastSlashIndex_snoc]
  obtain ⟨k, hk⟩ : ∃ k, 0 + A.length = k + 1 :=
    ⟨A.length - 1, by have := List.length_pos.mpr hA; omega⟩
  rw [hk]
  simp only
  rw [← hk]
  simp

theorem getdirpart_slash : getdirpart [47] = [47] := rfl

/-- With or without the slash that ends the current directory, `computerelativepath`
gives the same path, as long as the glued string fits the buffer. -/
theorem computerelativepath_getdirpart (n : Nat) (d relpath : List Nat)
    (hlast : d.getLast? = some 47) (hfit : d.length + relpath.length + 2 ≤ n) :
    computerelativepath n (getdirpart d) relpath = computerelativepath n d relpath := by
  obtain ⟨A, rfl⟩ : ∃ A, d = A ++ [47] := by
    rcases List.eq_nil_or_concat d with h | ⟨A, x, h⟩
    · subst h; cases hlast
    · subst h
      rw [List.concat_eq_append, List.getLast?_append] at hlast
      simp at hlast
      subst hlast
      exact ⟨A, by simp⟩
  by_cases hA : A = []
  · subst hA; rfl
  · rw [getdirpart_snoc A hA]
    simp only [List.length_append, List.length_singleton] at hfit
    unfold computerelativepath
    have e1 : cTruncate n (A ++ [47] ++ relpath) = A ++ 47 :: relpath := by
      rw [cTruncate_of_le _ _ (by simp; omega)]
      simp
    have e2 : cTruncate n (A ++ [47] ++ [47] ++ relpath) = A ++ 47 :: 47 :: relpath := by
      rw [cTruncate_of_le _ _ (by simp; omega)]
      simp
    have e3 : RemoveDoubleChar (A ++ 47 :: relpath) 47
        = RemoveDoubleChar (A ++ 47 :: 47 :: relpath) 47 := by
      rw [RemoveDoubleChar_eq_collapseRuns, RemoveDoubleChar_eq_collapseRuns,
        collapseRuns_doubled]
    simp only [e1, e2, e3]

/-! ## Lemmas: what `computerelativepath` leaves in the path -/

theorem pair_infix_append (a b : Nat) : ∀ X Y : List Nat, [a, b] <:+: X ++ Y →
    [a, b] <:+: X ∨ [a, b] <:+: Y ∨ (X.getLast? = some a ∧ Y.head? = some b) := by
  intro X
  induction X with
  | nil => intro Y h; exact Or.inr (Or.inl h)
  | cons x X ih =>
    intro Y h
    rw [List.cons_append, List.infix_cons_iff] at h
    rcases h with h | h
    · obtain ⟨t, ht⟩ := h
      rcases X with _ | ⟨y, X⟩
      · right; right
        rcases Y with _ | ⟨z, Y⟩
        · simp at ht
        · simp only [List.nil_append, List.cons_append, List.cons.injEq] at ht
          obtain ⟨h1, h2, _⟩ := ht
          subst h1; subst h2
          exact ⟨rfl, rfl⟩
      · left
        simp only [List.cons_append, List.cons.injEq, List.nil_append] at ht
        obtain ⟨h1, h2, _⟩ := ht
        subst h1; subst h2
        exact ⟨[], X, rfl⟩
    · rcases ih Y h with h1 | h1 | ⟨h1, h2⟩
      · exact Or.inl (List.infix_cons h1)
      · exact Or.inr (Or.inl h1)
      · right; right
        refine ⟨?_, h2⟩
        rcases X with _ | ⟨y, X⟩
        · cases h1
        · rw [List.getLast?_cons_cons]; exact h1

theorem drop_of_getD (v : Nat) (hv : v ≠ 0) : ∀ (s : List Nat) (i : Nat), s.getD i 0 = v →
    ∃ rest, s.drop i = v :: rest := by
  intro s
  induction s with
  | nil => intro i h; simp at h; exact absurd h.symm hv
  | cons c s ih =>
    intro i h
    rcases i with _ | i
    · simp at h; subst h; exact ⟨s, rfl⟩
    · rw [List.getD_cons_succ] at h
      exact ih i h

theorem getLast?_snoc_of (l : List Nat) (a : Nat) (h : l.getLast? = some a) :
    ∃ init, l = init ++ [a] := by
  rcases List.eq_nil_or_concat l with hl | ⟨init, x, hl⟩
  · subst hl; cases h
  · subst hl
    rw [List.concat_eq_append, List.getLast?_append] at h
    simp at h
    subst h
    exact ⟨init, by simp⟩

theorem scanBackSlash_found (r : List Nat) : ∀ i,
    scanBackSlash r i = 0 ∨ r.getD (scanBackSlash r i) 0 = 47 := by
  intro i
  induction i with
  | zero => exact Or.inl rfl
  | succ i ih =>
    show (if r.getD (i + 1) 0 = 47 then i + 1 else scanBackSlash r i) = 0 ∨
      r.getD (if r.getD (i + 1) 0 = 47 then i + 1 else scanBackSlash r i) 0 = 47
    split_ifs with h
    · exact Or.inr h
    · exact ih

/-- One pass of the loop that removes `/../` keeps the string free of `//`. -/
theorem simplify_step_no_double (s : List Nat) (t ls : Nat)
    (hnd : ¬ [47, 47] <:+: s) (hls : ls = 0 ∨ s.getD ls 0 = 47) :
    ¬ [47, 47] <:+: s.take ls ++ s.drop (t + 3) := by
  intro h
  rcases pair_infix_append 47 47 _ _ h with h1 | h1 | ⟨h1, h2⟩
  · exact hnd (h1.trans (List.take_prefix _ _).isInfix)
  · exact hnd (h1.trans (List.drop_suffix _ _).isInfix)
  · rcases hls with h0 | h0
    · subst h0
      simp at h1
    · obtain ⟨init, hinit⟩ := getLast?_snoc_of _ _ h1
      obtain ⟨rest, hrest⟩ := drop_of_getD 47 (by decide) s ls h0
      apply hnd
      refine ⟨init, rest, ?_⟩
      have := List.take_append_drop ls s
      rw [hinit, hrest] at this
      rw [← this]
      simp

theorem simplifyDotDotLoop_no_double : ∀ (fuel : Nat) (s : List Nat), ¬ [47, 47] <:+: s →
    ¬ [47, 47] <:+: simplifyDotDotLoop fuel s := by
  intro fuel
  induction fuel with
  | zero => intro s h; exact h
  | succ fuel ih =>
    intro s h
    rw [simplifyDotDotLoop_succ]
    cases hs : strstr s [47, 46, 46, 47] with
    | none => exact h
    | some t =>
      simp only
      apply ih
      apply simplify_step_no_double s t _ h
      split_ifs
      · exact Or.inl rfl
      · exact scanBackSlash_found s (t - 1)

/-- With as many passes as the string has bytes, the loop that removes `/../` ends
because `strstr` finds nothing more. -/
theorem simplifyDotDotLoop_done : ∀ (fuel : Nat) (s : List Nat), s.length ≤ fuel →
    strstr (simplifyDotDotLoop fuel s) [47, 46, 46, 47] = none := by
  intro fuel
  induction fuel with
  | zero =>
    intro s hs
    have : s = [] := List.eq_nil_of_length_eq_zero (by omega)
    subst this
    rfl
  | succ fuel ih =>
    intro s hs
    rw [simplifyDotDotLoop_succ]
    cases h : strstr s [47, 46, 46, 47] with
    | none => exact h
    | some t =>
      simp only
      apply ih
      obtain ⟨hle, hpre⟩ := strstr_some s _ t h
      have h4 : 4 ≤ (s.drop t).length := by
        have := hpre.length_le
        simpa using this
      rw [List.length_drop] at h4
      have hls : (if t = 0 then 0 else scanBackSlash s (t - 1)) ≤ t := by
        split_ifs
        · omega
        · have := scanBackSlash_le s (t - 1); omega
      simp only [List.length_append, List.length_take, List.length_drop]
      omega

/-- Once the loop has ended, more passes change nothing. -/
theorem simplifyDotDotLoop_stable (s : List Nat) (h : strstr s [47, 46, 46, 47] = none) :
    ∀ fuel, simplifyDotDotLoop fuel s = s := by
  intro fuel
  rcases fuel with _ | fuel
  · rfl
  · rw [simplifyDotDotLoop_succ, h]

theorem strstr_none_of_not_infix (s needle : List Nat) (h : ¬ needle <:+: s) :
    strstr s needle = none := by
  cases hs : strstr s needle with
  | none => rfl
  | some i =>
    exfalso
    apply h
    exact (strstr_some s needle i hs).2.isInfix.trans (List.drop_suffix _ _).isInfix

theorem cutAfterLastSlash_prefix (r : List Nat) : ∀ x, cutAfterLastSlash r x <+: r := by
  intro x
  induction x with
  | zero => exact List.prefix_refl _
  | succ x ih =>
    show (if r.getD x 0 = 47 then r.take (x + 1) else cutAfterLastSlash r x) <+: r
    split_ifs
    · exact List.take_prefix _ _
    · exact ih

theorem cutAfterLastSlash_last (r : List Nat) (hr : r.head? = some 47) : ∀ x, 1 ≤ x →
    (cutAfterLastSlash r x).getLast? = some 47 := by
  intro x
  induction x with
  | zero => intro h; omega
  | succ x ih =>
    intro _
    show (if r.getD x 0 = 47 then r.take (x + 1) else cutAfterLastSlash r x).getLast? = some 47
    by_cases h : r.getD x 0 = 47
    · rw [if_pos h]
      obtain ⟨rest, hrest⟩ := drop_of_getD 47 (by decide) r x h
      have e : r.take (x + 1) = r.take x ++ [47] := by
        have h1 : r.take (x + 1) = r.take x ++ (r.drop x).take 1 := by
          rw [List.take_add]
        rw [h1, hrest]
        rfl
      rw [e]
      simp
    · rw [if_neg h]
      rcases x with _ | x
      · exfalso
        apply h
        rcases r with _ | ⟨a, r⟩
        · cases hr
        · simpa using hr
      · exact ih (by omega)

theorem not_suffix_of_last (r : List Nat) (h : r.getLast? = some 47) :
    ¬ [47, 46, 46] <:+ r := by
  rintro ⟨p, hp⟩
  rw [← hp] at h
  have e : p ++ [47, 46, 46] = (p ++ [47, 46]) ++ [46] := by simp
  rw [e, List.getLast?_append] at h
  simp at h

theorem getD_append_at (p : List Nat) (q : List Nat) (k : Nat) :
    (p ++ q).getD (p.length + k) 0 = q.getD k 0 := by
  induction p with
  | nil => simp
  | cons a p ih =>
    have : (a :: p).length + k = (p.length + k) + 1 := by simp; omega
    rw [List.cons_append, this, List.getD_cons_succ]
    exact ih

/-- What `computerelativepath` returns holds no `//`, no `/../`, and does not end with
`/..`, for a current directory that begins with `/`. -/
theorem computerelativepath_clean (n : Nat) (curdir relpath : List Nat) (hn : 2 ≤ n)
    (hc : curdir.head? = some 47) :
    ¬ [47, 47] <:+: computerelativepath n curdir relpath ∧
    ¬ [47, 46, 46, 47] <:+: computerelativepath n curdir relpath ∧
    ¬ [47, 46, 46] <:+ computerelativepath n curdir relpath := by
  have hg1 : (cTruncate n (curdir ++ [47] ++ relpath)).head? = some 47 := by
    unfold cTruncate
    obtain ⟨k, hk⟩ : ∃ k, n - 1 = k + 1 := ⟨n - 2, by omega⟩
    rw [hk, head?_take_succ]
    rcases curdir with _ | ⟨a, c⟩
    · cases hc
    · simpa using hc
  unfold computerelativepath
  dsimp only
  generalize cTruncate n (curdir ++ [47] ++ relpath) = glued at hg1
  have hd1 : (RemoveDoubleChar glued 47).head? = some 47 := by
    rw [RemoveDoubleChar_head]; exact hg1
  have hd2 := RemoveDoubleChar_no_double glued 47
  generalize RemoveDoubleChar glued 47 = nodouble at hd1 hd2
  have hs1 := (simplifyDotDotLoop_ok nodouble.length nodouble hd1).1
  have hs2 := simplifyDotDotLoop_no_double nodouble.length nodouble hd2
  have hs3 := strstr_none _ _ (simplifyDotDotLoop_done nodouble.length nodouble le_rfl)
  generalize simplifyDotDotLoop nodouble.length nodouble = result at hs1 hs2 hs3
  have pre : ∀ r : List Nat, r <+: result →
      ¬ [47, 47] <:+: r ∧ ¬ [47, 46, 46, 47] <:+: r :=
    fun r hr => ⟨fun h => hs2 (h.trans hr.isInfix), fun h => hs3 (h.trans hr.isInfix)⟩
  by_cases hlen : result.length < 3
  · rw [if_pos hlen]
    refine ⟨hs2, hs3, ?_⟩
    intro h
    have := h.length_le
    simp at this
    omega
  · rw [if_neg hlen]
    by_cases hcond : result.getD (result.length - 3) 0 = 47 ∧
        result.getD (result.length - 3 + 1) 0 = 46 ∧ result.getD (result.length - 3 + 2) 0 = 46
    · rw [if_pos hcond]
      by_cases hx : result.length - 3 = 0
      · rw [if_pos hx]
        obtain ⟨p1, p2⟩ := pre _ (List.take_prefix 1 result)
        refine ⟨p1, p2, ?_⟩
        intro h
        have := h.length_le
        simp at this
      · rw [if_neg hx]
        have hpre : cutAfterLastSlash (result.take (result.length - 3)) (result.length - 3)
            <+: result :=
          ( cutAfterLastSlash_prefix _ _).trans (List.take_prefix _ _)
        obtain ⟨p1, p2⟩ := pre _ hpre
        refine ⟨p1, p2, ?_⟩
        apply not_suffix_of_last
        apply cutAfterLastSlash_last _ _ _ (by omega)
        obtain ⟨k, hk⟩ : ∃ k, result.length - 3 = k + 1 := ⟨result.length - 3 - 1, by omega⟩
        rw [hk, head?_take_succ]
        exact hs1
    · rw [if_neg hcond]
      refine ⟨hs2, hs3, ?_⟩
      rintro ⟨p, hp⟩
      apply hcond
      have hl : result.length - 3 = p.length := by
        rw [← hp]; simp
      rw [hl, ← hp]
      refine ⟨?_, ?_, ?_⟩
      · exact getD_append_at p [47, 46, 46] 0
      · exact getD_append_at p [47, 46, 46] 1
      · exact getD_append_at p [47, 46, 46] 2

/-! ## Properties of the specification: readers, listing, dispatch, paths -/

/-! ### Line readers -/

set_option maxRecDepth 100000 in
/-- C21, as stated, fails: of a gophermap line of 1023 bytes the reader of
`outputgophermap`, which calls `sockreadline` with the limit 1023, returns the first 1022
bytes only. -/
theorem gophermap_reader_truncates_counterexample :
    sockreadline 1023 (List.replicate 1023 97 ++ [10]) = (some (List.replicate 1022 97), []) ∧
      (List.replicate 1023 97).length ≤ 4095 := by
  decide

/-- C21, amended. The reader of `outputgophermap` returns the first 1022 bytes of a line
(the bytes before the LF with every CR removed), so it returns the whole line when this
has at most 1022 bytes, and the gophermap engine works on these bytes; the reader of the
output of a gophermap script (`execCgi`) returns the first 4095 bytes, so a whole line of
at most 4095 bytes. -/
theorem gophermap_reader_limit (line rest : List Nat) (hl : ∀ c ∈ line, c ≠ 10) :
    sockreadline 1023 (line ++ 10 :: rest)
        = (some ((line.filter (fun c => c != 13)).take 1022), rest) ∧
      ((line.filter (fun c => c != 13)).length ≤ 1022 →
        sockreadline 1023 (line ++ 10 :: rest) = (some (line.filter (fun c => c != 13)), rest)) ∧
      (∀ (config : MotsognirConfig) (world : World) (localfile directorytolist : List Nat)
        (fuel : Nat),
        gophermapLoop config world localfile directorytolist (fuel + 1) (line ++ 10 :: rest)
          = gophermapLine config world localfile directorytolist fuel
              (cstr ((line.filter (fun c => c != 13)).take 1022))
            ++ gophermapLoop config world localfile directorytolist fuel rest) ∧
      ((line.filter (fun c => c != 13)).length ≤ 4095 →
        sockreadline 4096 (line ++ 10 :: rest) = (some (line.filter (fun c => c != 13)), rest)) := by
  have h1 := sockreadline_line 1023 line rest hl
  have h2 := sockreadline_line 4096 line rest hl
  refine ⟨h1, ?_, ?_, ?_⟩
  · intro hlen
    rw [h1, List.take_of_length_le hlen]
  · intro config world localfile directorytolist fuel
    rw [gophermapLoop_succ, h1]
  · intro hlen
    rw [h2, List.take_of_length_le (by omega)]

/-- Witness for C21 amended: the line `iHi<CR>` followed by LF is read as `iHi`. -/
theorem gophermap_reader_limit_witness :
    sockreadline 1023 ([105, 72, 105, 13] ++ 10 :: [49]) = (some [105, 72, 105], [49]) :=
  ((gophermap_reader_limit [105, 72, 105, 13] [49] (by decide)).2.1 (by decide)).trans
    (by decide)

/-! ### Directory listing -/

theorem stringendswith_ne_zero_iff (s e : List Nat) : stringendswith s e ≠ 0 ↔ e <:+ s := by
  unfold stringendswith
  by_cases h1 : s.length < e.length
  · rw [if_pos h1]
    constructor
    · intro h; exact absurd rfl h
    · intro h
      have := h.length_le
      omega
  · rw [if_neg h1]
    by_cases h2 : e.length = 0
    · rw [if_pos h2]
      have : e = [] := List.eq_nil_of_length_eq_zero h2
      subst this
      simp
    · rw [if_neg h2]
      constructor
      · intro h
        by_cases h3 : s.drop (s.length - e.length) = e
        · rw [← h3]; exact List.drop_suffix _ _
        · rw [if_neg h3] at h; exact absurd rfl h
      · intro h
        obtain ⟨p, hp⟩ := h
        have h3 : s.drop (s.length - e.length) = e := by
          rw [← hp]
          simp
        rw [if_pos h3]
        decide

theorem lastComponent_iff (file name : List Nat) (hn : 47 ∉ name) :
    (47 :: name) <:+ file ↔ 47 ∈ file ∧ lastComponent file = name := by
  have hp : ∀ c ∈ name.reverse, (fun c => c != 47) c = true := by
    intro c hc
    have : c ≠ 47 := fun e => hn (by rw [← e]; exact List.mem_reverse.mp hc)
    simp [this]
  constructor
  · rintro ⟨p, rfl⟩
    refine ⟨by simp, ?_⟩
    unfold lastComponent
    have e : (p ++ 47 :: name).reverse = name.reverse ++ 47 :: p.reverse := by simp
    rw [e, List.takeWhile_append_of_pos hp]
    simp [List.takeWhile_cons]
  · rintro ⟨hm, hl⟩
    unfold lastComponent at hl
    have hsplit := List.takeWhile_append_dropWhile (fun c => c != 47) file.reverse
    have hdne : file.reverse.dropWhile (fun c => c != 47) ≠ [] := by
      intro hnil
      have hall := List.dropWhile_eq_nil_iff.mp hnil
      have := hall 47 (List.mem_reverse.mpr hm)
      simp at this
    rcases hd : file.reverse.dropWhile (fun c => c != 47) with _ | ⟨x, r⟩
    · exact absurd hd hdne
    · have hx : x = 47 := by
        have := List.head_dropWhile_not (fun c => c != 47) file.reverse (by rw [hd]; simp)
        simp only [hd, List.head_cons] at this
        simpa using this
      subst hx
      rw [hd] at hsplit
      have hrev : file = r.reverse ++ 47 :: (file.reverse.takeWhile (fun c => c != 47)).reverse := by
        have := congrArg List.reverse hsplit
        simp only [List.reverse_append, List.reverse_cons, List.reverse_reverse,
          List.append_assoc, List.singleton_append] at this
        exact this.symm
      rw [hl] at hrev
      exact ⟨r.reverse, hrev.symm⟩

/-- C23. `islocalfileagophermap` answers non-zero exactly for the paths that contain a
`/` and whose last component is `gophermap`, `gophermap.cgi` or `gophermap.php`, and for
such a path the file branch of `main` answers with the two not-found lines and `.`,
whatever the file, the configuration and the mode bits are. -/
theorem gophermap_never_served (config : MotsognirConfig) (world : World) (env : FileEnv)
    (localfile : List Nat) :
    (islocalfileagophermap localfile ≠ 0 ↔
      (47 ∈ localfile ∧ (lastComponent localfile = gophermapName ∨
        lastComponent localfile = gophermapCgiName ∨
        lastComponent localfile = gophermapPhpName))) ∧
    (islocalfileagophermap localfile ≠ 0 →
      fileDispatcher config world env localfile
        = FileAnswer.lines [notFoundLine1, notFoundLine2, [46]]) := by
  constructor
  · have h1 := lastComponent_iff localfile gophermapName (by decide)
    have h2 := lastComponent_iff localfile gophermapCgiName (by decide)
    have h3 := lastComponent_iff localfile gophermapPhpName (by decide)
    have e1 := stringendswith_ne_zero_iff localfile (47 :: gophermapName)
    have e2 := stringendswith_ne_zero_iff localfile (47 :: gophermapCgiName)
    have e3 := stringendswith_ne_zero_iff localfile (47 :: gophermapPhpName)
    unfold islocalfileagophermap
    constructor
    · intro h
      by_cases hc : stringendswith localfile (47 :: gophermapName) ≠ 0 ∨
          stringendswith localfile (47 :: gophermapCgiName) ≠ 0 ∨
          stringendswith localfile (47 :: gophermapPhpName) ≠ 0
      · rcases hc with hc | hc | hc
        · have := h1.mp (e1.mp hc); exact ⟨this.1, Or.inl this.2⟩
        · have := h2.mp (e2.mp hc); exact ⟨this.1, Or.inr (Or.inl this.2)⟩
        · have := h3.mp (e3.mp hc); exact ⟨this.1, Or.inr (Or.inr this.2)⟩
      · exact absurd (if_neg hc) h
    · rintro ⟨hm, hl⟩
      have hc : stringendswith localfile (47 :: gophermapName) ≠ 0 ∨
          stringendswith localfile (47 :: gophermapCgiName) ≠ 0 ∨
          stringendswith localfile (47 :: gophermapPhpName) ≠ 0 := by
        rcases hl with hl | hl | hl
        · exact Or.inl (e1.mpr (h1.mpr ⟨hm, hl⟩))
        · exact Or.inr (Or.inl (e2.mpr (h2.mpr ⟨hm, hl⟩)))
        · exact Or.inr (Or.inr (e3.mpr (h3.mpr ⟨hm, hl⟩)))
      have : (if stringendswith localfile (47 :: gophermapName) ≠ 0 ∨
          stringendswith localfile (47 :: gophermapCgiName) ≠ 0 ∨
          stringendswith localfile (47 :: gophermapPhpName) ≠ 0 then 1 else 0) = 1 := if_pos hc
      exact fun h0 => by
        have h5 : (1 : Nat) = 0 := this.symm.trans h0
        omega
  · intro h
    unfold fileDispatcher
    rw [if_pos (Or.inr h)]

/-- Witness for C23: the existing file `/srv/gopher/d/gophermap` of scenario 3 is
answered with the not-found lines. -/
theorem gophermap_never_served_witness :
    fexist (scenarioWorld []) scenarioGophermapPath = 1 ∧
      fileDispatcher scenarioConfig (scenarioWorld []) ⟨0, fun _ => none⟩ scenarioGophermapPath
        = FileAnswer.lines [notFoundLine1, notFoundLine2, [46]] :=
  ⟨by decide, (gophermap_never_served scenarioConfig (scenarioWorld []) ⟨0, fun _ => none⟩
    scenarioGophermapPath).2 (by decide)⟩

/-! ### Gopher+ fallback -/

/-- C24, as stated, fails: for hostname `example.org` and port 70 the block sent by
`sendbackgopherplushack` has seven lines, not five. -/
theorem gopherplus_block_counterexample :
    sendbackgopherplushack scenarioConfig
      = [[43, 45, 49],
         [43, 73, 78, 70, 79, 58, 32, 49, 77, 97, 105, 110, 32, 109, 101, 110, 117, 32, 40, 110,
           111, 110, 45, 103, 111, 112, 104, 101, 114, 43, 41, 9, 9, 101, 120, 97, 109, 112, 108,
           101, 46, 111, 114, 103, 9, 55, 48],
         [43, 86, 73, 69, 87, 83, 58],
         [32, 97, 112, 112, 108, 105, 99, 97, 116, 105, 111, 110, 47, 103, 111, 112, 104, 101,
           114, 43, 45, 109, 101, 110, 117, 58, 32, 60, 53, 49, 50, 98, 62],
         [43, 65, 66, 83, 84, 82, 65, 67, 84, 58],
         [32, 84, 104, 105, 115, 32, 103, 111, 112, 104, 101, 114, 32, 115, 117, 112, 112, 111,
           114, 116, 115, 32, 115, 116, 97, 110, 100, 97, 114, 100, 32, 103, 111, 112, 104, 101,
           114, 32, 97, 99, 99, 101, 115, 115, 32, 111, 110, 108, 121, 46],
         [46]] ∧
    (sendbackgopherplushack scenarioConfig).length ≠ 5 := by
  decide

/-- C24, amended. The selector `<TAB>$` is answered with the block of
`sendbackgopherplushack`, which for every configuration has exactly seven lines, the
first being `+-1`, the third to sixth being fixed, and the last being `.`; only the
second line (`+INFO`) depends on the configuration. -/
theorem gopherplus_block (config : MotsognirConfig) (securldelim : Nat) :
    selectorPipeline securldelim [9, 36] = PipelineOutcome.gopherPlus ∧
    requestlookslikegopherplus [9, 36] ≠ 0 ∧
    (sendbackgopherplushack config).length = 7 ∧
    (sendbackgopherplushack config).head? = some [43, 45, 49] ∧
    (sendbackgopherplushack config).getLast? = some [46] ∧
    (sendbackgopherplushack config).drop 2 = (sendbackgopherplushack scenarioConfig).drop 2 :=
  ⟨rfl, by decide, rfl, rfl, rfl, rfl⟩

/-! ### The gophermap line parser -/

/-- What `explodegophermapline` returns for a line whose fields are within the limits of
its reading loops. -/
theorem explodegophermapline_of_limits (tmpstring : List Nat) (itemtype : Nat) (l : List Nat)
    (h0 : ∀ f, nthField l 0 = some f → f.length ≤ 1022)
    (h1 : ∀ f, nthField l 1 = some f → f.length ≤ 1022)
    (h2 : ∀ f, nthField l 2 = some f → f.length ≤ 62)
    (h3 : ∀ f, nthField l 3 = some f → f.length ≤ 7) :
    explodegophermapline tmpstring (itemtype :: l)
      = some ⟨itemtype, (nthField l 0).getD [], (nthField l 1).getD [], (nthField l 2).getD [],
          portOfField tmpstring (nthField l 3)⟩ := by
  rw [explodegophermapline_cons]
  have hl0 : (l.takeWhile (fun c => c != 9)).length < 1023 := by
    have := h0 _ (nthField_zero l); omega
  cases hd0 : l.dropWhile (fun c => c != 9) with
  | nil =>
    rw [readField_nul 1023 l hl0 hd0, nthField_zero, nthField_succ_nil l 0 hd0,
      nthField_succ_nil l 1 hd0, nthField_succ_nil l 2 hd0]
    rfl
  | cons x0 l2 =>
    rw [readField_tab 1023 l x0 l2 hl0 hd0]
    simp only
    have e1 : ∀ k, nthField l (k + 1) = nthField l2 k := fun k => nthField_succ_cons l k x0 l2 hd0
    rw [e1 0] at h1
    rw [e1 1] at h2
    rw [e1 2] at h3
    rw [e1 0, e1 1, e1 2, nthField_zero]
    have hl1 : (l2.takeWhile (fun c => c != 9)).length < 1023 := by
      have := h1 _ (nthField_zero l2); omega
    cases hd1 : l2.dropWhile (fun c => c != 9) with
    | nil =>
      rw [readField_nul 1023 l2 hl1 hd1, nthField_zero, nthField_succ_nil l2 0 hd1,
        nthField_succ_nil l2 1 hd1]
      rfl
    | cons x1 l3 =>
      rw [readField_tab 1023 l2 x1 l3 hl1 hd1]
      simp only
      have e2 : ∀ k, nthField l2 (k + 1) = nthField l3 k :=
        fun k => nthField_succ_cons l2 k x1 l3 hd1
      rw [e2 0] at h2
      rw [e2 1] at h3
      rw [e2 0, e2 1, nthField_zero]
      have hl2 : (l3.takeWhile (fun c => c != 9)).length < 63 := by
        have := h2 _ (nthField_zero l3); omega
      cases hd2 : l3.dropWhile (fun c => c != 9) with
      | nil =>
        rw [readField_nul 63 l3 hl2 hd2, nthField_zero, nthField_succ_nil l3 0 hd2]
        rfl
      | cons x2 l4 =>
        rw [readField_tab 63 l3 x2 l4 hl2 hd2]
        simp only
        rw [nthField_succ_cons l3 0 x2 l4 hd2] at h3
        rw [nthField_succ_cons l3 0 x2 l4 hd2, nthField_zero, nthField_zero]
        have hl3 : (l4.takeWhile (fun c => c != 9)).length < 8 := by
          have := h3 _ (nthField_zero l4); omega
        cases hd3 : l4.dropWhile (fun c => c != 9) with
        | nil =>
          rw [readField_nul 8 l4 hl3 hd3]
          rfl
        | cons x3 l5 =>
          rw [readField_tab 8 l4 x3 l5 hl3 hd3]
          rfl

theorem atolDigits_eq_foldl : ∀ (f : List Nat) (acc : Nat), (∀ c ∈ f, 48 ≤ c ∧ c ≤ 57) →
    atolDigits f acc = f.foldl (fun a c => a * 10 + (c - 48)) acc := by
  intro f
  induction f with
  | nil => intro acc _; rfl
  | cons c f ih =>
    intro acc h
    rw [atolDigits_cons, if_pos (h c (List.mem_cons_self _ _)), List.foldl_cons]
    exact ih _ (fun x hx => h x (List.mem_cons_of_mem _ hx))

/-- On a port field made of digits, `atol` with the range test is the reference port. -/
theorem portOfString_digits (f : List Nat) (hne : f ≠ []) (hd : ∀ c ∈ f, 48 ≤ c ∧ c ≤ 57) :
    portOfString f = referencePort f := by
  have hat : atol f = (decimalValue f : Int) := by
    rcases f with _ | ⟨c, rest⟩
    · exact absurd rfl hne
    · rw [atol_of_digit_head c rest (hd c (List.mem_cons_self _ _)),
        atolDigits_eq_foldl _ 0 hd]
      rfl
  unfold portOfString referencePort
  rw [hat]
  by_cases hr : 1 ≤ decimalValue f ∧ decimalValue f ≤ 65535
  · rw [if_neg (by omega), if_pos ⟨hne, hd, hr.1, hr.2⟩]
  · rw [if_pos (by omega), if_neg (fun h => hr ⟨h.2.2.1, h.2.2.2⟩)]

/-- C25, as stated, fails: the port field `70abc` gives the port 70 and the port field
` 70` (with a leading space) gives 70 as well, where the reference parse gives 0; and for
a port field that is present but empty the port is read from the uninitialised buffer. -/
theorem explodegophermapline_port_counterexample :
    (explodegophermapline [] [49, 100, 9, 47, 9, 104, 111, 115, 116, 9, 55, 48, 97, 98, 99]
        = some ⟨49, [100], [47], [104, 111, 115, 116], 70⟩ ∧
      referenceParse [49, 100, 9, 47, 9, 104, 111, 115, 116, 9, 55, 48, 97, 98, 99]
        = ⟨49, [100], [47], [104, 111, 115, 116], 0⟩) ∧
    (explodegophermapline [] [49, 100, 9, 47, 9, 104, 111, 115, 116, 9, 32, 55, 48]
        = some ⟨49, [100], [47], [104, 111, 115, 116], 70⟩ ∧
      referenceParse [49, 100, 9, 47, 9, 104, 111, 115, 116, 9, 32, 55, 48]
        = ⟨49, [100], [47], [104, 111, 115, 116], 0⟩) ∧
    (explodegophermapline [56, 48, 56, 48]
        [48, 82, 101, 97, 100, 109, 101, 9, 114, 101, 97, 100, 109, 101, 46, 116, 120, 116, 9, 9]
        = some ⟨48, [82, 101, 97, 100, 109, 101],
            [114, 101, 97, 100, 109, 101, 46, 116, 120, 116], [], 8080⟩ ∧
      referenceParse
        [48, 82, 101, 97, 100, 109, 101, 9, 114, 101, 97, 100, 109, 101, 46, 116, 120, 116, 9, 9]
        = ⟨48, [82, 101, 97, 100, 109, 101],
            [114, 101, 97, 100, 109, 101, 46, 116, 120, 116], [], 0⟩) := by
  decide

/-- C25, amended. For a line whose fields are within the limits of the parser and whose
port field is absent or not empty, `explodegophermapline` returns the first byte as item
type and the TAB-separated parts that follow as description, selector, server and port,
missing fields being empty; the port is `atol` of the port field (white space and a sign
are skipped, then the leading digits are read) when that value lies in 1..65535, and 0
otherwise.  When the port field is made of digits only, or is absent, this is the
reference parse; the empty line gives the item type `i` with all fields empty. -/
theorem explodegophermapline_parse (tmpstring : List Nat) (itemtype : Nat) (l : List Nat)
    (h0 : ∀ f, nthField l 0 = some f → f.length ≤ 1022)
    (h1 : ∀ f, nthField l 1 = some f → f.length ≤ 1022)
    (h2 : ∀ f, nthField l 2 = some f → f.length ≤ 62)
    (h3 : ∀ f, nthField l 3 = some f → f.length ≤ 7)
    (hport : nthField l 3 ≠ some []) :
    explodegophermapline tmpstring (itemtype :: l)
        = some ⟨itemtype, (nthField l 0).getD [], (nthField l 1).getD [],
            (nthField l 2).getD [], fieldPort (nthField l 3)⟩ ∧
      ((∀ f, nthField l 3 = some f → ∀ c ∈ f, 48 ≤ c ∧ c ≤ 57) →
        explodegophermapline tmpstring (itemtype :: l) = some (referenceParse (itemtype :: l))) ∧
      explodegophermapline tmpstring [] = some (referenceParse []) := by
  have hmain := explodegophermapline_of_limits tmpstring itemtype l h0 h1 h2 h3
  have hp : portOfField tmpstring (nthField l 3) = fieldPort (nthField l 3) := by
    cases hf : nthField l 3 with
    | none => rfl
    | some f =>
      have hne : f ≠ [] := fun e => hport (by rw [hf, e])
      show portOfString (if f = [] then tmpstring else f) = portOfString f
      rw [if_neg hne]
  rw [hp] at hmain
  refine ⟨hmain, ?_, rfl⟩
  intro hd
  rw [hmain]
  congr 1
  show _ = (⟨itemtype, (nthField l 0).getD [], (nthField l 1).getD [], (nthField l 2).getD [],
    referencePort ((nthField l 3).getD [])⟩ : GophermapItem)
  congr 1
  cases hf : nthField l 3 with
  | none => rfl
  | some f =>
    have hne : f ≠ [] := fun e => hport (by rw [hf, e])
    show portOfString f = referencePort f
    exact portOfString_digits f hne (hd f hf)

/-- Witness for C25 amended: the line `1d<TAB>/<TAB>host<TAB>8070`. -/
theorem explodegophermapline_parse_witness :
    explodegophermapline [57] [49, 100, 9, 47, 9, 104, 111, 115, 116, 9, 56, 48, 55, 48]
      = some ⟨49, [100], [47], [104, 111, 115, 116], 8070⟩ :=
  ((explodegophermapline_parse [57] 49 [100, 9, 47, 9, 104, 111, 115, 116, 9, 56, 48, 55, 48]
    (by decide) (by decide) (by decide) (by decide) (by decide)).2.1 (by decide)).trans
    (by decide)

/-! ### Path simplification -/

theorem simplifyDotDotLoop_nil : ∀ fuel, simplifyDotDotLoop fuel [] = [] := by
  intro fuel
  rcases fuel with _ | fuel <;> rfl

theorem simplifyDotDotLoop_more : ∀ (fuel : Nat) (s : List Nat), s.length ≤ fuel →
    ∀ extra, simplifyDotDotLoop (fuel + extra) s = simplifyDotDotLoop fuel s := by
  intro fuel
  induction fuel with
  | zero =>
    intro s hs extra
    have : s = [] := List.eq_nil_of_length_eq_zero (by omega)
    subst this
    rw [simplifyDotDotLoop_nil, simplifyDotDotLoop_nil]
  | succ fuel ih =>
    intro s hs extra
    have e : fuel + 1 + extra = (fuel + extra) + 1 := by omega
    rw [e, simplifyDotDotLoop_succ, simplifyDotDotLoop_succ]
    cases h : strstr s [47, 46, 46, 47] with
    | none => rfl
    | some t =>
      simp only
      apply ih
      obtain ⟨hle, hpre⟩ := strstr_some s _ t h
      have h4 : 4 ≤ (s.drop t).length := by
        have := hpre.length_le
        simpa using this
      rw [List.length_drop] at h4
      have hls : (if t = 0 then 0 else scanBackSlash s (t - 1)) ≤ t := by
        split_ifs
        · omega
        · have := scanBackSlash_le s (t - 1); omega
      simp only [List.length_append, List.length_take, List.length_drop]
      omega

theorem RemoveDoubleCharLoop_nil (ch : Nat) : ∀ fuel, RemoveDoubleCharLoop ch fuel [] = [] := by
  intro fuel
  rcases fuel with _ | fuel <;> rfl

theorem RemoveDoubleCharLoop_more (ch : Nat) : ∀ (fuel : Nat) (s : List Nat), s.length ≤ fuel →
    ∀ extra, RemoveDoubleCharLoop ch (fuel + extra) s = RemoveDoubleCharLoop ch fuel s := by
  intro fuel
  induction fuel with
  | zero =>
    intro s hs extra
    have : s = [] := List.eq_nil_of_length_eq_zero (by omega)
    subst this
    rw [RemoveDoubleCharLoop_nil, RemoveDoubleCharLoop_nil]
  | succ fuel ih =>
    intro s hs extra
    have e : fuel + 1 + extra = (fuel + extra) + 1 := by omega
    rw [e, RemoveDoubleCharLoop_succ, RemoveDoubleCharLoop_succ]
    cases h : strstr s [ch, ch] with
    | none => rfl
    | some occur =>
      simp only
      apply ih
      have hlt := strstr_some_lt s _ occur h (by simp)
      rw [List.length_eraseIdx, if_pos hlt]
      omega

/-- C26. For a current directory that begins with `/` and any relative selector,
`computerelativepath` ends (both of its loops stop because `strstr` finds nothing more,
and more passes would change nothing) and the path it leaves begins with `/`, holds no
`//` and no `/../`, and does not end with `/..`; `/a` joined with `../../b` gives `/b`. -/
theorem computerelativepath_canonical (result_maxlen : Nat) (curdir relpath : List Nat)
    (hn : 2 ≤ result_maxlen) (hc : curdir.head? = some 47) :
    ((computerelativepath result_maxlen curdir relpath).head? = some 47 ∧
      ¬ [47, 47] <:+: computerelativepath result_maxlen curdir relpath ∧
      ¬ [47, 46, 46, 47] <:+: computerelativepath result_maxlen curdir relpath ∧
      ¬ [47, 46, 46] <:+ computerelativepath result_maxlen curdir relpath) ∧
    (∀ s : List Nat,
      strstr (RemoveDoubleChar s 47) [47, 47] = none ∧
      strstr (simplifyDotDotLoop s.length s) [47, 46, 46, 47] = none ∧
      ∀ extra, RemoveDoubleCharLoop 47 (s.length + extra) s = RemoveDoubleChar s 47 ∧
        simplifyDotDotLoop (s.length + extra) s = simplifyDotDotLoop s.length s) ∧
    computerelativepath 1024 [47, 97] [46, 46, 47, 46, 46, 47, 98] = [47, 98] := by
  obtain ⟨c1, c2, c3⟩ := computerelativepath_clean result_maxlen curdir relpath hn hc
  refine ⟨⟨(computerelativepath_ok result_maxlen curdir relpath hn hc).1, c1, c2, c3⟩, ?_,
    by decide⟩
  intro s
  refine ⟨RemoveDoubleCharLoop_done 47 s.length s le_rfl,
    simplifyDotDotLoop_done s.length s le_rfl, fun extra => ⟨?_, ?_⟩⟩
  · exact RemoveDoubleCharLoop_more 47 s.length s le_rfl extra
  · exact simplifyDotDotLoop_more s.length s le_rfl extra

/-- Witness for C26: `/d/sub` joined with `../x/..` gives `/d/`. -/
theorem computerelativepath_canonical_witness :
    computerelativepath 1024 [47, 100, 47, 115, 117, 98] [46, 46, 47, 120, 47, 46, 46]
        = [47, 100, 47] ∧
      (computerelativepath 1024 [47, 100, 47, 115, 117, 98]
          [46, 46, 47, 120, 47, 46, 46]).head? = some 47 :=
  ⟨by decide, (computerelativepath_canonical 1024 [47, 100, 47, 115, 117, 98]
    [46, 46, 47, 120, 47, 46, 46] (by decide) (by decide)).1.1⟩

/-! ### Order of the directory entries -/

theorem strcasecmp_nil_cons (b : Nat) (s : List Nat) :
    strcasecmp [] (b :: s) = 0 - (tolower b : Int) := rfl

theorem strcasecmp_cons_nil (a : Nat) (s : List Nat) :
    strcasecmp (a :: s) [] = (tolower a : Int) := rfl

theorem strcasecmp_swap (a : List Nat) : ∀ b : List Nat, strcasecmp b a = - strcasecmp a b := by
  induction a with
  | nil =>
    intro b
    rcases b with _ | ⟨y, b⟩
    · rfl
    · rw [strcasecmp_nil_cons, strcasecmp_cons_nil]; omega
  | cons x a ih =>
    intro b
    rcases b with _ | ⟨y, b⟩
    · rw [strcasecmp_nil_cons, strcasecmp_cons_nil]; omega
    · rw [strcasecmp_cons_cons, strcasecmp_cons_cons]
      by_cases h : tolower x = tolower y
      · rw [if_neg (by simp [h]), if_neg (by simp [h]), ih b]
      · rw [if_pos (fun e => h e.symm), if_pos h]
        omega

theorem strcasecmp_trans (a : List Nat) : ∀ b c : List Nat, 0 ∉ a → 0 ∉ b → 0 ∉ c →
    strcasecmp a b ≤ 0 → strcasecmp b c ≤ 0 →
    strcasecmp a c ≤ 0 ∧ (strcasecmp a b < 0 ∨ strcasecmp b c < 0 → strcasecmp a c < 0) := by
  induction a with
  | nil =>
    intro b c _ hb hc h1 h2
    rcases c with _ | ⟨z, c⟩
    · rcases b with _ | ⟨y, b⟩
      · exact ⟨le_refl _, fun h => by rcases h with h | h <;> exact absurd h (by decide)⟩
      · rw [strcasecmp_cons_nil] at h2
        have hy : y ≠ 0 := fun e => hb (by simp [e])
        have := tolower_pos y hy
        omega
    · have hz : z ≠ 0 := fun e => hc (by simp [e])
      have := tolower_pos z hz
      rw [strcasecmp_nil_cons]
      constructor
      · omega
      · intro _; omega
  | cons x a ih =>
    intro b c ha hb hc h1 h2
    have hx : x ≠ 0 := fun e => ha (by simp [e])
    have hxp := tolower_pos x hx
    rcases b with _ | ⟨y, b⟩
    · rw [strcasecmp_cons_nil] at h1; omega
    · have hy : y ≠ 0 := fun e => hb (by simp [e])
      have hyp := tolower_pos y hy
      rcases c with _ | ⟨z, c⟩
      · rw [strcasecmp_cons_nil] at h2; omega
      · rw [strcasecmp_cons_cons] at h1 h2 ⊢
        by_cases hxy : tolower x = tolower y
        · rw [if_neg (by simp [hxy])] at h1
          by_cases hyz : tolower y = tolower z
          · rw [if_neg (by simp [hyz])] at h2
            rw [if_neg (by simp [hxy, hyz])]
            have := ih b c (fun h => ha (by simp [h])) (fun h => hb (by simp [h]))
              (fun h => hc (by simp [h])) h1 h2
            refine ⟨this.1, fun h => this.2 ?_⟩
            rcases h with h | h
            · rw [strcasecmp_cons_cons, if_neg (by simp [hxy])] at h; exact Or.inl h
            · rw [strcasecmp_cons_cons, if_neg (by simp [hyz])] at h; exact Or.inr h
          · rw [if_pos hyz] at h2
            rw [if_pos (by rw [hxy]; exact hyz)]
            constructor
            · omega
            · intro _; omega
        · rw [if_pos hxy] at h1
          by_cases hyz : tolower y = tolower z
          · rw [if_pos (by rw [← hyz]; exact hxy)]
            constructor
            · omega
            · intro _; omega
          · rw [if_pos hyz] at h2
            have hxz : tolower x ≠ tolower z := by omega
            rw [if_pos hxz]
            constructor
            · omega
            · intro _; omega

theorem motsognir_dirsort_dir_file (a b : DirEntry) (ha : a.isDir = true)
    (hb : b.isDir = false) : motsognir_dirsort a b = -1 := by
  unfold motsognir_dirsort
  rw [if_pos ⟨ha, by simp [hb]⟩]

theorem motsognir_dirsort_file_dir (a b : DirEntry) (ha : a.isDir = false)
    (hb : b.isDir = true) : motsognir_dirsort a b = 1 := by
  unfold motsognir_dirsort
  rw [if_neg (by simp [ha]), if_pos ⟨by simp [ha], hb⟩]

theorem motsognir_dirsort_same (a b : DirEntry) (h : a.isDir = b.isDir) :
    motsognir_dirsort a b = strcasecmp a.d_name b.d_name := by
  unfold motsognir_dirsort
  cases hb : b.isDir
  · rw [hb] at h
    rw [if_neg (by simp [h]), if_neg (by simp)]
  · rw [hb] at h
    rw [if_neg (by simp), if_neg (by simp [h])]

/-- C27. `motsognir_dirsort` puts directories first and compares names without regard to
case: it is negative for a directory against a non-directory, positive the other way
round, and `strcasecmp` of the names for two entries of the same kind; swapping the
arguments negates the result; and on names that are C strings the order is transitive. -/
theorem motsognir_dirsort_ordering (a b c : DirEntry)
    (ha : 0 ∉ a.d_name) (hb : 0 ∉ b.d_name) (hc : 0 ∉ c.d_name) :
    (a.isDir = true → b.isDir = false → motsognir_dirsort a b < 0) ∧
    (a.isDir = false → b.isDir = true → 0 < motsognir_dirsort a b) ∧
    (a.isDir = b.isDir → motsognir_dirsort a b = strcasecmp a.d_name b.d_name) ∧
    (a.isDir = b.isDir → (motsognir_dirsort a b = 0 ↔ EqIgnoringCase a.d_name b.d_name)) ∧
    motsognir_dirsort b a = - motsognir_dirsort a b ∧
    (motsognir_dirsort a b ≤ 0 → motsognir_dirsort b c ≤ 0 → motsognir_dirsort a c ≤ 0) ∧
    (motsognir_dirsort a b < 0 → motsognir_dirsort b c < 0 → motsognir_dirsort a c < 0) := by
  have hsw := strcasecmp_swap a.d_name b.d_name
  have htr := strcasecmp_trans a.d_name b.d_name c.d_name ha hb hc
  have heq := strcasecmp_eq_zero_iff a.d_name b.d_name ha hb
  refine ⟨?_, ?_, motsognir_dirsort_same a b, ?_, ?_, ?_, ?_⟩
  · intro h1 h2
    rw [motsognir_dirsort_dir_file a b h1 h2]
    decide
  · intro h1 h2
    rw [motsognir_dirsort_file_dir a b h1 h2]
    decide
  · intro h
    rw [motsognir_dirsort_same a b h]
    exact heq
  · cases hda : a.isDir <;> cases hdb : b.isDir
    · rw [motsognir_dirsort_same a b (by rw [hda, hdb]),
        motsognir_dirsort_same b a (by rw [hda, hdb])]
      exact hsw
    · rw [motsognir_dirsort_file_dir a b hda hdb, motsognir_dirsort_dir_file b a hdb hda]
    · rw [motsognir_dirsort_dir_file a b hda hdb, motsognir_dirsort_file_dir b a hdb hda]
      decide
    · rw [motsognir_dirsort_same a b (by rw [hda, hdb]),
        motsognir_dirsort_same b a (by rw [hda, hdb])]
      exact hsw
  · intro h1 h2
    cases hda : a.isDir <;> cases hdb : b.isDir <;> cases hdc : c.isDir
    · rw [motsognir_dirsort_same a b (by rw [hda, hdb])] at h1
      rw [motsognir_dirsort_same b c (by rw [hdb, hdc])] at h2
      rw [motsognir_dirsort_same a c (by rw [hda, hdc])]
      exact (htr h1 h2).1
    · rw [motsognir_dirsort_file_dir b c hdb hdc] at h2; omega
    · rw [motsognir_dirsort_file_dir a b hda hdb] at h1; omega
    · rw [motsognir_dirsort_file_dir a b hda hdb] at h1; omega
    · rw [motsognir_dirsort_dir_file a c hda hdc]; decide
    · rw [motsognir_dirsort_file_dir b c hdb hdc] at h2; omega
    · rw [motsognir_dirsort_dir_file a c hda hdc]; decide
    · rw [motsognir_dirsort_same a b (by rw [hda, hdb])] at h1
      rw [motsognir_dirsort_same b c (by rw [hdb, hdc])] at h2
      rw [motsognir_dirsort_same a c (by rw [hda, hdc])]
      exact (htr h1 h2).1
  · intro h1 h2
    cases hda : a.isDir <;> cases hdb : b.isDir <;> cases hdc : c.isDir
    · rw [motsognir_dirsort_same a b (by rw [hda, hdb])] at h1
      rw [motsognir_dirsort_same b c (by rw [hdb, hdc])] at h2
      rw [motsognir_dirsort_same a c (by rw [hda, hdc])]
      exact (htr (by omega) (by omega)).2 (Or.inl h1)
    · rw [motsognir_dirsort_file_dir b c hdb hdc] at h2; omega
    · rw [motsognir_dirsort_file_dir a b hda hdb] at h1; omega
    · rw [motsognir_dirsort_file_dir a b hda hdb] at h1; omega
    · rw [motsognir_dirsort_dir_file a c hda hdc]; decide
    · rw [motsognir_dirsort_file_dir b c hdb hdc] at h2; omega
    · rw [motsognir_dirsort_dir_file a c hda hdc]; decide
    · rw [motsognir_dirsort_same a b (by rw [hda, hdb])] at h1
      rw [motsognir_dirsort_same b c (by rw [hdb, hdc])] at h2
      rw [motsognir_dirsort_same a c (by rw [hda, hdc])]
      exact (htr (by omega) (by omega)).2 (Or.inl h1)

/-- Witness for C27: the directory `b`, the file `A` and the file `a.txt`. -/
theorem motsognir_dirsort_ordering_witness :
    motsognir_dirsort ⟨[98], true⟩ ⟨[65], false⟩ < 0 ∧
      motsognir_dirsort ⟨[65], false⟩ ⟨[97, 46, 116, 120, 116], false⟩ < 0 ∧
      motsognir_dirsort ⟨[98], true⟩ ⟨[97, 46, 116, 120, 116], false⟩ < 0 :=
  ⟨by decide, by decide,
    (motsognir_dirsort_ordering ⟨[98], true⟩ ⟨[65], false⟩ ⟨[97, 46, 116, 120, 116], false⟩
      (by decide) (by decide) (by decide)).2.2.2.2.2.2 (by decide) (by decide)⟩

/-! ### General percent round trip -/

set_option maxRecDepth 100000 in
theorem escape_round_trip : ∀ c, c < 256 →
    ¬ hex2int (upperHexDigit (c / 16)) < 0 ∧ ¬ hex2int (upperHexDigit (c % 16)) < 0 ∧
    ((hex2int (upperHexDigit (c / 16))).toNat <<< 4 |||
      (hex2int (upperHexDigit (c % 16))).toNat) % 256 = c ∧
    (c ≠ 0 → ¬ (upperHexDigit (c / 16) = 48 ∧ upperHexDigit (c % 16) = 48)) := by
  decide

theorem percdecode_referenceEncode (s : List Nat) (hs : IsCString s) :
    percdecode (referenceEncode s) = some s := by
  induction s with
  | nil => rfl
  | cons c s ih =>
    have hc := hs c (List.mem_cons_self _ _)
    have ih1 := ih (fun b hb => hs b (List.mem_cons_of_mem _ hb))
    rw [referenceEncode_cons]
    cases hu : isUnreserved c
    · simp only [Bool.false_eq_true, if_false, List.cons_append, List.nil_append]
      obtain ⟨h1, h2, h3, h4⟩ := escape_round_trip c hc.2
      rw [percdecode_escape, if_neg (h4 (by omega)), if_neg (by tauto), ih1, h3]
      rfl
    · simp only [if_true, List.cons_append, List.nil_append]
      obtain ⟨_, h37, h43, _⟩ := unreserved_lt c hu
      rw [percdecode_cons_ne c _ h37, ih1, if_neg h43]
      rfl

/-! ### The split loses nothing -/

theorem getD_at_length (p : List Nat) (x : Nat) (u : List Nat) :
    (p ++ x :: u).getD p.length 0 = x := by
  induction p with
  | nil => rfl
  | cons a p ih => simpa using ih

theorem takeWhile_no_tab (r : List Nat) (h : 9 ∉ r) : r.takeWhile (fun c => c != 9) = r := by
  apply List.takeWhile_eq_self_iff.mpr
  intro c hc
  have : c ≠ 9 := fun e => h (e ▸ hc)
  simp [this]

/-- C29. For a selector with at most one TAB and a delimiter other than TAB, the path,
the separator byte found at the end of the path (`?` or the delimiter) with `url_query`,
and a TAB with `search_query`, put together give the selector back byte for byte. -/
theorem split_lossless (d : Nat) (s : List Nat) (hd : d ≠ 9) (hs : IsCString s)
    (htab : s.count 9 ≤ 1) :
    rejoin (s.getD (explode_serverside_params_from_query s d).path.length 0)
        (explode_serverside_params_from_query s d) = s ∧
      ((explode_serverside_params_from_query s d).url_query ≠ none →
        s.getD (explode_serverside_params_from_query s d).path.length 0 = 63 ∨
        (d ≠ 0 ∧ s.getD (explode_serverside_params_from_query s d).path.length 0 = d)) := by
  have h0 : ∀ l : List Nat, (∀ c ∈ l, c ∈ s) → 0 ∉ l := by
    intro l hl hm
    have := (hs 0 (hl 0 hm)).1
    omega
  have hsep : ∀ x, x ∈ s → (x = 63 ∨ x = d) → x = 63 ∨ (d ≠ 0 ∧ x = d) := by
    intro x hx h
    rcases h with h | h
    · exact Or.inl h
    · right
      have := (hs x hx).1
      exact ⟨by omega, h⟩
  rcases split_first (fun c => c = 9) s with hnt | ⟨h, t, r, rfl, ht, hh⟩
  · rcases split_first (fun c => c = 63 ∨ c = d) s with hns | ⟨p, x, u, rfl, hx, hp⟩
    · have hp : ∀ c ∈ s, c ≠ 9 ∧ c ≠ 63 ∧ c ≠ d := fun c hc =>
        ⟨hnt c hc, fun e => hns c hc (Or.inl e), fun e => hns c hc (Or.inr e)⟩
      rw [explode_plain d s hp (h0 s (fun _ h => h))]
      refine ⟨by simp [rejoin], fun h => absurd rfl h⟩
    · have hp1 : ∀ c ∈ p, c ≠ 9 ∧ c ≠ 63 ∧ c ≠ d := fun c hc =>
        ⟨hnt c (by simp [hc]), fun e => hp c hc (Or.inl e), fun e => hp c hc (Or.inr e)⟩
      have hx9 : x ≠ 9 := hnt x (by simp)
      have hu : ∀ c ∈ u, c ≠ 9 := fun c hc => hnt c (by simp [hc])
      rw [explode_url d p u x hp1 hx9 hx hu (h0 p (fun c hc => by simp [hc]))
          (h0 u (fun c hc => by simp [hc]))]
      simp only
      rw [getD_at_length]
      refine ⟨by simp [rejoin], fun _ => hsep x (by simp) hx⟩
  · have ht9 : t = 9 := ht
    subst ht9
    have hr9 : 9 ∉ r := by
      intro hm
      have h1 : 1 ≤ r.count 9 := List.count_pos_iff.mpr hm
      have h2 : (h ++ 9 :: r).count 9 = h.count 9 + (1 + r.count 9) := by
        rw [List.count_append, List.count_cons_self]
        omega
      omega
    rcases split_first (fun c => c = 63 ∨ c = d) h with hns | ⟨p, x, u, rfl, hx, hp⟩
    · have hp : ∀ c ∈ h, c ≠ 9 ∧ c ≠ 63 ∧ c ≠ d := fun c hc =>
        ⟨hh c hc, fun e => hns c hc (Or.inl e), fun e => hns c hc (Or.inr e)⟩
      rw [explode_search d h r hd hp (h0 h (fun c hc => by simp [hc]))
          (h0 r (fun c hc => by simp [hc])), takeWhile_no_tab r hr9]
      refine ⟨by simp [rejoin], fun h => absurd rfl h⟩
    · have hp1 : ∀ c ∈ p, c ≠ 9 ∧ c ≠ 63 ∧ c ≠ d := fun c hc =>
        ⟨hh c (by simp [hc]), fun e => hp c hc (Or.inl e), fun e => hp c hc (Or.inr e)⟩
      have hx9 : x ≠ 9 := hh x (by simp)
      have hu : ∀ c ∈ u, c ≠ 9 := fun c hc => hh c (by simp [hc])
      have es : (p ++ x :: u) ++ 9 :: r = p ++ x :: (u ++ 9 :: r) := by simp
      rw [es, explode_both d p u r x hp1 hx9 hx hu (h0 p (fun c hc => by simp [hc]))
          (h0 u (fun c hc => by simp [hc])) (h0 r (fun c hc => by simp [hc])),
        takeWhile_no_tab r hr9]
      simp only
      rw [getD_at_length]
      refine ⟨by simp [rejoin], fun _ => hsep x (by simp) hx⟩

/-- Witness for C29: the selector `/a?b%20c<TAB>d+e` with the delimiter disabled; both
queries come out undecoded. -/
theorem split_lossless_witness :
    explode_serverside_params_from_query
        [47, 97, 63, 98, 37, 50, 48, 99, 9, 100, 43, 101] 0
      = ⟨[47, 97], some [98, 37, 50, 48, 99], some [100, 43, 101]⟩ ∧
    rejoin ([47, 97, 63, 98, 37, 50, 48, 99, 9, 100, 43, 101].getD
          (explode_serverside_params_from_query
            [47, 97, 63, 98, 37, 50, 48, 99, 9, 100, 43, 101] 0).path.length 0)
        (explode_serverside_params_from_query
          [47, 97, 63, 98, 37, 50, 48, 99, 9, 100, 43, 101] 0)
      = [47, 97, 63, 98, 37, 50, 48, 99, 9, 100, 43, 101] :=
  ⟨by decide, (split_lossless 0 [47, 97, 63, 98, 37, 50, 48, 99, 9, 100, 43, 101] (by decide)
    (by decide) (by decide)).1⟩

/-! ### Static and dynamic gophermaps -/

/-- C30. For a directory selector `d` that ends with `/` and a selector short enough for
the glued path `d/selector` to fit the 1024-byte buffer, `buildgophermapline` builds the
same line with the current directory `getdirpart d`, as `execCgi` passes it for the
output of a script, and with the current directory `d`, as `outputgophermap` passes it
for a gophermap file. -/
theorem buildgophermapline_getdirpart (linebuff_len itemtype : Nat)
    (desc selector server : List Nat) (port : Int) (d : List Nat) (config : MotsognirConfig)
    (hhead : d.head? = some 47) (hlast : d.getLast? = some 47)
    (hfit : d.length + selector.length + 2 ≤ 1024) :
    buildgophermapline linebuff_len itemtype desc selector server port (getdirpart d) config
      = buildgophermapline linebuff_len itemtype desc selector server port d config ∧
    (getdirpart d).head? = some 47 := by
  constructor
  · unfold buildgophermapline resolvedSelector
    rw [computerelativepath_getdirpart 1024 d selector hlast hfit]
  · obtain ⟨A, hA⟩ := getLast?_snoc_of d 47 hlast
    subst hA
    by_cases hnil : A = []
    · subst hnil; rfl
    · rw [getdirpart_snoc A hnil]
      rcases A with _ | ⟨a, A⟩
      · exact absurd rfl hnil
      · simpa using hhead

/-- Witness for C30: the item `0Readme<TAB>readme.txt` in the directory `/d/`. -/
theorem buildgophermapline_getdirpart_witness :
    buildgophermapline 4096 48 [82, 101, 97, 100, 109, 101]
        [114, 101, 97, 100, 109, 101, 46, 116, 120, 116] [] 0 (getdirpart [47, 100, 47])
        scenarioConfig
      = buildgophermapline 4096 48 [82, 101, 97, 100, 109, 101]
        [114, 101, 97, 100, 109, 101, 46, 116, 120, 116] [] 0 [47, 100, 47] scenarioConfig :=
  (buildgophermapline_getdirpart 4096 48 [82, 101, 97, 100, 109, 101]
    [114, 101, 97, 100, 109, 101, 46, 116, 120, 116] [] 0 [47, 100, 47] scenarioConfig
    (by decide) (by decide) (by decide)).1

/-! ## Lemmas: where `percencode` stops -/

theorem percencodeLoop_nil (dstmaxlen : Nat) (dst : List Nat) :
    percencodeLoop dstmaxlen [] dst = dst := rfl

theorem referenceEncode_nil : referenceEncode [] = [] := rfl

theorem percencodeLoop_step (dstmaxlen c : Nat) (src dst : List Nat) (hc : c < 256)
    (hg : ¬ dst.length + 4 ≥ dstmaxlen) :
    percencodeLoop dstmaxlen (c :: src) dst
      = percencodeLoop dstmaxlen src (dst ++ referenceEncode [c]) := by
  rw [percencodeLoop_cons, encodingrequired_spec, if_neg hg, referenceEncode_cons,
    referenceEncode_nil, List.append_nil]
  cases hu : isUnreserved c
  · simp only [Bool.not_false, Bool.true_eq_false, if_false, Bool.false_eq_true]
    rw [hexchar_high c hc, hexchar_low c hc]
  · simp only [Bool.not_true, if_true]

theorem referenceEncode_single_pos (c : Nat) : 0 < (referenceEncode [c]).length := by
  rw [referenceEncode_cons, referenceEncode_nil]
  cases isUnreserved c <;> simp

theorem referenceEncode_append_single (c : Nat) (s : List Nat) :
    referenceEncode (c :: s) = referenceEncode [c] ++ referenceEncode s := by
  rw [referenceEncode_cons, referenceEncode_cons, referenceEncode_nil, List.append_nil]

theorem referenceEncode_append (a b : List Nat) :
    referenceEncode (a ++ b) = referenceEncode a ++ referenceEncode b := by
  induction a with
  | nil => rfl
  | cons c a ih =>
    rw [List.cons_append, referenceEncode_cons, referenceEncode_cons, ih, List.append_assoc]

/-- What `percencode` writes is the encoding of the first `k` bytes of its input, and it
reaches the end of the input exactly when, in front of the last byte, more than four
bytes of the buffer are left. -/
theorem percencodeLoop_take (dstmaxlen : Nat) (src : List Nat) : ∀ dst : List Nat,
    (∀ b ∈ src, b < 256) →
    ∃ k, k ≤ src.length ∧
      percencodeLoop dstmaxlen src dst = dst ++ referenceEncode (src.take k) ∧
      (k = src.length ↔
        (src = [] ∨ dst.length + (referenceEncode src.dropLast).length + 4 < dstmaxlen)) := by
  induction src with
  | nil =>
    intro dst _
    exact ⟨0, le_refl _, by rw [percencodeLoop_nil]; simp [referenceEncode_nil], by simp⟩
  | cons c src ih =>
    intro dst hb
    have hc : c < 256 := hb c (by simp)
    have hsrc : ∀ b ∈ src, b < 256 := fun b hb1 => hb b (by simp [hb1])
    by_cases hg : dst.length + 4 ≥ dstmaxlen
    · refine ⟨0, Nat.zero_le _, ?_, ?_⟩
      · rw [percencodeLoop_cons, if_pos hg]
        simp [referenceEncode_nil]
      · constructor
        · intro h; simp at h
        · rintro (h | h)
          · cases h
          · omega
    · obtain ⟨k, hk, heq, hiff⟩ := ih (dst ++ referenceEncode [c]) hsrc
      refine ⟨k + 1, by simp; omega, ?_, ?_⟩
      · rw [percencodeLoop_step dstmaxlen c src dst hc hg, heq, List.take_succ_cons,
          referenceEncode_append_single c (src.take k), List.append_assoc]
      · rw [List.length_cons, Nat.add_right_cancel_iff, hiff]
        rcases src with _ | ⟨s0, s1⟩
        · simp only [true_or, List.dropLast_single, referenceEncode_nil, List.length_nil,
            Nat.add_zero, true_iff]
          right
          omega
        · have e : (c :: s0 :: s1).dropLast = c :: (s0 :: s1).dropLast := rfl
          have e2 : (referenceEncode (c :: (s0 :: s1).dropLast)).length
              = (referenceEncode [c]).length + (referenceEncode (s0 :: s1).dropLast).length := by
            rw [referenceEncode_append_single c ((s0 :: s1).dropLast), List.length_append]
          rw [e, e2, List.length_append]
          simp only [reduceCtorEq, false_or]
          constructor <;> intro h <;> omega

/-- The output of `percencode` is the reference encoding exactly when the input is empty
or the encoding of all bytes but the last leaves more than four bytes of the buffer. -/
theorem percencode_eq_reference_iff (src : List Nat) (dstmaxlen : Nat)
    (hb : ∀ b ∈ src, b < 256) :
    percencode src dstmaxlen = referenceEncode src ↔
      (src = [] ∨ (referenceEncode src.dropLast).length + 4 < dstmaxlen) := by
  obtain ⟨k, hk, heq, hiff⟩ := percencodeLoop_take dstmaxlen src [] hb
  simp only [List.length_nil, Nat.zero_add, List.nil_append] at heq hiff
  unfold percencode
  rw [heq, ← hiff]
  constructor
  · intro h
    by_contra hne
    have hlt : k < src.length := by omega
    have hlen := congrArg List.length h
    have hsplit : referenceEncode src
        = referenceEncode (src.take k) ++ referenceEncode (src.drop k) := by
      rw [← referenceEncode_append, List.take_append_drop]
    rw [hsplit, List.length_append] at hlen
    rcases hd : src.drop k with _ | ⟨x, r⟩
    · have := congrArg List.length hd
      simp at this
      omega
    · rw [hd, referenceEncode_append_single x r, List.length_append] at hlen
      have := referenceEncode_single_pos x
      omega
  · intro h
    rw [h, List.take_length]

theorem percencode_is_take (src : List Nat) (dstmaxlen : Nat) (hb : ∀ b ∈ src, b < 256) :
    ∃ k, k ≤ src.length ∧ percencode src dstmaxlen = referenceEncode (src.take k) ∧
      (k = src.length ↔
        (src = [] ∨ (referenceEncode src.dropLast).length + 4 < dstmaxlen)) := by
  obtain ⟨k, hk, heq, hiff⟩ := percencodeLoop_take dstmaxlen src [] hb
  simp only [List.length_nil, Nat.zero_add, List.nil_append] at heq hiff
  exact ⟨k, hk, heq, hiff⟩

/-- The round trip through `percencode` and `percdecode` gives the string back exactly
when `percencode` reaches the end of its input. -/
theorem round_trip_iff (s : List Nat) (dstmaxlen : Nat) (hs : IsCString s) :
    percdecode (percencode s dstmaxlen) = some s ↔
      (s = [] ∨ (referenceEncode s.dropLast).length + 4 < dstmaxlen) := by
  obtain ⟨k, hk, heq, hiff⟩ := percencode_is_take s dstmaxlen (fun b hb => (hs b hb).2)
  have hcs : IsCString (s.take k) := fun b hb => hs b (List.mem_of_mem_take hb)
  rw [heq, percdecode_referenceEncode (s.take k) hcs, ← hiff]
  constructor
  · intro h
    have h1 : s.take k = s := Option.some.inj h
    have := congrArg List.length h1
    rw [List.length_take] at this
    omega
  · intro h
    rw [h, List.take_length]

theorem referenceEncode_length_unreserved (s : List Nat)
    (h : ∀ b ∈ s, isUnreserved b = true) : (referenceEncode s).length = s.length := by
  rw [referenceEncode_unreserved s h]

/-! ## Lemmas: lines on the wire -/

theorem stripCr_snoc (l : List Nat) : stripCr (l ++ [13]) = l := by
  unfold stripCr
  rw [if_pos (by simp)]
  simp

/-- When no line handed to `sendline` holds an LF, the lines of the response are these
lines. -/
theorem responseLines_wireBytes : ∀ lines : List (List Nat), (∀ l ∈ lines, 10 ∉ l) →
    responseLines (wireBytes lines) = lines := by
  intro lines
  induction lines with
  | nil => intro _; rfl
  | cons l lines ih =>
    intro h
    have hl : ∀ c ∈ l ++ [13], c ≠ 10 := by
      intro c hc e
      rcases List.mem_append.mp hc with h1 | h1
      · exact h l (List.mem_cons_self _ _) (e ▸ h1)
      · simp at h1; omega
    have e : wireBytes (l :: lines) = (l ++ [13]) ++ 10 :: wireBytes lines := by
      simp [wireBytes, sendline]
    have ih1 := ih (fun x hx => h x (List.mem_cons_of_mem _ hx))
    unfold responseLines fileLines at ih1 ⊢
    rw [e, fileLinesAux_line _ _ [] hl, List.map_cons, List.nil_append, stripCr_snoc, ih1]

/-- The entries of a listing world are the entries it was built from. -/
theorem listingWorld_entries (entries : List DirEntry) (P : DirEntry → Prop)
    (h : ∀ e ∈ entries, P e) (path : List Nat) (es : List DirEntry)
    (hs : (listingWorld entries).scandir path = some es) : ∀ e ∈ es, P e := by
  have : es = entries := by
    simp only [listingWorld, Option.some.injEq] at hs
    exact hs.symm
  rw [this]
  exact h

/-! ## Lemmas: no CR and no LF in the lines of a menu -/

theorem mem_cstr (buf : List Nat) (x : Nat) (h : x ∈ cstr buf) : x ∈ buf :=
  (List.takeWhile_sublist _).subset h

theorem mem_cTruncate (n : Nat) (s : List Nat) (x : Nat) (h : x ∈ cTruncate n s) : x ∈ s :=
  List.mem_of_mem_take h

theorem fmtInt_bytes (p : Int) : ∀ c ∈ fmtInt p, c = 45 ∨ (48 ≤ c ∧ c ≤ 57) := by
  intro c hc
  unfold fmtInt at hc
  split_ifs at hc
  · rcases List.mem_cons.mp hc with h | h
    · exact Or.inl h
    · exact Or.inr (decimalAux_digits _ _ c h)
  · exact Or.inr (decimalAux_digits _ _ c hc)

theorem mem_menuLineText (x itemtype : Nat) (desc selector server : List Nat) (port : Int)
    (h : x ∈ menuLineText itemtype desc selector server port) :
    x = itemtype ∨ x ∈ desc ∨ x = 9 ∨ x ∈ selector ∨ x ∈ server ∨ x ∈ fmtInt port := by
  unfold menuLineText at h
  simp only [List.mem_cons, List.mem_append, List.mem_singleton, List.not_mem_nil,
    or_false] at h
  tauto

/-- A menu line holds neither CR nor LF when its type, description, selector and server
hold none of the two. -/
theorem menu_line_no_break (v : Nat) (hv : v = 10 ∨ v = 13)
    (size itemtype : Nat) (desc selector server : List Nat) (port : Int)
    (ht : itemtype ≠ v) (hd : v ∉ desc) (hs : v ∉ selector) (hsv : v ∉ server) :
    v ∉ cstr (cTruncate size (menuLineText itemtype desc selector server port)) := by
  intro h
  rcases mem_menuLineText v _ _ _ _ _ (mem_cTruncate _ _ _ (mem_cstr _ _ h))
    with h1 | h1 | h1 | h1 | h1 | h1
  · exact ht h1.symm
  · exact hd h1
  · omega
  · exact hs h1
  · exact hsv h1
  · rcases fmtInt_bytes port v h1 with h2 | h2 <;> omega

theorem sockreadlineLoop_no_break (v : Nat) (hv : v = 10 ∨ v = 13)
    (n : Nat) : ∀ (stream buf : List Nat) (got : Bool)
    (b rest : List Nat), sockreadlineLoop n stream buf got = (some b, rest) → v ∉ buf →
    v ∉ b := by
  intro stream
  induction stream with
  | nil =>
    intro buf got b rest h hbuf
    rw [sockreadlineLoop_nil] at h
    cases got
    · simp at h
    · simp only [if_true, Prod.mk.injEq, Option.some.injEq] at h
      rw [← h.1]; exact hbuf
  | cons ch stream ih =>
    intro buf got b rest h hbuf
    rw [sockreadlineLoop_cons] at h
    by_cases h13 : ch = 13
    · rw [if_pos h13] at h
      exact ih _ _ _ _ h hbuf
    · rw [if_neg h13] at h
      by_cases h10 : ch = 10
      · rw [if_pos h10] at h
        simp only [Prod.mk.injEq, Option.some.injEq] at h
        rw [← h.1]; exact hbuf
      · rw [if_neg h10] at h
        by_cases hroom : buf.length + 1 < n
        · rw [if_pos hroom] at h
          refine ih _ _ _ _ h ?_
          intro hm
          rcases List.mem_append.mp hm with h1 | h1
          · exact hbuf h1
          · simp at h1; omega
        · rw [if_neg hroom] at h
          exact ih _ _ _ _ h hbuf

theorem sockreadline_no_break (v : Nat) (hv : v = 10 ∨ v = 13)
    (n : Nat) (stream b rest : List Nat)
    (h : sockreadline n stream = (some b, rest)) : v ∉ b :=
  sockreadlineLoop_no_break v hv n stream [] false b rest h (by simp)

/-- The fields returned by `explodegophermapline` are made of bytes of the line. -/
theorem explodegophermapline_subset (tmpstring line : List Nat) (item : GophermapItem)
    (h : explodegophermapline tmpstring line = some item) :
    (∀ x ∈ item.itemdesc, x ∈ line) ∧ (∀ x ∈ item.itemselector, x ∈ line) ∧
    (∀ x ∈ item.itemserver, x ∈ line) := by
  have hnil : ∀ x ∈ ([] : List Nat), x ∈ line := fun x hx => absurd hx (List.not_mem_nil _)
  rcases line with _ | ⟨t, l1⟩
  · have : explodegophermapline tmpstring [] = some ⟨105, [], [], [], 0⟩ := rfl
    rw [this] at h
    cases h
    exact ⟨hnil, hnil, hnil⟩
  · rw [explodegophermapline_cons] at h
    have up1 : ∀ x ∈ l1, x ∈ t :: l1 := fun x hx => List.mem_cons_of_mem _ hx
    cases h1 : readField 1023 l1 [] with
    | overflow => rw [h1] at h; cases h
    | nul d =>
      rw [h1] at h
      cases h
      obtain ⟨e, -, -⟩ := readField_nul_inv _ _ _ h1
      subst e
      exact ⟨up1, hnil, hnil⟩
    | tab d l2 =>
      rw [h1] at h
      simp only at h
      obtain ⟨e, -, -⟩ := readField_tab_inv _ _ _ _ h1
      subst e
      have hD : ∀ x ∈ d, x ∈ t :: (d ++ 9 :: l2) :=
        fun x hx => up1 x (List.mem_append_left _ hx)
      have up2 : ∀ x ∈ l2, x ∈ t :: (d ++ 9 :: l2) :=
        fun x hx => up1 x (List.mem_append_right _ (List.mem_cons_of_mem _ hx))
      cases h2 : readField 1023 l2 [] with
      | overflow => rw [h2] at h; cases h
      | nul s =>
        rw [h2] at h
        cases h
        obtain ⟨e, -, -⟩ := readField_nul_inv _ _ _ h2
        subst e
        exact ⟨hD, up2, hnil⟩
      | tab s l3 =>
        rw [h2] at h
        simp only at h
        obtain ⟨e, -, -⟩ := readField_tab_inv _ _ _ _ h2
        subst e
        have hS : ∀ x ∈ s, x ∈ t :: (d ++ 9 :: (s ++ 9 :: l3)) :=
          fun x hx => up2 x (List.mem_append_left _ hx)
        have up3 : ∀ x ∈ l3, x ∈ t :: (d ++ 9 :: (s ++ 9 :: l3)) :=
          fun x hx => up2 x (List.mem_append_right _ (List.mem_cons_of_mem _ hx))
        cases h3 : readField 63 l3 [] with
        | overflow => rw [h3] at h; cases h
        | nul sv =>
          rw [h3] at h
          cases h
          obtain ⟨e, -, -⟩ := readField_nul_inv _ _ _ h3
          subst e
          exact ⟨hD, hS, up3⟩
        | tab sv l4 =>
          rw [h3] at h
          simp only at h
          obtain ⟨e, -, -⟩ := readField_tab_inv _ _ _ _ h3
          subst e
          have hV : ∀ x ∈ sv, x ∈ t :: (d ++ 9 :: (s ++ 9 :: (sv ++ 9 :: l4))) :=
            fun x hx => up3 x (List.mem_append_left _ hx)
          cases h4 : readField 8 l4 [] with
          | overflow => rw [h4] at h; cases h
          | nul p => rw [h4] at h; cases h; exact ⟨hD, hS, hV⟩
          | tab p l5 => rw [h4] at h; cases h; exact ⟨hD, hS, hV⟩

theorem simplifyDotDotLoop_subset : ∀ (fuel : Nat) (r : List Nat),
    ∀ b ∈ simplifyDotDotLoop fuel r, b ∈ r := by
  intro fuel
  induction fuel with
  | zero => intro r b h; exact h
  | succ fuel ih =>
    intro r b h
    rw [simplifyDotDotLoop_succ] at h
    cases hs : strstr r [47, 46, 46, 47] with
    | none => rw [hs] at h; exact h
    | some t =>
      rw [hs] at h
      simp only at h
      have := ih _ b h
      rcases List.mem_append.mp this with h1 | h1
      · exact List.mem_of_mem_take h1
      · exact List.mem_of_mem_drop h1

/-- The path built by `computerelativepath` is made of bytes of the current directory,
of the relative path, and `/`. -/
theorem computerelativepath_subset (n : Nat) (curdir relpath : List Nat) :
    ∀ b ∈ computerelativepath n curdir relpath, b ∈ curdir ∨ b = 47 ∨ b ∈ relpath := by
  have hg : ∀ b ∈ cTruncate n (curdir ++ [47] ++ relpath), b ∈ curdir ∨ b = 47 ∨ b ∈ relpath := by
    intro b hb
    have := mem_cTruncate _ _ _ hb
    simp only [List.mem_append, List.mem_singleton] at this
    tauto
  unfold computerelativepath
  dsimp only
  generalize cTruncate n (curdir ++ [47] ++ relpath) = glued at hg
  have hd : ∀ b ∈ RemoveDoubleChar glued 47, b ∈ glued :=
    fun b hb => (RemoveDoubleChar_sublist glued 47).subset hb
  generalize RemoveDoubleChar glued 47 = nodouble at hd
  have hs := simplifyDotDotLoop_subset nodouble.length nodouble
  generalize simplifyDotDotLoop nodouble.length nodouble = result at hs
  have base : ∀ r : List Nat, r <+: result → ∀ b ∈ r, b ∈ curdir ∨ b = 47 ∨ b ∈ relpath :=
    fun r hr b hb => hg b (hd b (hs b (hr.subset hb)))
  split_ifs
  · exact base _ (List.prefix_refl _)
  · exact base _ (List.take_prefix _ _)
  · exact base _ (( cutAfterLastSlash_prefix _ _).trans (List.take_prefix _ _))
  · exact base _ (List.prefix_refl _)

theorem mem_getdirpart (s : List Nat) : ∀ b ∈ getdirpart s, b ∈ s ∨ b = 46 ∨ b = 47 := by
  intro b hb
  unfold getdirpart at hb
  split at hb
  · simp at hb; exact Or.inr (Or.inl hb)
  · simp at hb; exact Or.inr (Or.inr hb)
  · exact Or.inl (List.mem_of_mem_take hb)

theorem mem_defaultedServer (server : List Nat) (port : Int) (config : MotsognirConfig) :
    ∀ b ∈ defaultedServer server port config, b ∈ server ∨ b ∈ config.gopherhostname := by
  intro b hb
  unfold defaultedServer at hb
  split_ifs at hb
  · exact Or.inr hb
  · exact Or.inl hb
  · exact Or.inr hb
  · exact Or.inl hb

theorem mem_resolvedSelector (itemtype : Nat) (selector itemserver curdirectory : List Nat)
    (config : MotsognirConfig) :
    ∀ b ∈ resolvedSelector itemtype selector itemserver curdirectory config,
      b ∈ selector ∨ b ∈ curdirectory ∨ b = 47 := by
  intro b hb
  unfold resolvedSelector at hb
  split_ifs at hb
  · rcases computerelativepath_subset _ _ _ b hb with h | h | h
    · exact Or.inr (Or.inl h)
    · exact Or.inr (Or.inr h)
    · exact Or.inl h
  · exact Or.inl (mem_cTruncate _ _ _ hb)

/-- The line built from a parsed line holds neither CR nor LF, when the line, the current
directory and the hostname hold none of the two. -/
theorem built_line_no_break (v : Nat) (hv : v = 10 ∨ v = 13)
    (tmpstring line : List Nat) (item : GophermapItem)
    (curdir : List Nat) (config : MotsognirConfig)
    (h : explodegophermapline tmpstring line = some item) (hl : v ∉ line)
    (hcur : v ∉ curdir) (hhost : v ∉ config.gopherhostname) :
    v ∉ cstr (buildgophermapline 4096 item.itemtype item.itemdesc item.itemselector
      item.itemserver item.itemport curdir config) := by
  obtain ⟨hd, hs, hsv⟩ := explodegophermapline_subset tmpstring line item h
  have ht : item.itemtype ≠ v := by
    rw [(explodegophermapline_desc tmpstring line item h).2.2]
    rcases line with _ | ⟨t, l⟩
    · rcases hv with rfl | rfl <;> decide
    · intro e
      simp only [List.head?_cons, Option.getD_some] at e
      exact hl (by simp [e])
  unfold buildgophermapline
  apply menu_line_no_break v hv 4096 _ _ _ _ _ ht (fun hm => hl (hd v hm))
  · intro hm
    rcases mem_resolvedSelector _ _ _ _ _ v hm with h1 | h1 | h1
    · exact hl (hs v h1)
    · exact hcur h1
    · omega
  · intro hm
    rcases mem_defaultedServer _ _ _ v hm with h1 | h1
    · exact hl (hsv v h1)
    · exact hhost h1

theorem hexchar_getD_no_break (v : Nat) (hv : v = 10 ∨ v = 13)
    (i : Nat) : hexchar.getD i 0 ≠ v := by
  by_cases h : i < 16
  · have : ∀ j, j < 16 → hexchar.getD j 0 ≠ 10 ∧ hexchar.getD j 0 ≠ 13 := by decide
    have := this i h
    omega
  · have : hexchar.getD i 0 = 0 := by
      rw [List.getD_eq_default]
      simp [hexchar]
      omega
    omega

theorem percencodeLoop_no_break (v : Nat) (hv : v = 10 ∨ v = 13)
    (dstmaxlen : Nat) : ∀ (src dst : List Nat), v ∉ dst →
    v ∉ percencodeLoop dstmaxlen src dst := by
  intro src
  induction src with
  | nil => intro dst h; exact h
  | cons c src ih =>
    intro dst h
    rw [percencodeLoop_cons]
    split_ifs with h1 h2
    · exact h
    · apply ih
      intro hm
      rcases List.mem_append.mp hm with h3 | h3
      · exact h h3
      · simp at h3
        rw [← h3] at h2
        rcases hv with rfl | rfl <;> exact absurd h2 (by decide)
    · apply ih
      intro hm
      rcases List.mem_append.mp hm with h3 | h3
      · exact h h3
      · simp only [List.mem_cons, List.not_mem_nil, or_false] at h3
        rcases h3 with h3 | h3 | h3
        · omega
        · exact hexchar_getD_no_break v hv _ h3.symm
        · exact hexchar_getD_no_break v hv _ h3.symm

theorem percencode_no_break (v : Nat) (hv : v = 10 ∨ v = 13)
    (src : List Nat) (dstmaxlen : Nat) : v ∉ percencode src dstmaxlen :=
  percencodeLoop_no_break v hv dstmaxlen src [] (by simp)

theorem dirEntryLine_no_break (v : Nat) (hv : v = 10 ∨ v = 13)
    (config : MotsognirConfig) (directorytolist : List Nat)
    (dirsonly : Int) (e : DirEntry) (hn : v ∉ e.d_name) (hhost : v ∉ config.gopherhostname)
    (hext : ∀ ext, config.extmap_lookup ext ≠ v) (l : List Nat)
    (h : dirEntryLine config directorytolist dirsonly e = some l) : v ∉ l := by
  unfold dirEntryLine at h
  split_ifs at h
  all_goals
    dsimp only at h
    simp only [Option.some.injEq] at h
    rw [← h]
    refine menu_line_no_break v hv 2048 _ _ _ _ _ ?_ hn (percencode_no_break v hv _ _) hhost
    first
      | exact hext _
      | omega

theorem outputdircontent_no_break (v : Nat) (hv : v = 10 ∨ v = 13)
    (config : MotsognirConfig) (world : World)
    (localfile directorytolist : List Nat) (dirsonly : Int) (hw : WorldNamesAvoid v world)
    (hhost : v ∉ config.gopherhostname) (hext : ∀ ext, config.extmap_lookup ext ≠ v) :
    ∀ l ∈ outputdircontent config world localfile directorytolist dirsonly, v ∉ l := by
  intro l hl
  unfold outputdircontent at hl
  split_ifs at hl with ho
  · simp only [List.mem_singleton] at hl
    subst hl; rcases hv with rfl | rfl <;> decide
  · cases hs : world.scandir localfile with
    | none => rw [hs] at hl; cases hl
    | some entries =>
      rw [hs] at hl
      simp only at hl
      split_ifs at hl with hempty
      · simp only [List.mem_singleton] at hl
        subst hl; rcases hv with rfl | rfl <;> decide
      · obtain ⟨e, he, hel⟩ := List.mem_filterMap.mp hl
        exact dirEntryLine_no_break v hv config directorytolist dirsonly e
          (hw localfile entries hs e he) hhost hext l hel

theorem cgiGophermapLoop_no_break (v : Nat) (hv : v = 10 ∨ v = 13)
    (config : MotsognirConfig) (urldir : List Nat)
    (garbage : Nat → List Nat) (hcur : v ∉ urldir) (hhost : v ∉ config.gopherhostname) :
    ∀ (fuel : Nat) (stream : List Nat),
    ∀ l ∈ cgiGophermapLoop config urldir garbage fuel stream, v ∉ l := by
  intro fuel
  induction fuel with
  | zero => intro stream l hl; rw [cgiGophermapLoop_zero] at hl; cases hl
  | succ fuel ih =>
    intro stream l hl
    rw [cgiGophermapLoop_succ] at hl
    rcases hr : sockreadline 4096 stream with ⟨_ | buf, rest⟩
    · rw [hr] at hl; cases hl
    · rw [hr] at hl
      simp only at hl
      have hbuf := sockreadline_no_break v hv _ _ _ _ hr
      by_cases hc : buf.head? = some 35
      · rw [if_pos hc] at hl
        exact ih rest l hl
      · rw [if_neg hc] at hl
        cases he : explodegophermapline (garbage fuel) (cstr buf) with
        | none => rw [he] at hl; cases hl
        | some item =>
          rw [he] at hl
          simp only at hl
          rcases List.mem_cons.mp hl with rfl | hl
          · exact built_line_no_break v hv _ _ item urldir config he
              (fun hm => hbuf (mem_cstr _ _ hm)) hcur hhost
          · exact ih rest l hl

theorem execCgiGophermap_no_break (v : Nat) (hv : v = 10 ∨ v = 13)
    (config : MotsognirConfig) (world : World)
    (localfile scriptname : List Nat) (launcher : Option (List Nat)) (garbage : Nat → List Nat)
    (hcur : v ∉ scriptname) (hhost : v ∉ config.gopherhostname) :
    ∀ l ∈ execCgiGophermap config world localfile scriptname launcher garbage, v ∉ l := by
  intro l hl
  unfold execCgiGophermap at hl
  simp only at hl
  have hdir : v ∉ getdirpart scriptname := by
    intro hm
    rcases mem_getdirpart scriptname v hm with h | h | h
    · exact hcur h
    · omega
    · omega
  split at hl
  · cases hl
  · exact cgiGophermapLoop_no_break v hv _ _ _ hdir hhost _ _ l hl

theorem gophermapLine_no_break (v : Nat) (hv : v = 10 ∨ v = 13)
    (config : MotsognirConfig) (world : World)
    (localfile directorytolist : List Nat) (k : Nat) (linebuff : List Nat)
    (hw : WorldNamesAvoid v world) (hl0 : v ∉ linebuff) (hcur : v ∉ directorytolist)
    (hhost : v ∉ config.gopherhostname) (hext : ∀ ext, config.extmap_lookup ext ≠ v) :
    ∀ l ∈ gophermapLine config world localfile directorytolist k linebuff, v ∉ l := by
  intro l hl
  unfold gophermapLine at hl
  by_cases c1 : linebuff.head? = some 35
  · rw [if_pos c1] at hl; cases hl
  rw [if_neg c1] at hl
  by_cases c2 : strcasecmp linebuff filesDirective = 0
  · rw [if_pos c2] at hl
    exact outputdircontent_no_break v hv _ _ _ _ _ hw hhost hext l hl
  rw [if_neg c2] at hl
  by_cases c3 : strcasecmp linebuff dirsDirective = 0
  · rw [if_pos c3] at hl
    exact outputdircontent_no_break v hv _ _ _ _ _ hw hhost hext l hl
  rw [if_neg c3] at hl
  cases he : explodegophermapline (world.tmpstring 0 k) linebuff with
  | none =>
    rw [he] at hl
    simp only [List.mem_singleton] at hl
    subst hl; rcases hv with rfl | rfl <;> decide
  | some item =>
    rw [he] at hl
    simp only at hl
    by_cases c4 : item.itemtype = 61
    · rw [if_pos c4] at hl
      by_cases c5 : config.subgophermaps ≠ 0
      · rw [if_pos c5] at hl
        cases hr : world.realpath item.itemdesc with
        | none => rw [hr] at hl; cases hl
        | some real =>
          rw [hr] at hl
          simp only at hl
          by_cases c6 : config.phpsupport ≠ 0 ∧ getfileextension item.itemdesc = [112, 104, 112]
          · rw [if_pos c6] at hl
            exact execCgiGophermap_no_break v hv _ _ _ _ _ _ hcur hhost l hl
          · rw [if_neg c6] at hl
            by_cases c7 : config.cgisupport ≠ 0
            · rw [if_pos c7] at hl
              exact execCgiGophermap_no_break v hv _ _ _ _ _ _ hcur hhost l hl
            · rw [if_neg c7] at hl; cases hl
      · rw [if_neg c5] at hl; cases hl
    · rw [if_neg c4] at hl
      simp only [List.mem_singleton] at hl
      subst hl
      exact built_line_no_break v hv _ _ item directorytolist config he hl0 hcur hhost

theorem gophermapLoop_no_break (v : Nat) (hv : v = 10 ∨ v = 13)
    (config : MotsognirConfig) (world : World)
    (localfile directorytolist : List Nat) (hw : WorldNamesAvoid v world)
    (hcur : v ∉ directorytolist) (hhost : v ∉ config.gopherhostname)
    (hext : ∀ ext, config.extmap_lookup ext ≠ v) :
    ∀ (fuel : Nat) (stream : List Nat),
    ∀ l ∈ gophermapLoop config world localfile directorytolist fuel stream, v ∉ l := by
  intro fuel
  induction fuel with
  | zero => intro stream l hl; rw [gophermapLoop_zero] at hl; cases hl
  | succ fuel ih =>
    intro stream l hl
    rw [gophermapLoop_succ] at hl
    rcases hr : sockreadline 1023 stream with ⟨_ | buf, rest⟩
    · rw [hr] at hl; cases hl
    · rw [hr] at hl
      simp only at hl
      have hbuf := sockreadline_no_break v hv _ _ _ _ hr
      rcases List.mem_append.mp hl with h1 | h1
      · exact gophermapLine_no_break v hv _ _ _ _ _ _ hw (fun hm => hbuf (mem_cstr _ _ hm)) hcur hhost
          hext l h1
      · exact ih rest l h1

theorem outputgophermap_no_break (v : Nat) (hv : v = 10 ∨ v = 13)
    (config : MotsognirConfig) (world : World)
    (localfile gophermapfile directorytolist : List Nat) (hw : WorldNamesAvoid v world)
    (hcur : v ∉ directorytolist) (hhost : v ∉ config.gopherhostname)
    (hext : ∀ ext, config.extmap_lookup ext ≠ v) :
    ∀ l ∈ outputgophermap config world localfile gophermapfile directorytolist, v ∉ l := by
  intro l hl
  unfold outputgophermap at hl
  split_ifs at hl
  · exact execCgiGophermap_no_break v hv _ _ _ _ _ _ hcur hhost l hl
  · exact execCgiGophermap_no_break v hv _ _ _ _ _ _ hcur hhost l hl
  · cases hf : world.fileContent gophermapfile with
    | none => rw [hf] at hl; cases hl
    | some bytes =>
      rw [hf] at hl
      exact gophermapLoop_no_break v hv _ _ _ _ hw hcur hhost hext _ _ l hl

theorem outputdirBody_no_break (v : Nat) (hv : v = 10 ∨ v = 13)
    (config : MotsognirConfig) (world : World)
    (localfile directorytolist : List Nat) (hw : WorldNamesAvoid v world)
    (hcur : v ∉ directorytolist) (hhost : v ∉ config.gopherhostname)
    (hext : ∀ ext, config.extmap_lookup ext ≠ v) :
    ∀ l ∈ outputdirBody config world localfile directorytolist, v ∉ l := by
  intro l hl
  unfold outputdirBody at hl
  split_ifs at hl
  · exact outputgophermap_no_break v hv _ _ _ _ _ hw hcur hhost hext l hl
  · exact execCgiGophermap_no_break v hv _ _ _ _ _ _ hcur hhost l hl
  · exact execCgiGophermap_no_break v hv _ _ _ _ _ _ hcur hhost l hl
  · cases hd : config.defaultgophermap with
    | none => rw [hd] at hl; exact outputdircontent_no_break v hv _ _ _ _ _ hw hhost hext l hl
    | some d => rw [hd] at hl; exact outputgophermap_no_break v hv _ _ _ _ _ hw hcur hhost hext l hl

/-- No line sent by `outputdir` holds an LF, when the names of the directory entries, the
selector, the hostname and the types of the extension map hold none of the two. -/
theorem outputdir_no_break (v : Nat) (hv : v = 10 ∨ v = 13)
    (config : MotsognirConfig) (world : World)
    (localfile directorytolist : List Nat) (hw : WorldNamesAvoid v world)
    (hcur : v ∉ directorytolist) (hhost : v ∉ config.gopherhostname)
    (hext : ∀ ext, config.extmap_lookup ext ≠ v) :
    ∀ l ∈ outputdir config world localfile directorytolist, v ∉ l := by
  intro l hl
  unfold outputdir at hl
  simp only at hl
  rcases List.mem_append.mp hl with h | h
  · refine outputdirBody_no_break v hv config world _ _ hw ?_ hhost hext l h
    split_ifs
    · intro hm
      rcases List.mem_append.mp hm with h1 | h1
      · exact hcur h1
      · simp at h1; omega
    · exact hcur
  · simp only [List.mem_singleton] at h
    subst h; rcases hv with rfl | rfl <;> decide

theorem sendtxtLoop_no_break (v : Nat) (hv : v = 10 ∨ v = 13)
    (n : Nat) : ∀ (fuel : Nat) (stream : List Nat),
    ∀ l ∈ sendtxtLoop n fuel stream, v ∉ l := by
  intro fuel
  induction fuel with
  | zero => intro stream l hl; rw [sendtxtLoop_zero] at hl; cases hl
  | succ fuel ih =>
    intro stream l hl
    rw [sendtxtLoop_succ] at hl
    rcases hr : sockreadline n stream with ⟨_ | buf, rest⟩
    · rw [hr] at hl; cases hl
    · rw [hr] at hl
      simp only at hl
      have hbuf := sockreadline_no_break v hv _ _ _ _ hr
      rcases List.mem_cons.mp hl with rfl | h1
      · by_cases hd : cstr buf = [46]
        · rw [if_pos hd]; rcases hv with rfl | rfl <;> decide
        · rw [if_neg hd]; exact fun hm => hbuf (mem_cstr _ _ hm)
      · exact ih rest l h1

theorem textFileResponse_no_break (v : Nat) (hv : v = 10 ∨ v = 13)
    (content : Option (List Nat)) :
    ∀ l ∈ textFileResponse content, v ∉ l := by
  intro l hl
  unfold textFileResponse at hl
  rcases List.mem_append.mp hl with h | h
  · unfold sendtxtfiletosock at h
    cases content with
    | none => cases h
    | some bytes => exact sendtxtLoop_no_break v hv _ _ _ l h
  · simp only [List.mem_singleton] at h
    subst h; rcases hv with rfl | rfl <;> decide

/-! ## Properties of the specification: the encoder and its buffer -/

set_option maxRecDepth 100000 in
/-- C7, as stated, fails: a string of 1021 letters `a` is shorter than the 1024-byte output
buffer, yet `percencode` writes only 1020 of them, so neither round trip gives the string
back. -/
theorem percent_round_trip_unreserved_counterexample :
    (List.replicate 1021 97).length + 1 ≤ 1024 ∧
    (∀ b ∈ List.replicate 1021 97, isUnreserved b = true) ∧
    percencode (List.replicate 1021 97) 1024 = List.replicate 1020 97 ∧
    percdecode (percencode (List.replicate 1021 97) 1024) = some (List.replicate 1020 97) ∧
    (percdecode (List.replicate 1021 97)).map (fun t => percencode t 1024)
      = some (List.replicate 1020 97) := by
  have h1 : percencode (List.replicate 1021 97) 1024 = List.replicate 1020 97 := by decide
  have h2 : ∀ n, percdecode (List.replicate n 97) = some (List.replicate n 97) := fun n =>
    percdecode_plain _ (fun h => by have := List.eq_of_mem_replicate h; omega)
      (fun h => by have := List.eq_of_mem_replicate h; omega)
  refine ⟨by decide, fun b hb => ?_, h1, ?_, ?_⟩
  · rw [List.eq_of_mem_replicate hb]; decide
  · rw [h1, h2]
  · rw [h2, Option.map_some', h1]

/-- C7, amended. For a string of unreserved bytes whose length leaves the four bytes of
headroom that `percencode` keeps below `dstmaxlen` (length + 4 at most the buffer size),
encoding then decoding, and decoding then encoding, both give the string back; and this
bound is exact: for a non-empty string of unreserved bytes each round trip gives the
string back only under it. -/
theorem percent_round_trip_on_unreserved (s : List Nat) (dstmaxlen : Nat)
    (hs : ∀ b ∈ s, isUnreserved b = true) :
    (s.length + 4 ≤ dstmaxlen →
      percdecode (percencode s dstmaxlen) = some s ∧
        (percdecode s).map (fun t => percencode t dstmaxlen) = some s) ∧
    (percdecode (percencode s dstmaxlen) = some s ↔ (s = [] ∨ s.length + 4 ≤ dstmaxlen)) ∧
    ((percdecode s).map (fun t => percencode t dstmaxlen) = some s ↔
      (s = [] ∨ s.length + 4 ≤ dstmaxlen)) := by
  have hcs : IsCString s := fun b hb => by
    have := unreserved_lt b (hs b hb)
    exact ⟨this.2.2.2, by omega⟩
  have hdrop : (referenceEncode s.dropLast).length = s.length - 1 := by
    rw [referenceEncode_unreserved _ (fun b hb => hs b (List.mem_of_mem_dropLast hb))]
    simp
  have hbound : (s = [] ∨ (referenceEncode s.dropLast).length + 4 < dstmaxlen) ↔
      (s = [] ∨ s.length + 4 ≤ dstmaxlen) := by
    rw [hdrop]
    rcases s with _ | ⟨c, r⟩
    · simp
    · simp only [reduceCtorEq, false_or, List.length_cons]
      omega
  have hdec : percdecode s = some s :=
    percdecode_plain s (fun hm => (unreserved_lt 37 (hs 37 hm)).2.1 rfl)
      (fun hm => (unreserved_lt 43 (hs 43 hm)).2.2.1 rfl)
  have h1 : percdecode (percencode s dstmaxlen) = some s ↔
      (s = [] ∨ s.length + 4 ≤ dstmaxlen) := by
    rw [round_trip_iff s dstmaxlen hcs, hbound]
  have h2 : (percdecode s).map (fun t => percencode t dstmaxlen) = some s ↔
      (s = [] ∨ s.length + 4 ≤ dstmaxlen) := by
    rw [hdec, Option.map_some', ← hbound,
      ← percencode_eq_reference_iff s dstmaxlen (fun b hb => (hcs b hb).2),
      referenceEncode_unreserved s hs]
    constructor
    · intro h; exact Option.some.inj h
    · intro h; rw [h]
  exact ⟨fun hfit => ⟨h1.mpr (Or.inr hfit), h2.mpr (Or.inr hfit)⟩, h1, h2⟩

/-- Witness for C7 amended: the selector `/a-Z.9~` with a 1024-byte buffer. -/
theorem percent_round_trip_on_unreserved_witness :
    percdecode (percencode [47, 97, 45, 90, 46, 57, 126] 1024)
        = some [47, 97, 45, 90, 46, 57, 126] ∧
      (percdecode [47, 97, 45, 90, 46, 57, 126]).map (fun t => percencode t 1024)
        = some [47, 97, 45, 90, 46, 57, 126] :=
  (percent_round_trip_on_unreserved [47, 97, 45, 90, 46, 57, 126] 1024 (by decide)).1
    (by decide)

set_option maxRecDepth 100000 in
/-- C8, as stated, fails: the encoding of 340 spaces followed by `a` has 1021 bytes and
fits the 1024-byte buffer, yet `percencode` stops after the 340 escapes and the `a` is
not written. -/
theorem percencode_cut_counterexample :
    (referenceEncode (List.replicate 340 32 ++ [97])).length = 1021 ∧
    percencode (List.replicate 340 32 ++ [97]) 1024
      = (List.replicate 340 [37, 50, 48]).flatten ∧
    percencode (List.replicate 340 32 ++ [97]) 1024
      ≠ referenceEncode (List.replicate 340 32 ++ [97]) := by
  have h1 : (referenceEncode (List.replicate 340 32 ++ [97])).length = 1021 := by decide
  have h2 : percencode (List.replicate 340 32 ++ [97]) 1024
      = (List.replicate 340 [37, 50, 48]).flatten := by decide
  have h3 : (List.replicate 340 [37, 50, 48]).flatten.length = 1020 := by decide
  refine ⟨h1, h2, fun h => ?_⟩
  have := congrArg List.length h
  rw [h2, h3, h1] at this
  omega

/-- C8, amended. When the encoding leaves the four bytes of headroom that `percencode`
keeps below `dstmaxlen`, `percencode` copies letters, digits and `-`, `/`, `_`, `.`, `~`,
and replaces any other byte, also those from `0x80` up, by `%` and its two uppercase hex
digits, in input order.  Exactly: the output is the reference encoding of the whole input
if and only if the input is empty or the encoding of all its bytes but the last leaves
more than four bytes of the buffer; in every case it is the reference encoding of the
first bytes of the input. -/
theorem percencode_refines_reference (src : List Nat) (dstmaxlen : Nat)
    (hbytes : IsCString src) :
    ((referenceEncode src).length + 4 ≤ dstmaxlen →
      percencode src dstmaxlen = referenceEncode src) ∧
    (percencode src dstmaxlen = referenceEncode src ↔
      (src = [] ∨ (referenceEncode src.dropLast).length + 4 < dstmaxlen)) ∧
    (∃ k, k ≤ src.length ∧ percencode src dstmaxlen = referenceEncode (src.take k)) := by
  have hb : ∀ b ∈ src, b < 256 := fun b hb => (hbytes b hb).2
  refine ⟨fun hfit => ?_, percencode_eq_reference_iff src dstmaxlen hb, ?_⟩
  · unfold percencode
    rw [percencodeLoop_fits dstmaxlen src [] hb (by simpa using hfit)]
    simp
  · obtain ⟨k, hk, heq, _⟩ := percencode_is_take src dstmaxlen hb
    exact ⟨k, hk, heq⟩

/-- Witness for C8 amended: `a`, space and byte `0xC8` encode to `a%20%C8`. -/
theorem percencode_refines_reference_witness :
    percencode [97, 32, 200] 1024 = [97, 37, 50, 48, 37, 67, 56] :=
  ((percencode_refines_reference [97, 32, 200] 1024 (by decide)).1 (by decide)).trans
    (by decide)

set_option maxRecDepth 100000 in
/-- C28, as stated, fails: the encoding of 340 bytes `+` followed by `a` has 1021 bytes and
fits the 1024-byte buffer, yet decoding what `percencode` wrote gives the 340 bytes `+`
without the `a`. -/
theorem percent_round_trip_cut_counterexample :
    (referenceEncode (List.replicate 340 43 ++ [97])).length = 1021 ∧
    IsCString (List.replicate 340 43 ++ [97]) ∧
    percdecode (percencode (List.replicate 340 43 ++ [97]) 1024)
      = some (List.replicate 340 43) := by
  decide

/-- C28, amended. For every string of bytes 1..255 whose encoding leaves the four bytes of
headroom that `percencode` keeps below `dstmaxlen`, `percdecode` succeeds on the output of
`percencode` and gives the string back; this covers `%`, `+`, space and the bytes above
127.  Exactly: the round trip gives the string back if and only if the string is empty or
the encoding of all its bytes but the last leaves more than four bytes of the buffer. -/
theorem percent_round_trip_general (s : List Nat) (dstmaxlen : Nat) (hs : IsCString s) :
    ((referenceEncode s).length + 4 ≤ dstmaxlen →
      percdecode (percencode s dstmaxlen) = some s) ∧
    (percdecode (percencode s dstmaxlen) = some s ↔
      (s = [] ∨ (referenceEncode s.dropLast).length + 4 < dstmaxlen)) := by
  refine ⟨fun hfit => ?_, round_trip_iff s dstmaxlen hs⟩
  unfold percencode
  rw [percencodeLoop_fits dstmaxlen s [] (fun b hb => (hs b hb).2) (by simpa using hfit)]
  exact percdecode_referenceEncode s hs

/-- Witness for C28 amended: the string `%+ é` (bytes `25 2B 20 C3 A9`) in a 1024-byte
buffer. -/
theorem percent_round_trip_general_witness :
    percdecode (percencode [37, 43, 32, 195, 169] 1024) = some [37, 43, 32, 195, 169] :=
  (percent_round_trip_general [37, 43, 32, 195, 169] 1024 (by decide)).1 (by decide)

/-! ## Properties of the specification: the terminator on the wire -/

/-- C19, as stated, fails: in the directory `/d/` holding, besides `.` and `..`, one file
whose name is `x`, CR, LF, `.`, CR, LF, `y` (a C string without `/`), the name is written
raw into the one string handed to `sendline`, and the response read line by line holds
the line `.` twice: as its second line, before the rest of the entry, and as its last
line. -/
theorem menu_response_terminator_counterexample :
    WorldNamesOk (listingWorld scenarioEntriesLineBreak) ∧
    List.Pairwise (fun a b => motsognir_dirsort a b ≤ 0) scenarioEntriesLineBreak ∧
    responseLines (wireBytes (outputdir scenarioConfig
        (listingWorld scenarioEntriesLineBreak) scenarioLocalDir [47, 100, 47]))
      = [[57, 120],
         [46],
         [121, 9, 47, 100, 47, 120, 37, 48, 68, 37, 48, 65, 46, 37, 48, 68, 37, 48, 65, 121, 9,
          101, 120, 97, 109, 112, 108, 101, 46, 111, 114, 103, 9, 55, 48],
         [46]] :=
  ⟨fun path es hs => listingWorld_entries _ (fun e => 0 ∉ e.d_name) (by decide) path es hs,
    by decide, by decide⟩

/-- C19, amended. When the names returned by `scandir` are C strings without LF, and
neither the selector, nor the hostname, nor a type of the extension map holds an LF, every
menu response ends with exactly one terminator: the lines of the response written by
`outputdir` (the bytes on the socket cut at each LF, the closing CR removed) are the
strings handed to `sendline`, none of which holds an LF; they are a body followed by the
line `.`, and no line of the body equals `.`.  The same holds for every text-file
response, whatever the file.  When moreover no CR is in the names, the selector, the
hostname and the types, no line of the menu holds a CR, and no line of a text file ever
does.  Every line built by `buildgophermapline` from a parsed gophermap line without NUL,
and every line of the directory lister (for names without NUL of at most 255 bytes and a
non-NUL gopher type), contains a TAB. -/
theorem menu_response_single_terminator (config : MotsognirConfig) (world : World)
    (localfile directorytolist : List Nat) (content : Option (List Nat))
    (hw : WorldNamesOk world) (hnames : WorldNamesAvoid 10 world)
    (hsel : 10 ∉ directorytolist) (hhost : 10 ∉ config.gopherhostname)
    (hext : ∀ ext, config.extmap_lookup ext ≠ 10) :
    (responseLines (wireBytes (outputdir config world localfile directorytolist))
        = outputdir config world localfile directorytolist ∧
      (∀ l ∈ outputdir config world localfile directorytolist, 10 ∉ l) ∧
      ∃ body, responseLines (wireBytes (outputdir config world localfile directorytolist))
          = body ++ [[46]] ∧ ∀ l ∈ body, l ≠ [46]) ∧
    (responseLines (wireBytes (textFileResponse content)) = textFileResponse content ∧
      (∀ l ∈ textFileResponse content, 10 ∉ l ∧ 13 ∉ l) ∧
      ∃ body, responseLines (wireBytes (textFileResponse content)) = body ++ [[46]] ∧
        ∀ l ∈ body, l ≠ [46]) ∧
    (WorldNamesAvoid 13 world → 13 ∉ directorytolist → 13 ∉ config.gopherhostname →
      (∀ ext, config.extmap_lookup ext ≠ 13) →
      ∀ l ∈ outputdir config world localfile directorytolist, 13 ∉ l) ∧
    (∀ tmpstring line item, explodegophermapline tmpstring line = some item → 0 ∉ line →
      9 ∈ cstr (buildgophermapline 4096 item.itemtype item.itemdesc item.itemselector
        item.itemserver item.itemport directorytolist config)) ∧
    (∀ dirsonly e l, 0 ∉ e.d_name → e.d_name.length ≤ 255 →
      DetectGopherType e.d_name config ≠ 0 →
      dirEntryLine config directorytolist dirsonly e = some l → 9 ∈ l) := by
  have hlf := outputdir_no_break 10 (Or.inl rfl) config world localfile directorytolist hnames
    hsel hhost hext
  have hwire := responseLines_wireBytes _ hlf
  have htlf := textFileResponse_no_break 10 (Or.inl rfl) content
  have htwire := responseLines_wireBytes _ htlf
  refine ⟨⟨hwire, hlf, _, hwire.trans rfl, outputdirBody_ok config world _ _ hw⟩,
    ⟨htwire, fun l hl => ⟨htlf l hl, textFileResponse_no_break 13 (Or.inr rfl) content l hl⟩,
      sendtxtfiletosock content, htwire.trans rfl, ?_⟩, ?_, ?_, ?_⟩
  · intro l hl
    unfold sendtxtfiletosock at hl
    cases content with
    | none => cases hl
    | some bytes => exact sendtxtLoop_ok _ _ _ l hl
  · intro h1 h2 h3 h4
    exact outputdir_no_break 13 (Or.inr rfl) config world localfile directorytolist h1 h2 h3 h4
  · intro tmpstring line item h h0
    unfold buildgophermapline
    exact menu_line_has_tab 4096 _ _ _ _ _
      (explodegophermapline_type_ne_zero tmpstring line item h h0)
      (explodegophermapline_desc_no_nul tmpstring line item h h0)
      (by have := (explodegophermapline_desc tmpstring line item h).2.1; omega)
  · intro dirsonly e l h0 hlen ht h
    unfold dirEntryLine at h
    split_ifs at h with c1 c2 c3 c4 c5 c6
    all_goals
      dsimp only at h
      simp only [Option.some.injEq] at h
      rw [← h]
      refine menu_line_has_tab 2048 _ _ _ _ _ ?_ h0 (by omega)
      first
        | exact ht
        | decide

/-- Witness for C19 amended: the directory `/d/` holding `.`, `..`, the directory `b` and
the file `a`, in the order of `scandir`; the response is the two menu lines and the line
`.`. -/
theorem menu_response_single_terminator_witness :
    WorldNamesOk (listingWorld scenarioEntries) ∧
    WorldNamesAvoid 10 (listingWorld scenarioEntries) ∧
    10 ∉ [47, 100, 47] ∧ 10 ∉ scenarioConfig.gopherhostname ∧
    (∀ ext, scenarioConfig.extmap_lookup ext ≠ 10) ∧
    responseLines (wireBytes (outputdir scenarioConfig (listingWorld scenarioEntries)
        scenarioLocalDir [47, 100, 47]))
      = [[49, 98, 9, 47, 100, 47, 98, 9, 101, 120, 97, 109, 112, 108, 101, 46, 111, 114, 103, 9,
          55, 48],
         [57, 97, 9, 47, 100, 47, 97, 9, 101, 120, 97, 109, 112, 108, 101, 46, 111, 114, 103, 9,
          55, 48],
         [46]] :=
  have hw : WorldNamesOk (listingWorld scenarioEntries) :=
    fun path es hs => listingWorld_entries _ (fun e => 0 ∉ e.d_name) (by decide) path es hs
  have hn : WorldNamesAvoid 10 (listingWorld scenarioEntries) :=
    fun path es hs => listingWorld_entries _ (fun e => 10 ∉ e.d_name) (by decide) path es hs
  have hext : ∀ ext, scenarioConfig.extmap_lookup ext ≠ 10 := by
    intro ext
    simp only [scenarioConfig]
    split_ifs <;> decide
  ⟨hw, hn, by decide, by decide, hext,
    (menu_response_single_terminator scenarioConfig (listingWorld scenarioEntries)
      scenarioLocalDir [47, 100, 47] none hw hn (by decide) (by decide) hext).1.1.trans
      (by decide)⟩

/-! ## Lemmas: the line of a listed entry -/

end Motsognir
